import Mathlib

/-!
# saucer-nodejs: the RPC and event bridge of `src/addon.cpp`

A shallow embedding of the parts of `src/addon.cpp` that carry the bridge
between the host runtime and the native webview: the JSON value bridge
(`StringifyForRPC`, `SerializeForRPC`, `ParseJson`, `CollectJsonArgs`), the
exposed-function executor (`Webview::Expose`), the event registry
(`RegisterEvent`, `EmitEvent`, `EvaluatePolicy`, `RemoveOnceCallbacks`,
`RemoveCallbackByFunction`), the scheme trampoline (`Webview::HandleScheme`),
the list of exposed functions (`Expose`, `ClearExposed`), the instance table
and the destructor (`FromHandle`, `~Webview`), the task queues of
`Application` (`Post`, `Dispatch`, `PoolSubmit`, `PoolEmplace` and their drain
callbacks), the script calls (`Execute`, `Evaluate`, and `format_runtime` of
`compat/private/webview.hpp`), `UrlEncode`, the heap payloads of the
non-blocking dispatch sites and the icon of `OnWebFavicon`, the forwarders
with their native subscriptions, the pickers of `Desktop` (with
`compat/desktop.cpp`), and the command line of `Notification::Show`
(`platform_linux.cpp`).

Conventions of the embedding.

* Host values are the inductive type `JsValue`.  Numbers carry an `Int`
  (floating point is outside the embedding), functions and promises are
  opaque apart from what the code can observe of them.
* The host facility `JSON.stringify` / `JSON.parse` and the generic document
  library (`glz::json_t`, `glz::read_json`, `glz::write_json`) are external to
  the repository.  JSON text is represented by its parse tree `JsonText`; the
  lexical layer (escapes, white space, spelling of numbers) belongs to those
  libraries and is not represented.
* A C++ exception of type `Napi::Error` is the `error` side of `Except
  JsValue`, carrying the thrown host value.
* A `Napi::ThreadSafeFunction` is identified by a number.  Calling one
  (`BlockingCall`, `NonBlockingCall`) appends a call to the queue that the
  host thread drains when it returns to its loop; see `Webview.BlockingCall`.
* A host callback is given by what it does when called: it returns a value or
  throws one.  It does not call back into the instance while it runs, except
  in `Webview.runPendingActing`, where what it does to the instance is given
  as well.  The instance is used from one thread at a time.
* The completions of an execution handle or of a scheme executor are recorded
  as a list, in the order in which they happen.
* Bytes are natural numbers below 256.  Objects on the C++ heap are followed
  by the list of what is done to them (`HeapEvent`), and a read outside an
  array is an outcome of its own.
* The command line given to `system` is read as a POSIX shell reads it, as far
  as quotation, expansion and command separators go (`sh.read`).
* The arguments built for an event (the `invoker` parameter of `EmitEvent` and
  `EvaluatePolicy`) and the release of the reference to a host function
  (`callback_ref.Reset()`) have no effect on the registry and are not
  recorded.
-/

namespace Saucer

/-! ## Host values -/

/-- Host (JavaScript) values, as far as the bridge can tell them apart.
`error m` is an `Error` instance whose own, non-enumerable `message` property
is the string `m` (what `Napi::Error::New(env, m).Value()` yields).  A native
promise is tagged with the way it eventually settles. -/
inductive JsValue where
  | undefined
  | null
  | boolean (b : Bool)
  | number (n : Int)
  | string (s : String)
  | bigint (n : Int)
  | symbol (description : String)
  | function (ref : Nat)
  | error (message : String)
  | buffer (bytes : List Nat)
  | promisePending
  | promiseFulfils (value : JsValue)
  | promiseRejects (reason : JsValue)
  | array (items : List JsValue)
  | object (props : List (String × JsValue))

namespace JsValue

/-- The test `Napi::Value::IsUndefined`. -/
def IsUndefined : JsValue → Bool
  | undefined => true
  | _ => false

/-- The test `Napi::Value::IsNull`. -/
def IsNull : JsValue → Bool
  | null => true
  | _ => false

/-- The test `Napi::Value::IsBoolean` (primitive booleans only). -/
def IsBoolean : JsValue → Bool
  | boolean _ => true
  | _ => false

/-- The test `Napi::Value::IsString` (primitive strings only). -/
def IsString : JsValue → Bool
  | string _ => true
  | _ => false

/-- The test `Napi::Value::IsNumber`. -/
def IsNumber : JsValue → Bool
  | number _ => true
  | _ => false

/-- The test `Napi::Value::IsArray`. -/
def IsArray : JsValue → Bool
  | array _ => true
  | _ => false

/-- The test `Napi::Value::IsPromise`. -/
def IsPromise : JsValue → Bool
  | promisePending => true
  | promiseFulfils _ => true
  | promiseRejects _ => true
  | _ => false

/-- The test `Napi::Value::IsBuffer`. -/
def IsBuffer : JsValue → Bool
  | buffer _ => true
  | _ => false

/-- The test `Napi::Value::IsObject`: true of every value of type object and,
in the C++ wrapper, of functions too. -/
def IsObject : JsValue → Bool
  | function _ => true
  | error _ => true
  | buffer _ => true
  | promisePending => true
  | promiseFulfils _ => true
  | promiseRejects _ => true
  | array _ => true
  | object _ => true
  | _ => false

/-- First member stored under `key` in a member list. -/
def lookupProp (key : String) : List (String × JsValue) → Option JsValue
  | [] => none
  | (k, v) :: rest => if k = key then some v else lookupProp key rest

/-- The property read `obj.Get(key)` guarded by `obj.Has(key)`: `none` when the
object has no such property.  Only the properties the bridge reads are
represented: the members of a plain object and the `message` of an error. -/
def getProp (key : String) : JsValue → Option JsValue
  | object props => lookupProp key props
  | error message => if key = "message" then some (string message) else none
  | _ => none

/-- Keys of a member list, in order. -/
def keysOf : List (String × JsValue) → List String
  | [] => []
  | (k, _) :: rest => k :: keysOf rest

end JsValue

/-! ## JSON text and the generic JSON document -/

/-- A JSON text, represented by its parse tree.  An object keeps its members in
the order in which they are written. -/
inductive JsonText where
  | null
  | bool (b : Bool)
  | num (n : Int)
  | str (s : String)
  | arr (items : List JsonText)
  | obj (members : List (String × JsonText))

/-- The generic JSON document `glz::json_t`.  Its object alternative is a
`std::map<std::string, json_t>`: the members are kept sorted by key, one per
key. -/
inductive json_t where
  | null
  | boolean (b : Bool)
  | number (n : Int)
  | string (s : String)
  | array (items : List json_t)
  | object (members : List (String × json_t))

/-- Lexicographic comparison of character sequences by code point. -/
def charsLt : List Char → List Char → Bool
  | [], [] => false
  | [], _ :: _ => true
  | _ :: _, [] => false
  | a :: as, b :: bs =>
    if a.toNat < b.toNat then true
    else if a.toNat = b.toNat then charsLt as bs
    else false

/-- The order `std::less<std::string>` of the keys of a `std::map`. -/
def keyLt (a b : String) : Bool :=
  charsLt a.data b.data

/-- Insertion into a `std::map` kept as a key-sorted list: a new key is placed
at its sorted position, an existing key has its value replaced. -/
def mapInsert {α : Type} (k : String) (v : α) : List (String × α) → List (String × α)
  | [] => [(k, v)]
  | (k', v') :: rest =>
    if keyLt k k' then (k, v) :: (k', v') :: rest
    else if k = k' then (k, v) :: rest
    else (k', v') :: mapInsert k v rest

/-- The members are in strictly increasing order of their keys. -/
def KeySorted {α : Type} (m : List (String × α)) : Prop :=
  m.Pairwise fun p q => keyLt p.1 q.1 = true

/-- Assignment of a property on a host object: an existing key keeps its place
and takes the new value, a new key is appended. -/
def propSet (k : String) (v : JsValue) : List (String × JsValue) → List (String × JsValue)
  | [] => [(k, v)]
  | (k', v') :: rest => if k' = k then (k', v) :: rest else (k', v') :: propSet k v rest

mutual
/-- The host facility `JSON.stringify` on one value (`SerializeJSONProperty` of
the language standard): `ok none` is the result `undefined`, `error e` is a
thrown value. -/
def JSON_stringify : JsValue → Except JsValue (Option JsonText)
  | .undefined => .ok none
  | .null => .ok (some .null)
  | .boolean b => .ok (some (.bool b))
  | .number n => .ok (some (.num n))
  | .string s => .ok (some (.str s))
  | .bigint _ => .error (.error "Do not know how to serialize a BigInt")
  | .symbol _ => .ok none
  | .function _ => .ok none
  | .error _ => .ok (some (.obj []))
  | .buffer bytes =>
    .ok (some (.obj [("type", .str "Buffer"), ("data", .arr (bytes.map fun b => .num b))]))
  | .promisePending => .ok (some (.obj []))
  | .promiseFulfils _ => .ok (some (.obj []))
  | .promiseRejects _ => .ok (some (.obj []))
  | .array items =>
    match JSON_stringifyArray items with
    | .ok ts => .ok (some (.arr ts))
    | .error e => .error e
  | .object props =>
    match JSON_stringifyObject props with
    | .ok ms => .ok (some (.obj ms))
    | .error e => .error e
/-- Elements of an array: an element without JSON text is written `null`. -/
def JSON_stringifyArray : List JsValue → Except JsValue (List JsonText)
  | [] => .ok []
  | x :: xs =>
    match JSON_stringify x with
    | .error e => .error e
    | .ok t =>
      match JSON_stringifyArray xs with
      | .error e => .error e
      | .ok ts => .ok (t.getD .null :: ts)
/-- Members of an object: a member without JSON text is left out. -/
def JSON_stringifyObject : List (String × JsValue) → Except JsValue (List (String × JsonText))
  | [] => .ok []
  | (k, v) :: rest =>
    match JSON_stringify v with
    | .error e => .error e
    | .ok t =>
      match JSON_stringifyObject rest with
      | .error e => .error e
      | .ok ms =>
        match t with
        | some t => .ok ((k, t) :: ms)
        | none => .ok ms
end

mutual
/-- The host facility `JSON.parse` on a JSON text. -/
def JSON_parse : JsonText → JsValue
  | .null => .null
  | .bool b => .boolean b
  | .num n => .number n
  | .str s => .string s
  | .arr items => .array (JSON_parseArray items)
  | .obj members => .object (JSON_parseObject members [])
/-- Elements of a parsed array. -/
def JSON_parseArray : List JsonText → List JsValue
  | [] => []
  | t :: ts => JSON_parse t :: JSON_parseArray ts
/-- Members of a parsed object, assigned one after the other onto `acc`. -/
def JSON_parseObject : List (String × JsonText) → List (String × JsValue) → List (String × JsValue)
  | [], acc => acc
  | (k, t) :: rest, acc => JSON_parseObject rest (propSet k (JSON_parse t) acc)
end

namespace glz

mutual
/-- The document built by `glz::read_json<glz::json_t>` from a JSON text. -/
def toDocument : JsonText → json_t
  | .null => .null
  | .bool b => .boolean b
  | .num n => .number n
  | .str s => .string s
  | .arr items => .array (toDocumentArray items)
  | .obj members => .object (toDocumentObject members [])
/-- Elements of a read array. -/
def toDocumentArray : List JsonText → List json_t
  | [] => []
  | t :: ts => toDocument t :: toDocumentArray ts
/-- Members of a read object, inserted one after the other into the map `acc`. -/
def toDocumentObject : List (String × JsonText) → List (String × json_t) → List (String × json_t)
  | [], acc => acc
  | (k, t) :: rest, acc => toDocumentObject rest (mapInsert k (toDocument t) acc)
end

/-- The call `glz::read_json<glz::json_t>(text)`: `none` is the unexpected
(error) alternative of its result.  A text given by its parse tree is always
well formed, so reading it succeeds. -/
def read_json (text : JsonText) : Option json_t :=
  some (toDocument text)

mutual
/-- The call `glz::write_json(doc)`: the members of an object are written in
the order of the map. -/
def write_json : json_t → JsonText
  | .null => .null
  | .boolean b => .bool b
  | .number n => .num n
  | .string s => .str s
  | .array items => .arr (write_jsonArray items)
  | .object members => .obj (write_jsonObject members)
/-- Elements of a written array. -/
def write_jsonArray : List json_t → List JsonText
  | [] => []
  | d :: ds => write_json d :: write_jsonArray ds
/-- Members of a written object. -/
def write_jsonObject : List (String × json_t) → List (String × JsonText)
  | [] => []
  | (k, d) :: rest => (k, write_json d) :: write_jsonObject rest
end

end glz

/-! ## The JSON value bridge of `addon.cpp` -/

/-- The function `Webview::StringifyForRPC` (addon.cpp 3942-3987). -/
def StringifyForRPC (value : JsValue) : Except JsValue JsonText :=
  if value.IsUndefined || value.IsNull then
    .ok .null
  else
    let viaMessage : Option JsonText :=
      if value.IsObject then
        match value.getProp "message" with
        | some msg =>
          if msg.IsString then
            match JSON_stringify msg with
            | .ok (some jsonVal) => some jsonVal
            | _ => none
          else none
        | none => none
      else none
    match viaMessage with
    | some jsonVal => .ok jsonVal
    | none =>
      match JSON_stringify value with
      | .error e => .error e
      | .ok none => .error (.error "Failed to stringify RPC value")
      | .ok (some jsonVal) => .ok jsonVal

/-- The function `Webview::SerializeForRPC` (addon.cpp 3991-4011). -/
def SerializeForRPC (value : JsValue) : Except JsValue json_t :=
  if value.IsUndefined || value.IsNull then
    match glz.read_json .null with
    | some nullValue => .ok nullValue
    | none => .ok .null
  else
    match StringifyForRPC value with
    | .error e => .error e
    | .ok jsonStr =>
      match glz.read_json jsonStr with
      | none => .error (.error "Failed to parse RPC payload")
      | some parsed => .ok parsed

/-- The function `Webview::ParseJson` (addon.cpp 4015-4023). -/
def ParseJson (jsonStr : JsonText) : JsValue :=
  JSON_parse jsonStr

/-- The loop of `Webview::CollectJsonArgs` over the arguments still to do. -/
def CollectJsonArgs.loop : List JsValue → List json_t → Except JsValue (List json_t)
  | [], args => .ok args
  | v :: rest, args =>
    match JSON_stringify v with
    | .error e => .error e
    | .ok none => .error (.error "Failed to serialize argument to JSON")
    | .ok (some jsonStr) =>
      match glz.read_json jsonStr with
      | none => .error (.error "Failed to parse serialized argument")
      | some parsed => CollectJsonArgs.loop rest (args ++ [parsed])

/-- The function `Webview::CollectJsonArgs` (addon.cpp 4027-4081): `info` are
the arguments of the host call, converted from index `startIndex` on. -/
def CollectJsonArgs (info : List JsValue) (startIndex : Nat) : Except JsValue (List json_t) :=
  if info.length ≤ startIndex then .ok []
  else CollectJsonArgs.loop (info.drop startIndex) []

/-! ## The exposed-function executor: `Webview::Expose` -/

/-- Outcome of calling a host function: it returns a value or throws one. -/
inductive CallResult where
  | returns (value : JsValue)
  | throws (error : JsValue)

/-- The `std::string` handed to `executor->reject`: either JSON text produced
by `StringifyForRPC` or one of the fixed messages of the source. -/
inductive RejectReason where
  | json (text : JsonText)
  | literal (message : String)

/-- A completion of the native execution handle `saucer::executor<glz::json_t>`. -/
inductive ExecutorEvent where
  | resolve (value : json_t)
  | reject (reason : RejectReason)

/-- Effect of a piece of the executor lambda: the completions it performs on the
execution handle, in order, and the `Napi::Error` that leaves it, if any. -/
abbrev ExecutorEffect := List ExecutorEvent × Option JsValue

namespace Expose

/-- The lambda `reject_with` (addon.cpp 3518-3526): the handler of the first
`catch` runs `StringifyForRPC` again and is itself unguarded. -/
def reject_with (reason : JsValue) : ExecutorEffect :=
  match StringifyForRPC reason with
  | .ok text => ([.reject (.json text)], none)
  | .error err =>
    match StringifyForRPC err with
    | .ok text => ([.reject (.json text)], none)
    | .error e => ([], some e)

/-- The lambda `resolve_with` (addon.cpp 3530-3538). -/
def resolve_with (value : JsValue) : ExecutorEffect :=
  match SerializeForRPC value with
  | .ok doc => ([.resolve doc], none)
  | .error err =>
    match StringifyForRPC err with
    | .ok text => ([.reject (.json text)], none)
    | .error e => ([], some e)

/-- The continuation `on_resolve` (addon.cpp 3578-3588): no `try` around it. -/
def on_resolve (val : JsValue) : ExecutorEffect :=
  match SerializeForRPC val with
  | .ok doc => ([.resolve doc], none)
  | .error e => ([], some e)

/-- The continuation `on_reject` (addon.cpp 3592-3602): no `try` around it. -/
def on_reject (reason : JsValue) : ExecutorEffect :=
  match StringifyForRPC reason with
  | .ok text => ([.reject (.json text)], none)
  | .error e => ([], some e)

/-- Arguments spread from the parsed parameter text (addon.cpp 3546-3566). -/
def arguments (parsed : JsValue) : List JsValue :=
  match parsed with
  | .array items => items
  | v => if !v.IsUndefined && !v.IsNull then [v] else []

/-- The lambda run on the host thread for one queued call (addon.cpp 3510-3624),
together with what the continuations attached by `promise.Then` do once the
returned promise settles.  An exception that leaves a continuation rejects the
promise derived by `Then`; it does not reach the execution handle. -/
def callJs (jsCallback : List JsValue → CallResult) (params : JsonText) : ExecutorEffect :=
  let parsed := ParseJson params
  let args := arguments parsed
  match jsCallback args with
  | .throws err => reject_with err
  | .returns result =>
    if result.IsPromise then
      match result with
      | .promiseFulfils val => ((on_resolve val).1, none)
      | .promiseRejects reason => ((on_reject reason).1, none)
      | _ => ([], none)
    else
      match resolve_with result with
      | (events, none) => (events, none)
      | (events, some err) => (events ++ (reject_with err).1, (reject_with err).2)

/-- The function registered with `handle->expose` (addon.cpp 3488-3636), for one
invocation from the page: all completions of the execution handle of that
invocation, in order.  `status_ok` tells whether `NonBlockingCall` returned
`napi_ok`; when it did, the queued lambda is run by the host thread. -/
def handler (status_ok : Bool) (jsCallback : List JsValue → CallResult)
    (params : List json_t) : List ExecutorEvent :=
  let params_json := glz.write_json (.array params)
  if status_ok then (callJs jsCallback params_json).1
  else [.reject (.literal "Failed to dispatch RPC to JavaScript")]

end Expose

/-! ## The event registry -/

/-- The enumeration `SAUCER_WINDOW_EVENT`. -/
inductive SAUCER_WINDOW_EVENT where
  | DECORATED | MAXIMIZE | MINIMIZE | CLOSED | RESIZE | FOCUS | CLOSE
  deriving DecidableEq, Repr

/-- The enumeration `SAUCER_WEB_EVENT`. -/
inductive SAUCER_WEB_EVENT where
  | DOM_READY | NAVIGATED | NAVIGATE | FAVICON | TITLE | LOAD
  deriving DecidableEq, Repr

/-- The function `MapWindowEventName` (addon.cpp 1675-1693); `none` is `false`. -/
def MapWindowEventName (name : String) : Option SAUCER_WINDOW_EVENT :=
  if name = "decorated" then some .DECORATED
  else if name = "maximize" then some .MAXIMIZE
  else if name = "minimize" then some .MINIMIZE
  else if name = "closed" then some .CLOSED
  else if name = "resize" then some .RESIZE
  else if name = "focus" then some .FOCUS
  else if name = "close" then some .CLOSE
  else none

/-- The function `MapWebEventName` (addon.cpp 1697-1713); `none` is `false`. -/
def MapWebEventName (name : String) : Option SAUCER_WEB_EVENT :=
  if name = "dom-ready" then some .DOM_READY
  else if name = "navigated" then some .NAVIGATED
  else if name = "navigate" then some .NAVIGATE
  else if name = "favicon" then some .FAVICON
  else if name = "title" then some .TITLE
  else if name = "load" then some .LOAD
  else none

/-- The record `CallbackData` (addon.cpp 300-310).  `tsfn` identifies the
thread-safe function made for this registration, `callback_ref` the host
function it refers to (two references are strictly equal exactly when they
name the same function). -/
structure CallbackData where
  tsfn : Nat
  id : Nat
  once : Bool
  callback_ref : Nat
  deriving DecidableEq, Repr

/-- The record `ExposedCallback` (addon.cpp 330-336). -/
structure ExposedCallback where
  name : String
  tsfn : Nat
  deriving DecidableEq, Repr

/-- The record `SchemeHandler` (addon.cpp 492-495); `tsfn` is a shared pointer
and may be empty. -/
structure SchemeHandler where
  name : String
  tsfn : Option Nat
  deriving DecidableEq, Repr

/-- A request made of the native layer by the registry. -/
inductive NativeCall where
  | window_on (event : SAUCER_WINDOW_EVENT) (id : Nat)
  | window_once (event : SAUCER_WINDOW_EVENT)
  | webview_on (event : SAUCER_WEB_EVENT) (id : Nat)
  | webview_once (event : SAUCER_WEB_EVENT)
  | window_remove (event : SAUCER_WINDOW_EVENT) (id : Nat)
  | webview_remove (event : SAUCER_WEB_EVENT) (id : Nat)
  | window_clear (event : SAUCER_WINDOW_EVENT)
  | webview_clear (event : SAUCER_WEB_EVENT)
  | handle_scheme (name : String) (async : Bool)
  | expose (name : String)
  | clear_exposed (name : Option String)
  | free
  deriving DecidableEq, Repr

/-- What a queued call does when the host thread runs it: the lambda of
`EmitEvent`, or the lambda of `EvaluatePolicy` writing to the shared verdict
`allow_state` number `cell`. -/
inductive CallKind where
  | emit
  | policy (cell : Nat)
  deriving DecidableEq, Repr

/-- A call placed in the queue of a thread-safe function. -/
structure QueuedCall where
  tsfn : Nat
  callback : Nat
  kind : CallKind
  deriving DecidableEq, Repr

/-- One `Webview` instance together with the parts of the host runtime and of
the native layer that its registry acts on.

* `event_callbacks_`, `exposed_callbacks_`, `scheme_handlers_`: the members of
  the class; the unordered map is a list of (event, vector) pairs.
* `next_tsfn`: the next thread-safe function that `ThreadSafeFunction::New`
  hands out.
* `released`: every `Release` performed on a thread-safe function, in order.
* `queue`: the calls queued on thread-safe functions and not yet run.
* `invoked`: the thread-safe functions whose host callback has been run, in
  the order of the runs.
* `cells`: the shared verdicts (`std::shared_ptr<bool>`) allocated so far.
* `native`: the requests made of the native layer, in order.
* `webview_`: the native handle; `none` is `nullptr`.
* `message_tsfn_`: the thread-safe function of `onMessage`; `none` is empty. -/
structure Webview where
  event_callbacks_ : List (String × List CallbackData) := []
  exposed_callbacks_ : List ExposedCallback := []
  scheme_handlers_ : List SchemeHandler := []
  next_tsfn : Nat := 0
  released : List Nat := []
  queue : List QueuedCall := []
  invoked : List Nat := []
  cells : List Bool := []
  native : List NativeCall := []
  webview_ : Option Nat := none
  message_tsfn_ : Option Nat := none
  deriving DecidableEq, Repr

namespace Webview

/-- The lookup `event_callbacks_.find(event)`; `none` is `end()`. -/
def findCallbacks (event : String) :
    List (String × List CallbackData) → Option (List CallbackData)
  | [] => none
  | (e, vec) :: rest => if e = event then some vec else findCallbacks event rest

/-- The vector stored under `event` replaced by `vec` (the write through
`it->second`, or through `event_callbacks_[event]` when the key is new). -/
def storeCallbacks (event : String) (vec : List CallbackData) :
    List (String × List CallbackData) → List (String × List CallbackData)
  | [] => [(event, vec)]
  | (e, old) :: rest =>
    if e = event then (e, vec) :: rest else (e, old) :: storeCallbacks event vec rest

/-- The removal `event_callbacks_.erase(it)` of the pair stored under `event`. -/
def eraseCallbacks (event : String) :
    List (String × List CallbackData) → List (String × List CallbackData)
  | [] => []
  | (e, old) :: rest => if e = event then rest else (e, old) :: eraseCallbacks event rest

/-- The calls `tsfn.BlockingCall(data, lambda)` and `tsfn.NonBlockingCall(data,
lambda)` on a thread-safe function created with queue size 0 (unlimited), as
every one in `addon.cpp` is (`ThreadSafeFunction::New(env, cb, name, 0, 1)`).
The call is appended to the queue of the function and the status is returned
at once; the lambda runs when the host thread next drains the queue
(`runPending`).  The two calls differ only on a full queue, where the
blocking one waits for room; neither waits for the lambda to run.  The
callers are written for that: the payload handed over is allocated on the
heap and deleted by the lambda, and the verdict of `EvaluatePolicy` is a
`std::shared_ptr<bool>` owned by the payloads.  The native loop is pumped on
the host thread (`Application::OnTimer`, `OnCheck`, `OnPrepare` call
`saucer_application_run_once`), so the callers of this function run on the
very thread that has to run the queued lambdas.  A function that has been
released accepts no call; the status is then not `napi_ok` (`false`). -/
def BlockingCall (w : Webview) (call : QueuedCall) : Bool × Webview :=
  if call.tsfn ∈ w.released then (false, w)
  else (true, { w with queue := w.queue ++ [call] })

/-- The call `tsfn.Release()`. -/
def Release (w : Webview) (tsfn : Nat) : Webview :=
  { w with released := w.released ++ [tsfn] }

/-- The function `Webview::RegisterEvent` (addon.cpp 4085-4307).  `cb` is the
host function, `nativeId` the id that `saucer_window_on` / `saucer_webview_on`
returns for a persistent registration.  Every enumerator has its `case`, so a
mapped event is always registered. -/
def RegisterEvent (w : Webview) (event : String) (cb : Nat) (once : Bool) (nativeId : Nat) :
    Bool × Webview :=
  let window_event := MapWindowEventName event
  let web_event := if window_event.isSome then none else MapWebEventName event
  let tsfn := w.next_tsfn
  let data : CallbackData :=
    { tsfn := tsfn, id := if once then 0 else nativeId, once := once, callback_ref := cb }
  let stored := storeCallbacks event ((findCallbacks event w.event_callbacks_).getD [] ++ [data])
    w.event_callbacks_
  match window_event, web_event with
  | some we, _ =>
    (true, { w with
      next_tsfn := tsfn + 1
      native := w.native ++ [if once then .window_once we else .window_on we nativeId]
      event_callbacks_ := stored })
  | none, some ev =>
    (true, { w with
      next_tsfn := tsfn + 1
      native := w.native ++ [if once then .webview_once ev else .webview_on ev nativeId]
      event_callbacks_ := stored })
  | none, none => (false, w)

/-- The function `Webview::RemoveOnceCallbacks` (addon.cpp 4426-4452). -/
def RemoveOnceCallbacks (w : Webview) (event : String) : Webview :=
  match findCallbacks event w.event_callbacks_ with
  | none => w
  | some vec =>
    { w with event_callbacks_ :=
        storeCallbacks event (vec.filter fun cb => !cb.once) w.event_callbacks_ }

/-- The body of the `for` loops of `Webview::EmitEvent` (addon.cpp 4333-4359)
and of `Webview::EvaluatePolicy` (addon.cpp 4388-4420) for one entry `cb` of
the copied vector: the call is queued on the thread-safe function of the
entry, its status is not looked at, and the function of a `once` entry is
released. -/
def dispatchTo (kind : CallKind) (w : Webview) (cb : CallbackData) : Webview :=
  let w1 := (w.BlockingCall { tsfn := cb.tsfn, callback := cb.callback_ref, kind := kind }).2
  if cb.once then w1.Release cb.tsfn else w1

/-- The loop of `Webview::EmitEvent` over the copied vector (addon.cpp 4333-4359). -/
def emitLoop (w : Webview) (callbacks : List CallbackData) : Webview :=
  callbacks.foldl (dispatchTo .emit) w

/-- The function `Webview::EmitEvent` (addon.cpp 4311-4365). -/
def EmitEvent (w : Webview) (event : String) : Webview :=
  match findCallbacks event w.event_callbacks_ with
  | none => w
  | some callbacks => (w.emitLoop callbacks).RemoveOnceCallbacks event

/-- The loop of `Webview::EvaluatePolicy` over the copied vector (addon.cpp
4388-4420); `cell` is the shared verdict `allow_state`. -/
def policyLoop (cell : Nat) (w : Webview) (callbacks : List CallbackData) : Webview :=
  callbacks.foldl (dispatchTo (.policy cell)) w

/-- The function `Webview::EvaluatePolicy` (addon.cpp 4369-4424): the verdict it
returns is the content of `allow_state` at the `return`. -/
def EvaluatePolicy (w : Webview) (event : String) : Bool × Webview :=
  match findCallbacks event w.event_callbacks_ with
  | none => (true, w)
  | some callbacks =>
    let cell := w.cells.length
    let w1 := { w with cells := w.cells ++ [true] }
    let w2 := (policyLoop cell w1 callbacks).RemoveOnceCallbacks event
    (w2.cells.getD cell true, w2)

/-- The lambda queued by `EmitEvent` or `EvaluatePolicy`, run by the host
thread (addon.cpp 4341-4349 and 4392-4415).  `js ref` is what the host
function `ref` does when it is called with the arguments of the event. -/
def runCall (js : Nat → CallResult) (w : Webview) (call : QueuedCall) : Webview :=
  let w1 := { w with invoked := w.invoked ++ [call.tsfn] }
  match call.kind with
  | .emit => w1
  | .policy cell =>
    match js call.callback with
    | .returns result =>
      if result.IsBoolean then
        match result with
        | .boolean false => { w1 with cells := w1.cells.set cell false }
        | _ => w1
      else if result.IsString then
        match result with
        | .string val => if val = "block" then { w1 with cells := w1.cells.set cell false } else w1
        | _ => w1
      else w1
    | .throws _ => { w1 with cells := w1.cells.set cell false }

/-- The host thread back in its loop: it runs the queued calls, oldest first. -/
def runPending (js : Nat → CallResult) (w : Webview) : Webview :=
  w.queue.foldl (runCall js) { w with queue := [] }

/-- The pass of `std::remove_if` in `RemoveCallbackByFunction` (addon.cpp
4506-4526): the entries kept, the ids pushed to `ids` and the thread-safe
functions released, each in the order of the vector. -/
def removeMatching (cb : Nat) : List CallbackData → List CallbackData × List Nat × List Nat
  | [] => ([], [], [])
  | data :: rest =>
    let r := removeMatching cb rest
    if data.callback_ref = cb then
      (r.1, (if data.id ≠ 0 then [data.id] else []) ++ r.2.1, data.tsfn :: r.2.2)
    else (data :: r.1, r.2.1, r.2.2)

/-- The function `Webview::RemoveCallbackByFunction` (addon.cpp 4488-4556). -/
def RemoveCallbackByFunction (w : Webview) (event : String) (cb : Nat) : Webview :=
  match findCallbacks event w.event_callbacks_ with
  | none => w
  | some vec =>
    let r := removeMatching cb vec
    let w1 := { w with
      event_callbacks_ := storeCallbacks event r.1 w.event_callbacks_
      released := w.released ++ r.2.2 }
    match MapWindowEventName event with
    | some we => { w1 with native := w1.native ++ r.2.1.map (NativeCall.window_remove we) }
    | none =>
      match MapWebEventName event with
      | some ev => { w1 with native := w1.native ++ r.2.1.map (NativeCall.webview_remove ev) }
      | none => w1

/-- The function `Webview::RemoveAllCallbacks` (addon.cpp 4560-4608). -/
def RemoveAllCallbacks (w : Webview) (event : String) : Webview :=
  match findCallbacks event w.event_callbacks_ with
  | none => w
  | some vec =>
    let w1 := { w with
      event_callbacks_ := eraseCallbacks event w.event_callbacks_
      released := w.released ++ vec.map (·.tsfn) }
    match MapWindowEventName event with
    | some we => { w1 with native := w1.native ++ [.window_clear we] }
    | none =>
      match MapWebEventName event with
      | some ev => { w1 with native := w1.native ++ [.webview_clear ev] }
      | none => w1

/-- The method `Webview::Off` (addon.cpp 3324-3350) on the argument list `info`. -/
def Off (w : Webview) (info : List JsValue) : Except JsValue Webview :=
  match info with
  | .string event :: .function cb :: _ => .ok (w.RemoveCallbackByFunction event cb)
  | .string event :: _ => .ok (w.RemoveAllCallbacks event)
  | _ => .error (.error "Usage: off(event, callback?)")

/-- The method `Webview::HandleScheme` (addon.cpp 2988-3220) on the argument
list `info`: the entry is appended to `scheme_handlers_` with a new thread-safe
function and the trampoline is handed to the native layer. -/
def HandleScheme (w : Webview) (info : List JsValue) : Except JsValue Webview :=
  match info with
  | .string name :: .function _ :: rest =>
    let async :=
      match rest with
      | .string policyStr :: _ => decide (policyStr = "async")
      | _ => false
    .ok { w with
      next_tsfn := w.next_tsfn + 1
      scheme_handlers_ := w.scheme_handlers_ ++ [{ name := name, tsfn := some w.next_tsfn }]
      native := w.native ++ [.handle_scheme name async] }
  | _ => .error (.error "Usage: handleScheme(name, handler, policy?)")

/-- One thing that happens to an instance between registrations: the native
layer raises an event through `EmitEvent`, asks for a verdict through
`EvaluatePolicy`, or the host thread returns to its loop. -/
inductive Emission where
  | emit (event : String)
  | policy (event : String)
  | hostLoop

/-- The instance after one emission. -/
def step (js : Nat → CallResult) (w : Webview) : Emission → Webview
  | .emit event => w.EmitEvent event
  | .policy event => (w.EvaluatePolicy event).2
  | .hostLoop => w.runPending js

/-- The instance after a sequence of emissions. -/
def run (js : Nat → CallResult) (w : Webview) (trace : List Emission) : Webview :=
  trace.foldl (step js) w

/-- Number of calls of the thread-safe function `tsfn` that have been
dispatched so far: those already run and those still queued. -/
def dispatches (w : Webview) (tsfn : Nat) : Nat :=
  w.invoked.count tsfn + (w.queue.map (·.tsfn)).count tsfn

/-- Whether the result of a policy handler is a veto in the words of the contract: the boolean
`false`, the string `"block"`, or a thrown error. -/
def denies : CallResult → Bool
  | .returns (.boolean false) => true
  | .returns (.string val) => val == "block"
  | .throws _ => true
  | _ => false

/-- Number of registrations of the map that use the thread-safe function `t`. -/
def regCount (t : Nat) (m : List (String × List CallbackData)) : Nat :=
  (((m.map (·.2)).flatten).map (·.tsfn)).count t

/-- All registrations of the registry, event after event. -/
def registrations (w : Webview) : List CallbackData :=
  (w.event_callbacks_.map (·.2)).flatten

/-- The bookkeeping behind the at-most-once property of the thread-safe function `t`: every
registration that uses `t` is a `once` registration, and the registrations that use `t`
together with the calls of `t` dispatched so far number at most one. -/
def OnceTracked (t : Nat) (w : Webview) : Prop :=
  (∀ d ∈ w.registrations, d.tsfn = t → d.once = true) ∧
    regCount t w.event_callbacks_ + w.dispatches t ≤ 1

/-- Every thread-safe function the instance knows of was handed out before `next_tsfn`. -/
def Fresh (w : Webview) : Prop :=
  (∀ d ∈ w.registrations, d.tsfn < w.next_tsfn) ∧
  (∀ x ∈ w.invoked, x < w.next_tsfn) ∧
  (∀ c ∈ w.queue, c.tsfn < w.next_tsfn)

/-- The method `Webview::On` (addon.cpp 3268-3292) on the argument list `info`;
`nativeId` is the id the native layer returns for the subscription. -/
def On (w : Webview) (info : List JsValue) (nativeId : Nat) : Except JsValue Webview :=
  match info with
  | .string event :: .function cb :: _ =>
    let r := w.RegisterEvent event cb false nativeId
    if r.1 then .ok r.2 else .error (.error ("Unsupported event: " ++ event))
  | _ => .error (.error "Usage: on(event, callback)")

/-- The method `Webview::Once` (addon.cpp 3296-3320) on the argument list `info`. -/
def Once (w : Webview) (info : List JsValue) (nativeId : Nat) : Except JsValue Webview :=
  match info with
  | .string event :: .function cb :: _ =>
    let r := w.RegisterEvent event cb true nativeId
    if r.1 then .ok r.2 else .error (.error ("Unsupported event: " ++ event))
  | _ => .error (.error "Usage: once(event, callback)")

/-- The registration part of the method `Webview::Expose` (addon.cpp 3408-3640)
on the argument list `info`: the entry is appended to `exposed_callbacks_` with
a new thread-safe function and the trampoline (`Expose.handler`) is handed to
the native layer. -/
def Expose (w : Webview) (info : List JsValue) : Except JsValue Webview :=
  match info with
  | .string name :: .function _ :: _ =>
    match w.webview_ with
    | none => .error (.error "Native webview handle unavailable")
    | some _ =>
      .ok { w with
        next_tsfn := w.next_tsfn + 1
        exposed_callbacks_ := w.exposed_callbacks_ ++ [{ name := name, tsfn := w.next_tsfn }]
        native := w.native ++ [.expose name] }
  | _ => .error (.error "Usage: expose(name, callback, options?)")

/-- The method `Webview::ClearExposed` (addon.cpp 3642-3690) on the argument
list `info`.  The entries leave the vector through `erase` / `clear`; no
`Release` is called on their thread-safe functions. -/
def ClearExposed (w : Webview) (info : List JsValue) : Except JsValue Webview :=
  match w.webview_ with
  | none => .error (.error "Native webview handle unavailable")
  | some _ =>
    match info with
    | .string name :: _ =>
      .ok { w with
        native := w.native ++ [.clear_exposed (some name)]
        exposed_callbacks_ := w.exposed_callbacks_.filter fun cb => !decide (cb.name = name) }
    | _ =>
      .ok { w with
        native := w.native ++ [.clear_exposed none]
        exposed_callbacks_ := [] }

/-- The end of the constructor `Webview::Webview` (addon.cpp 1989-1993):
`instances_[webview_] = this`.  The static map `instances_` is a list of
(handle, wrapper) pairs; `self` is the address of the wrapper. -/
def recordInstance (instances_ : List (Nat × Nat)) (handle self : Nat) : List (Nat × Nat) :=
  (handle, self) :: instances_.filter fun kv => !decide (kv.1 = handle)

/-- The function `Webview::FromHandle` (addon.cpp 3870-3884); `none` is
`nullptr`. -/
def FromHandle (instances_ : List (Nat × Nat)) (handle : Nat) : Option Nat :=
  match instances_.find? fun kv => decide (kv.1 = handle) with
  | none => none
  | some it => some it.2

/-- The destructor `Webview::~Webview` (addon.cpp 2001-2071) acting on the
static map `instances_` and on the instance.  It releases the thread-safe
functions of `exposed_callbacks_`, of `scheme_handlers_` and of
`message_tsfn_`; `event_callbacks_` is not mentioned in it, and the members of
a `CallbackData` that the destruction of the map then destroys
(`Napi::ThreadSafeFunction`) release nothing on destruction. -/
def destructor (instances_ : List (Nat × Nat)) (w : Webview) : List (Nat × Nat) × Webview :=
  let instances1 : List (Nat × Nat) :=
    match w.webview_ with
    | some handle => instances_.filter fun kv => !decide (kv.1 = handle)
    | none => instances_
  let w1 : Webview := { w with
    released := w.released ++ w.exposed_callbacks_.map (·.tsfn)
    exposed_callbacks_ := [] }
  let w2 : Webview := { w1 with
    released := w1.released ++ w1.scheme_handlers_.filterMap (·.tsfn)
    scheme_handlers_ := [] }
  let w3 : Webview :=
    match w2.message_tsfn_ with
    | some tsfn => w2.Release tsfn
    | none => w2
  match w3.webview_ with
  | some _ => (instances1, { w3 with native := w3.native ++ [.free], webview_ := none })
  | none => (instances1, w3)

/-- The bookkeeping of the registry that holds on every instance that can be
reached: no thread-safe function is used by two registrations, none of a
registration has been released, and none was handed out at or after
`next_tsfn`. -/
def Registered (w : Webview) : Prop :=
  (∀ t, regCount t w.event_callbacks_ ≤ 1) ∧
  (∀ t ∈ w.released, regCount t w.event_callbacks_ = 0) ∧
  (∀ t, w.next_tsfn ≤ t → regCount t w.event_callbacks_ = 0 ∧ t ∉ w.released)

end Webview

/-! ## The scheme trampoline: `Webview::HandleScheme` -/

/-- The search `hay.find(needle)` of `std::string`: the position of the first
occurrence of `needle` in `hay`; `none` is `npos`. -/
def std_find (needle : List Char) : List Char → Option Nat
  | [] => if needle.isPrefixOf [] then some 0 else none
  | c :: cs =>
    if needle.isPrefixOf (c :: cs) then some 0 else (std_find needle cs).map (· + 1)

/-- The lookup loop of the trampoline (addon.cpp 3042-3047): the first entry of
`scheme_handlers_` that passes the test on the URL. -/
def findSchemeHandler (urlStr : String) : List SchemeHandler → Option SchemeHandler
  | [] => none
  | h :: rest =>
    if std_find (h.name ++ "://").data urlStr.data = some 0
        ∨ std_find (h.name ++ ":").data urlStr.data = some 0 then some h
    else findSchemeHandler urlStr rest

/-- The error codes `SAUCER_REQUEST_ERROR_*` handed to the scheme executor. -/
inductive SAUCER_SCHEME_ERROR where
  | NOT_FOUND | INVALID | DENIED | FAILED
  deriving DecidableEq, Repr

/-- Content of the stash built by `saucer_stash_from`: the bytes of a host
string or the bytes of a buffer. -/
inductive StashData where
  | text (s : String)
  | bytes (b : List Nat)
  deriving DecidableEq, Repr

/-- A response built with `saucer_scheme_response_new`. -/
structure SchemeResponse where
  data : StashData
  mime : String
  status : Option Int
  headers : List (String × String)
  deriving DecidableEq, Repr

/-- Something done to a `saucer_scheme_executor`. -/
inductive SchemeExecutorEvent where
  | resolve (response : SchemeResponse)
  | reject (error : SAUCER_SCHEME_ERROR)
  | free
  deriving DecidableEq, Repr

/-- What the trampoline reads from a `saucer_scheme_request`; `none` is a null
pointer. -/
structure SchemeRequest where
  url : Option String
  method : Option String
  content : Option (List Nat)
  headers : List (Option String × Option String)

namespace HandleScheme

/-- The conversion `Napi::Number::Int32Value` on an integral number. -/
def Int32Value (n : Int) : Int :=
  (n + 2147483648) % 4294967296 - 2147483648

/-- The members of a plain object whose value is a string (addon.cpp 3160-3167). -/
def stringMembers : List (String × JsValue) → List (String × String)
  | [] => []
  | (k, .string v) :: rest => (k, v) :: stringMembers rest
  | _ :: rest => stringMembers rest

/-- The elements of an array as members named by their index, from `start` on
(what `GetPropertyNames` and `Get` see of an array). -/
def indexMembers (start : Nat) : List JsValue → List (String × JsValue)
  | [] => []
  | v :: rest => (toString start, v) :: indexMembers (start + 1) rest

/-- The lambda `resolveResponse` (addon.cpp 3123-3176).  Of the values that can
stand under `headers`, plain objects and arrays have enumerable properties
that can hold strings. -/
def resolveResponse (result : JsValue) : List SchemeExecutorEvent :=
  if result.IsObject then
    let stash : Option StashData :=
      match result.getProp "data" with
      | some (.string dataStr) => some (.text dataStr)
      | some (.buffer buf) => some (.bytes buf)
      | _ => none
    match stash with
    | none => [.reject .FAILED, .free]
    | some stash =>
      let mime :=
        match result.getProp "mime" with
        | some (.string m) => m
        | _ => "text/html"
      let status :=
        match result.getProp "status" with
        | some (.number n) => some (Int32Value n)
        | _ => none
      let headers :=
        match result.getProp "headers" with
        | some (.object hdrs) => stringMembers hdrs
        | some (.array items) => stringMembers (indexMembers 0 items)
        | _ => []
      [.resolve { data := stash, mime := mime, status := status, headers := headers }, .free]
  else [.reject .FAILED, .free]

/-- The lambda `rejectResponse` (addon.cpp 3178-3181). -/
def rejectResponse (error : SAUCER_SCHEME_ERROR) : List SchemeExecutorEvent :=
  [.reject error, .free]

/-- The request object built for the handler (addon.cpp 3107-3121). -/
def requestObject (url method : String) (content : List Nat)
    (headers : List (String × String)) : JsValue :=
  .object
    [("url", .string url), ("method", .string method),
     ("content", if content.isEmpty then .null else .buffer content),
     ("headers", .object (headers.foldl (fun acc kv => propSet kv.1 (.string kv.2) acc) []))]

/-- The lambda run on the host thread for one queued request (addon.cpp
3103-3215), together with what the continuations attached by `promise.Then`
do once the returned promise settles. -/
def callJs (jsCallback : JsValue → CallResult) (url method : String) (content : List Nat)
    (headers : List (String × String)) : List SchemeExecutorEvent :=
  match jsCallback (requestObject url method content headers) with
  | .throws _ => rejectResponse .FAILED
  | .returns result =>
    if result.IsPromise then
      match result with
      | .promiseFulfils val => resolveResponse val
      | .promiseRejects _ => rejectResponse .FAILED
      | _ => []
    else resolveResponse result

/-- The trampoline given to `saucer_webview_handle_scheme` (addon.cpp 3025-3217),
for one request: everything done to the executor of that request, in order.
`self` is the result of `FromHandle`, `status_ok tsfn` tells whether
`NonBlockingCall` on `tsfn` returns `napi_ok`, and `js tsfn` is the host
function behind `tsfn`.  The status of `NonBlockingCall` is not looked at by
the trampoline. -/
def trampoline (self : Option Webview) (request : SchemeRequest) (status_ok : Nat → Bool)
    (js : Nat → JsValue → CallResult) : List SchemeExecutorEvent :=
  match self with
  | none => [.reject .FAILED, .free]
  | some self =>
    let urlStr := request.url.getD ""
    match findSchemeHandler urlStr self.scheme_handlers_ with
    | none => [.reject .NOT_FOUND, .free]
    | some handler_entry =>
      match handler_entry.tsfn with
      | none => [.reject .NOT_FOUND, .free]
      | some tsfn =>
        let methodStr := request.method.getD "GET"
        let contentData := request.content.getD []
        let headers := request.headers.map fun kv => (kv.1.getD "", kv.2.getD "")
        if status_ok tsfn then callJs (js tsfn) urlStr methodStr contentData headers
        else []

/-- The part of the trampoline that runs on the thread of the native layer
(addon.cpp 3025-3101): what it does to the executor itself, and the thread-safe
function it then calls `NonBlockingCall` on, if it gets that far. -/
def dispatchTarget (self : Option Webview) (request : SchemeRequest) :
    List SchemeExecutorEvent × Option Nat :=
  match self with
  | none => ([.reject .FAILED, .free], none)
  | some self =>
    let urlStr := request.url.getD ""
    match findSchemeHandler urlStr self.scheme_handlers_ with
    | none => ([.reject .NOT_FOUND, .free], none)
    | some handler_entry =>
      match handler_entry.tsfn with
      | none => ([.reject .NOT_FOUND, .free], none)
      | some tsfn => ([], some tsfn)

end HandleScheme

/-! ## The task queues of `Application` -/

/-- The record `Application::PostTask` (addon.cpp 201-205).  `callback` is the
host function the thread-safe function `tsfn` was made for. -/
structure PostTask where
  tsfn : Nat
  callback : Nat
  deriving DecidableEq, Repr

/-- The record `Application::DispatchTask` (addon.cpp 209-215); `deferred` is a
shared pointer and may be empty. -/
structure DispatchTask where
  tsfn : Nat
  callback : Nat
  deferred : Option Nat
  deriving DecidableEq, Repr

/-- The record `Application::PoolTask` (addon.cpp 219-225). -/
structure PoolTask where
  tsfn : Nat
  callback : Nat
  deferred : Option Nat
  deriving DecidableEq, Repr

/-- The drain callbacks that `Application` hands to the native layer. -/
inductive DrainCallback where
  | ProcessPostTask
  | ProcessDispatchTask
  | ProcessPoolTask
  deriving DecidableEq, Repr

/-- A request made of the native layer by `Application`. -/
inductive ApplicationCall where
  | saucer_application_post (callback : DrainCallback)
  | saucer_application_pool_emplace (callback : DrainCallback)
  deriving DecidableEq, Repr

/-- The lambda that a drain callback queues on the thread-safe function of a
task: the one of `ProcessPostTask`, or the one of `ProcessDispatchTask` /
`ProcessPoolTask` together with the `deferred` of the task it holds. -/
inductive TaskLambda where
  | post
  | dispatch (deferred : Option Nat)
  | pool (deferred : Option Nat)
  deriving DecidableEq, Repr

/-- A call placed in the queue of the thread-safe function of a task. -/
structure TaskCall where
  tsfn : Nat
  callback : Nat
  lambda : TaskLambda
  deriving DecidableEq, Repr

/-- What was done to a `Napi::Promise::Deferred`. -/
inductive Settlement where
  | Resolve (value : JsValue)
  | Reject (value : JsValue)

/-- The class `Application` together with the parts of the host runtime and of
the native layer that its task queues act on.

* `app_`: the native handle; `none` is `nullptr`.
* `post_queue_`, `dispatch_queue_`, `pool_queue_`: the static queues, front
  first.
* `next_tsfn`, `next_deferred`: the next thread-safe function and the next
  deferred that the host runtime hands out.
* `released`: every `Release` performed on a thread-safe function, in order.
* `queue`: the calls queued on thread-safe functions and not yet run.
* `invoked`: the calls that the host thread has run, in the order of the runs.
* `settled`: every `Resolve` and `Reject` performed on a deferred, in order.
* `thrown`: the exceptions handed back to the host runtime by the lambda of
  `ProcessPostTask`.
* `native`: the requests made of the native layer, in order. -/
structure Application where
  app_ : Option Nat := none
  post_queue_ : List PostTask := []
  dispatch_queue_ : List DispatchTask := []
  pool_queue_ : List PoolTask := []
  next_tsfn : Nat := 0
  next_deferred : Nat := 0
  released : List Nat := []
  queue : List TaskCall := []
  invoked : List TaskCall := []
  settled : List (Nat × Settlement) := []
  thrown : List JsValue := []
  native : List ApplicationCall := []

namespace Application

/-- The call `tsfn.NonBlockingCall(data, lambda)` on a thread-safe function
created with queue size 0 (see `Webview.BlockingCall`). -/
def NonBlockingCall (a : Application) (call : TaskCall) : Bool × Application :=
  if call.tsfn ∈ a.released then (false, a)
  else (true, { a with queue := a.queue ++ [call] })

/-- The call `tsfn.Release()`. -/
def Release (a : Application) (tsfn : Nat) : Application :=
  { a with released := a.released ++ [tsfn] }

/-- The method `Application::Post` (addon.cpp 1171-1231) on the argument list
`info`. -/
def Post (a : Application) (info : List JsValue) : Except JsValue Application :=
  match info with
  | .function cb :: _ =>
    match a.app_ with
    | none => .error (.error "Application handle is not available")
    | some _ =>
      .ok { a with
        next_tsfn := a.next_tsfn + 1
        post_queue_ := a.post_queue_ ++ [{ tsfn := a.next_tsfn, callback := cb }]
        native := a.native ++ [.saucer_application_post .ProcessPostTask] }
  | _ => .error (.error "Callback must be a function")

/-- The method `Application::Dispatch` (addon.cpp 1235-1301) on the argument
list `info`; the number returned is the deferred whose promise is returned. -/
def Dispatch (a : Application) (info : List JsValue) : Except JsValue (Nat × Application) :=
  match info with
  | .function cb :: _ =>
    match a.app_ with
    | none => .error (.error "Application handle is not available")
    | some _ =>
      .ok (a.next_deferred, { a with
        next_deferred := a.next_deferred + 1
        next_tsfn := a.next_tsfn + 1
        dispatch_queue_ := a.dispatch_queue_ ++
          [{ tsfn := a.next_tsfn, callback := cb, deferred := some a.next_deferred }]
        native := a.native ++ [.saucer_application_post .ProcessDispatchTask] })
  | _ => .error (.error "Callback must be a function")

/-- The method `Application::PoolSubmit` (addon.cpp 1305-1373) on the argument
list `info`; the number returned is the deferred whose promise is returned. -/
def PoolSubmit (a : Application) (info : List JsValue) : Except JsValue (Nat × Application) :=
  match info with
  | .function cb :: _ =>
    match a.app_ with
    | none => .error (.error "Application handle is not available")
    | some _ =>
      .ok (a.next_deferred, { a with
        next_deferred := a.next_deferred + 1
        next_tsfn := a.next_tsfn + 1
        pool_queue_ := a.pool_queue_ ++
          [{ tsfn := a.next_tsfn, callback := cb, deferred := some a.next_deferred }]
        native := a.native ++ [.saucer_application_pool_emplace .ProcessPoolTask] })
  | _ => .error (.error "Callback must be a function")

/-- The method `Application::PoolEmplace` (addon.cpp 1377-1439) on the argument
list `info`. -/
def PoolEmplace (a : Application) (info : List JsValue) : Except JsValue Application :=
  match info with
  | .function cb :: _ =>
    match a.app_ with
    | none => .error (.error "Application handle is not available")
    | some _ =>
      .ok { a with
        next_tsfn := a.next_tsfn + 1
        pool_queue_ := a.pool_queue_ ++
          [{ tsfn := a.next_tsfn, callback := cb, deferred := none }]
        native := a.native ++ [.saucer_application_pool_emplace .ProcessPoolTask] }
  | _ => .error (.error "Callback must be a function")

/-- The method `Application::Make` (addon.cpp 1443-1449). -/
def Make (a : Application) (info : List JsValue) : Except JsValue (Nat × Application) :=
  a.Dispatch info

/-- The drain callback `Application::ProcessPostTask` (addon.cpp 1471-1513). -/
def ProcessPostTask (a : Application) : Application :=
  match a.post_queue_ with
  | [] => a
  | task :: rest =>
    let a1 : Application := { a with post_queue_ := rest }
    let a2 := (a1.NonBlockingCall
      { tsfn := task.tsfn, callback := task.callback, lambda := .post }).2
    a2.Release task.tsfn

/-- The drain callback `Application::ProcessDispatchTask` (addon.cpp
1517-1585); the status of `NonBlockingCall` is not looked at. -/
def ProcessDispatchTask (a : Application) : Application :=
  match a.dispatch_queue_ with
  | [] => a
  | task :: rest =>
    let a1 : Application := { a with dispatch_queue_ := rest }
    (a1.NonBlockingCall
      { tsfn := task.tsfn, callback := task.callback, lambda := .dispatch task.deferred }).2

/-- The drain callback `Application::ProcessPoolTask` (addon.cpp 1589-1657). -/
def ProcessPoolTask (a : Application) : Application :=
  match a.pool_queue_ with
  | [] => a
  | task :: rest =>
    let a1 : Application := { a with pool_queue_ := rest }
    (a1.NonBlockingCall
      { tsfn := task.tsfn, callback := task.callback, lambda := .pool task.deferred }).2

/-- The part of the lambdas of `ProcessDispatchTask` and `ProcessPoolTask`
between the `try` and the `Release` (addon.cpp 1545-1573 and 1617-1645):
`js ref` is what the host function `ref` does when it is called without
arguments. -/
def settle (js : Nat → CallResult) (a : Application) (callback : Nat) (deferred : Option Nat) :
    Application :=
  match js callback with
  | .returns result =>
    match deferred with
    | some d => { a with settled := a.settled ++ [(d, .Resolve result)] }
    | none => a
  | .throws err =>
    match deferred with
    | some d => { a with settled := a.settled ++ [(d, .Reject err)] }
    | none => a

/-- The lambda queued by a drain callback, run by the host thread (addon.cpp
1489-1507, 1539-1579 and 1611-1651). -/
def runCall (js : Nat → CallResult) (a : Application) (call : TaskCall) : Application :=
  let a1 : Application := { a with invoked := a.invoked ++ [call] }
  match call.lambda with
  | .post =>
    match js call.callback with
    | .returns _ => a1
    | .throws err => { a1 with thrown := a1.thrown ++ [err] }
  | .dispatch deferred => (a1.settle js call.callback deferred).Release call.tsfn
  | .pool deferred => (a1.settle js call.callback deferred).Release call.tsfn

/-- The host thread back in its loop: every queued call is run, in the order
of the queue. -/
def runPending (js : Nat → CallResult) (a : Application) : Application :=
  a.queue.foldl (runCall js) { a with queue := [] }

/-- One thing that happens to the task queues: a call of one of the methods
with the host function `cb`, a drain callback run by the native layer, or the
host thread returning to its loop. -/
inductive Event where
  | post (cb : Nat)
  | dispatch (cb : Nat)
  | poolSubmit (cb : Nat)
  | poolEmplace (cb : Nat)
  | drainPost
  | drainDispatch
  | drainPool
  | hostLoop
  deriving DecidableEq, Repr

/-- The state after one event; a method that throws leaves it as it was. -/
def step (js : Nat → CallResult) (a : Application) : Event → Application
  | .post cb =>
    match a.Post [.function cb] with
    | .ok a1 => a1
    | .error _ => a
  | .dispatch cb =>
    match a.Dispatch [.function cb] with
    | .ok r => r.2
    | .error _ => a
  | .poolSubmit cb =>
    match a.PoolSubmit [.function cb] with
    | .ok r => r.2
    | .error _ => a
  | .poolEmplace cb =>
    match a.PoolEmplace [.function cb] with
    | .ok a1 => a1
    | .error _ => a
  | .drainPost => a.ProcessPostTask
  | .drainDispatch => a.ProcessDispatchTask
  | .drainPool => a.ProcessPoolTask
  | .hostLoop => a.runPending js

/-- The state after a sequence of events. -/
def run (js : Nat → CallResult) (a : Application) (trace : List Event) : Application :=
  trace.foldl (step js) a

end Application

/-- The deferred that a queued lambda settles, if any. -/
def TaskLambda.deferred : TaskLambda → Option Nat
  | .post => none
  | .dispatch deferred => deferred
  | .pool deferred => deferred

/-- The settlement that the contract promises for the result of a callback:
resolved with the value it returns, rejected with the error it throws. -/
def promisedSettlement : CallResult → Settlement
  | .returns value => .Resolve value
  | .throws err => .Reject err

namespace Application

/-- Number of tasks in the three queues that hold the thread-safe function `t`. -/
def queuedUses (a : Application) (t : Nat) : Nat :=
  (a.post_queue_.map (·.tsfn)).count t + (a.dispatch_queue_.map (·.tsfn)).count t
    + (a.pool_queue_.map (·.tsfn)).count t

/-- Number of tasks and calls that hold the thread-safe function `t`: the tasks
in the queues, the calls queued for the host thread and the calls it has run. -/
def uses (a : Application) (t : Nat) : Nat :=
  a.queuedUses t + (a.queue.map (·.tsfn)).count t + (a.invoked.map (·.tsfn)).count t

/-- Number of tasks and queued calls that hold the deferred `d` and have not
settled it yet. -/
def unsettled (a : Application) (d : Nat) : Nat :=
  (a.dispatch_queue_.map (·.deferred)).count (some d)
    + (a.pool_queue_.map (·.deferred)).count (some d)
    + (a.queue.map (·.lambda.deferred)).count (some d)

/-- Everything done to the deferred `d` so far, in order. -/
def settlements (a : Application) (d : Nat) : List Settlement :=
  (a.settled.filter fun s => decide (s.1 = d)).map (·.2)

/-- The host functions of the calls that `ProcessPostTask` has dispatched so
far, in the order of the dispatches: the calls already run, then the calls
still queued for the host thread. -/
def dispatchedPosts (a : Application) : List Nat :=
  ((a.invoked ++ a.queue).filter fun c => decide (c.lambda = .post)).map (·.callback)

/-- The thread-safe functions of the calls that `ProcessPostTask` has
dispatched so far, in the order of the dispatches. -/
def dispatchedPostTsfns (a : Application) : List Nat :=
  ((a.invoked ++ a.queue).filter fun c => decide (c.lambda = .post)).map (·.tsfn)

/-- The host functions handed to `post` in a sequence of events, in order. -/
def posted : List Event → List Nat
  | [] => []
  | .post cb :: rest => cb :: posted rest
  | _ :: rest => posted rest

/-- The bookkeeping that holds on every state the events can produce from the
initial one: the native handle is there, no thread-safe function is held by
two tasks or calls, none held by a queued task has been released, and no
thread-safe function and no deferred in use was handed out at or after
`next_tsfn`, `next_deferred`. -/
def Sound (a : Application) : Prop :=
  a.app_.isSome = true ∧
  (∀ t, a.uses t ≤ 1) ∧
  (∀ t ∈ a.released, a.queuedUses t = 0) ∧
  (∀ t, a.next_tsfn ≤ t → a.uses t = 0 ∧ t ∉ a.released) ∧
  (∀ d, a.next_deferred ≤ d → a.unsettled d = 0 ∧ a.settlements d = [])

/-- The thread-safe functions released by the lambdas of the calls when the
host thread runs them, in order. -/
def releasedBy : List TaskCall → List Nat
  | [] => []
  | c :: rest =>
    (match c.lambda with
      | .post => []
      | _ => [c.tsfn]) ++ releasedBy rest

/-- What the lambdas of the calls do to the deferreds when the host thread runs
them, in order, if every callback settles as the contract promises. -/
def settledBy (js : Nat → CallResult) : List TaskCall → List (Nat × Settlement)
  | [] => []
  | c :: rest =>
    (match c.lambda.deferred with
      | some d => [(d, promisedSettlement (js c.callback))]
      | none => []) ++ settledBy js rest

/-- The bookkeeping of the deferred `d` whose promise was returned for the host
function `f`: as long as a task or a queued call holds `d` nothing has been
done to it, afterwards it has been settled once, as the contract promises for
the result of `f`; one task or call at most holds it, and whichever holds it
calls `f`. -/
def Tracks (js : Nat → CallResult) (d f : Nat) (a : Application) : Prop :=
  a.settlements d = List.replicate (1 - a.unsettled d) (promisedSettlement (js f)) ∧
  a.unsettled d ≤ 1 ∧
  d < a.next_deferred ∧
  (∀ task ∈ a.dispatch_queue_, task.deferred = some d → task.callback = f) ∧
  (∀ task ∈ a.pool_queue_, task.deferred = some d → task.callback = f) ∧
  (∀ c ∈ a.queue, c.lambda.deferred = some d → c.callback = f)

/-- Number of tasks and queued calls that hold a deferred they have yet to
settle. -/
def awaiting (a : Application) : Nat :=
  (a.dispatch_queue_.filter fun task => task.deferred.isSome).length
    + (a.pool_queue_.filter fun task => task.deferred.isSome).length
    + (a.queue.filter fun c => c.lambda.deferred.isSome).length

/-- Number of calls of `dispatch` and `poolSubmit` in a sequence of events. -/
def promised : List Event → Nat
  | [] => 0
  | .dispatch _ :: rest => promised rest + 1
  | .poolSubmit _ :: rest => promised rest + 1
  | _ :: rest => promised rest

end Application

/-! ## The data URI of `Webview::LoadHtml` -/

/-- The classification `isalnum` of `<cctype>` on an `unsigned char`, in the C
locale: the digits and the unaccented letters of ASCII. -/
def isalnum (c : Nat) : Bool :=
  (decide ('0'.toNat ≤ c) && decide (c ≤ '9'.toNat)) ||
  (decide ('A'.toNat ≤ c) && decide (c ≤ 'Z'.toNat)) ||
  (decide ('a'.toNat ≤ c) && decide (c ≤ 'z'.toNat))

namespace UrlEncode

/-- The table `hex` of `UrlEncode` (addon.cpp 2607). -/
def hex : List Nat :=
  "0123456789ABCDEF".data.map Char.toNat

/-- The body of the loop of `UrlEncode` (addon.cpp 2601-2612) for one byte `c`
of the input: what is appended to `encoded`. -/
def step (c : Nat) : List Nat :=
  if isalnum c || c = '-'.toNat || c = '_'.toNat || c = '.'.toNat || c = '~'.toNat ||
      c = '!'.toNat || c = '\''.toNat || c = '('.toNat || c = ')'.toNat || c = '*'.toNat then
    [c]
  else if c = ' '.toNat then
    "%20".data.map Char.toNat
  else
    ['%'.toNat, hex.getD ((c >>> 4) &&& 0xF) 0, hex.getD (c &&& 0xF) 0]

end UrlEncode

/-- The function `UrlEncode` (addon.cpp 2597-2615) on the bytes of `str`, each an
`unsigned char`. -/
def UrlEncode : List Nat → List Nat
  | [] => []
  | c :: rest => UrlEncode.step c ++ UrlEncode rest

/-- The argument that `Webview::LoadHtml` (addon.cpp 2617-2630) hands to
`saucer_webview_set_url` for the bytes `html`. -/
def LoadHtml.dataUri (html : List Nat) : List Nat :=
  "data:text/html;charset=utf-8,".data.map Char.toNat ++ UrlEncode html

/-- The unreserved characters in the words of the contract: the letters and
digits of ASCII and `- _ . ~ ! ' ( ) *`. -/
def unreserved (c : Nat) : Bool :=
  isalnum c || ("-_.~!'()*".data.map Char.toNat).contains c

/-- The value of an uppercase hexadecimal digit, `none` for any other byte. -/
def upperHexValue (d : Nat) : Option Nat :=
  if '0'.toNat ≤ d ∧ d ≤ '9'.toNat then some (d - '0'.toNat)
  else if 'A'.toNat ≤ d ∧ d ≤ 'F'.toNat then some (d - 'A'.toNat + 10)
  else none

/-- Percent-decoding in the words of the contract: `%` followed by two
hexadecimal digits stands for the byte they spell, any other byte for itself;
`none` when a `%` is not followed by two digits. -/
def percentDecode : List Nat → Option (List Nat)
  | [] => some []
  | c :: rest =>
    if c = '%'.toNat then
      match rest with
      | h :: l :: rest2 =>
        match upperHexValue h, upperHexValue l, percentDecode rest2 with
        | some hv, some lv, some tail => some ((16 * hv + lv) :: tail)
        | _, _, _ => none
      | _ => none
    else (percentDecode rest).map (c :: ·)

/-! ## The code template of `saucer_handle::execute` and `evaluate` -/

namespace saucer_handle

/-- The function `serialize` (compat/private/webview.hpp 35-39).  `render` is the
spelling of a JSON text as characters, which belongs to the document library. -/
def serialize (render : JsonText → List Char) (value : json_t) : List Char :=
  render (glz.write_json value)

/-- The loop of `format_runtime` (compat/private/webview.hpp 52-62) from the
position `i` on: `code` is what remains of the template from `i`, `args` what
remains of the serialised arguments from `arg_idx`; the value is what the rest
of the loop appends to `out`. -/
def format_runtime.scan : List Char → List (List Char) → List Char
  | [], _ => []
  | [c], _ => [c]
  | c :: d :: rest, [] => c :: format_runtime.scan (d :: rest) []
  | c :: d :: rest, arg :: args =>
    if c = '{' ∧ d = '}' then arg ++ format_runtime.scan rest args
    else c :: format_runtime.scan (d :: rest) (arg :: args)

/-- The function `format_runtime` (compat/private/webview.hpp 41-65). -/
def format_runtime (render : JsonText → List Char) (code : List Char) (params : List json_t) :
    List Char :=
  format_runtime.scan code (params.map (serialize render))

/-- The script that `saucer_handle::execute` (compat/private/webview.hpp 90-94)
hands to the webview. -/
def execute (render : JsonText → List Char) (code : List Char) (params : List json_t) :
    List Char :=
  format_runtime render code params

/-- The text `formatted` that `saucer_handle::evaluate`
(compat/private/webview.hpp 96-111) hands to the webview as the argument of
`eval({})`. -/
def evaluate.formatted (render : JsonText → List Char) (code : List Char)
    (params : List json_t) : List Char :=
  format_runtime render code params

end saucer_handle

/-- The pieces of a template between its placeholders, in the words of the
contract: the template is read from left to right and cut at every `{}`, so
that a template with `k` placeholders has `k + 1` pieces. -/
def placeholderPieces : List Char → List (List Char)
  | [] => [[]]
  | [c] => [[c]]
  | c :: d :: rest =>
    if c = '{' ∧ d = '}' then [] :: placeholderPieces rest
    else
      match placeholderPieces (d :: rest) with
      | p :: ps => (c :: p) :: ps
      | [] => [[c]]

/-- The pieces put together again in the words of the contract: the i-th gap
between two pieces takes the i-th text, a gap for which no text is left takes
`{}` back, and texts for which no gap is left are dropped. -/
def fillPlaceholders : List (List Char) → List (List Char) → List Char
  | [], _ => []
  | [p], _ => p
  | p :: q :: ps, a :: texts => p ++ a ++ fillPlaceholders (q :: ps) texts
  | p :: q :: ps, [] => p ++ ['{', '}'] ++ fillPlaceholders (q :: ps) []

/-! ## The file pickers of `Desktop` -/

/-- The function `saucer_desktop_pick_files` (compat/desktop.cpp 134-152) on the
result of the picker: `none` is `nullptr`; otherwise the array allocated with
`count * sizeof(char *)` bytes, given by its `count` elements, each the copy of
one path (`none` would be a null element). -/
def saucer_desktop_pick_files (result : Option (List String)) : Option (List (Option String)) :=
  match result with
  | none => none
  | some paths => some (paths.map some)

/-- The function `saucer_desktop_pick_folders` (compat/desktop.cpp 154-172). -/
def saucer_desktop_pick_folders (result : Option (List String)) :
    Option (List (Option String)) :=
  match result with
  | none => none
  | some paths => some (paths.map some)

namespace Desktop

/-- What a call of `PickFiles` or `PickFolders` comes to: it throws, returns
`null`, returns an array of paths, or reads the element number `index` of an
array that has no such element. -/
inductive PickResult where
  | throws (message : String)
  | null
  | array (paths : List String)
  | outOfBounds (index : Nat)
  deriving DecidableEq, Repr

/-- The loop `for (char** p = results; *p != nullptr; ++p)` of `PickFiles`
(addon.cpp 5439-5443) and `PickFolders` (addon.cpp 5476-5480) from the element
number `idx` on, `results` being the elements of the array from there: the
paths put into `arr`, or the index of an element read beyond the array. -/
def scan (idx : Nat) : List (Option String) → Except Nat (List String)
  | [] => .error idx
  | none :: _ => .ok []
  | some path :: rest =>
    match scan (idx + 1) rest with
    | .ok arr => .ok (path :: arr)
    | .error index => .error index

/-- The method `Desktop::PickFiles` (addon.cpp 5400-5446); `desktop_` is the
native handle and `picked` the result of the picker. -/
def PickFiles (desktop_ : Option Nat) (picked : Option (List String)) : PickResult :=
  match desktop_ with
  | none => .throws "Desktop not initialized"
  | some _ =>
    match saucer_desktop_pick_files picked with
    | none => .null
    | some results =>
      match scan 0 results with
      | .ok arr => .array arr
      | .error index => .outOfBounds index

/-- The method `Desktop::PickFolders` (addon.cpp 5448-5483). -/
def PickFolders (desktop_ : Option Nat) (picked : Option (List String)) : PickResult :=
  match desktop_ with
  | none => .throws "Desktop not initialized"
  | some _ =>
    match saucer_desktop_pick_folders picked with
    | none => .null
    | some results =>
      match scan 0 results with
      | .ok arr => .array arr
      | .error index => .outOfBounds index

end Desktop

/-! ## The notification of `platform_linux.cpp` -/

/-- The command line that `Notification::Show` (platform_linux.cpp 168-173)
hands to `system`, for the members `title_` and `body_` that the constructor
(platform_linux.cpp 152-164) took from the options. -/
def Notification.Show (title_ body_ : String) : String :=
  "notify-send \"" ++ title_ ++ "\" \"" ++ body_ ++ "\" 2>/dev/null &"

namespace sh

/-- Where the shell is in a command line: between or in unquoted words, right
after an unquoted backslash, inside double quotes, or right after a backslash
inside double quotes. -/
inductive Mode where
  | plain
  | plainEscape
  | quoted
  | quotedEscape
  deriving DecidableEq, Repr

/-- What the shell makes of a command line: the commands it contains, each the
list of its words after quote removal; the number of expansions (`$`,
backquote) it performs; and whether the line ends inside double quotes or
after a backslash. -/
structure Reading where
  commands : List (List (List Char))
  expansions : Nat
  unclosed : Bool
  deriving DecidableEq, Repr

/-- The word in progress, if any, added to the command in progress. -/
def endWord (word : Option (List Char)) (command : List (List Char)) : List (List Char) :=
  match word with
  | some w => command ++ [w]
  | none => command

/-- The command in progress, if it has a word, added to the finished commands. -/
def endCommand (command : List (List Char)) (done : List (List (List Char))) :
    List (List (List Char)) :=
  if command.isEmpty then done else done ++ [command]

/-- The reading of a command line by the shell that `system` runs (`sh -c`),
as far as the line of `Notification::Show` needs it (token recognition and
quoting of the POSIX shell): blanks separate words; `;`, `&`, `|` and newline
end a command; a double quote starts and ends a quotation, inside which only
the double quote, the backslash, `$` and the backquote keep a meaning; a
backslash takes the meaning from the next character (inside double quotes
only from one of those four); `$` and the backquote start an expansion.
`word` is the word in progress, `command` the command in progress and `done`
the finished commands. -/
def read (mode : Mode) (word : Option (List Char)) (command : List (List Char))
    (done : List (List (List Char))) (expansions : Nat) : List Char → Reading
  | [] =>
    { commands := endCommand (endWord word command) done
      expansions := expansions
      unclosed := decide (mode ≠ .plain) }
  | c :: rest =>
    match mode with
    | .plain =>
      if c = '"' then read .quoted (some (word.getD [])) command done expansions rest
      else if c = '\\' then read .plainEscape word command done expansions rest
      else if c = ' ' ∨ c = '\t' then read .plain none (endWord word command) done expansions rest
      else if c = ';' ∨ c = '&' ∨ c = '|' ∨ c = '\n' then
        read .plain none [] (endCommand (endWord word command) done) expansions rest
      else if c = '$' ∨ c = '\x60' then
        read .plain (some (word.getD [] ++ [c])) command done (expansions + 1) rest
      else read .plain (some (word.getD [] ++ [c])) command done expansions rest
    | .plainEscape => read .plain (some (word.getD [] ++ [c])) command done expansions rest
    | .quoted =>
      if c = '"' then read .plain word command done expansions rest
      else if c = '\\' then read .quotedEscape word command done expansions rest
      else if c = '$' ∨ c = '\x60' then
        read .quoted (some (word.getD [] ++ [c])) command done (expansions + 1) rest
      else read .quoted (some (word.getD [] ++ [c])) command done expansions rest
    | .quotedEscape =>
      if c = '"' ∨ c = '\\' ∨ c = '$' ∨ c = '\x60' then
        read .quoted (some (word.getD [] ++ [c])) command done expansions rest
      else read .quoted (some (word.getD [] ++ ['\\', c])) command done expansions rest

/-- The reading of a whole command line. -/
def reading (line : String) : Reading :=
  read .plain none [] [] 0 line.data

end sh

/-- The reading that the contract promises for the command line of
`Notification::Show`: one command, `notify-send` with the title and the body as
its two arguments and the redirection behind them, and no expansion. -/
def Notification.promisedReading (title_ body_ : String) : sh.Reading :=
  { commands := [["notify-send".data, title_.data, body_.data, "2>/dev/null".data]]
    expansions := 0
    unclosed := false }

/-! ## Objects of the native heap handed to the host thread -/

/-- What is done to an object of the native heap: it is allocated, looked at,
or freed. -/
inductive HeapEvent where
  | new
  | read
  | delete
  deriving DecidableEq, Repr

/-- An object that is handed over and then looked at any number of times and
freed, once and last of all. -/
def ReleasedOnce (events : List HeapEvent) : Bool :=
  events.getLast? == some .delete && events.dropLast.all fun ev => ev == .read

/-- An object that is allocated and then released once, in the words of the
contract: freed exactly once, and not touched after that. -/
def AllocatedAndReleasedOnce (events : List HeapEvent) : Bool :=
  match events with
  | .new :: rest => ReleasedOnce rest
  | _ => false

/-- The method `ThreadSafeCallback::CallNonBlocking` (callbacks.h 52-68): what
is done to the tuple `data`.  `status_ok` tells whether `NonBlockingCall`
returned `napi_ok`, in which case the host thread runs the lambda, and `result`
is what the host function does in `CallImpl`; an error it throws is caught by
the lambda. -/
def ThreadSafeCallback.CallNonBlocking (status_ok : Bool) (result : CallResult) :
    List HeapEvent :=
  [.new] ++
    (if status_ok then
      (match result with
        | .returns _ => [.read]
        | .throws _ => [.read]) ++ [.delete]
    else [.delete])

/-- The function `Webview::MessageCallback` (addon.cpp 3888-3938): the value it
returns and what is done to `payload`.  `self` is the result of `FromHandle`. -/
def Webview.MessageCallback (self : Option Webview) (status_ok : Bool) (result : CallResult) :
    Bool × List HeapEvent :=
  match self with
  | none => (false, [])
  | some self =>
    match self.message_tsfn_ with
    | none => (false, [])
    | some _ =>
      if status_ok then
        (true, [.new] ++
          (match result with
            | .returns _ => [.read]
            | .throws _ => [.read]) ++ [.delete])
      else (false, [.new, .delete])

/-- The function registered with `handle->expose` (addon.cpp 3488-3636): what is
done to `payload`.  The lambda copies the tuple and deletes it before it does
anything else (addon.cpp 3512-3514); the branch for a status other than
`napi_ok` (addon.cpp 3630-3634) rejects the executor and does not mention
`payload`. -/
def Expose.payload (status_ok : Bool) : List HeapEvent :=
  [.new] ++ (if status_ok then [.read, .delete] else [])

/-- The method `Webview::HasCallbacks` (addon.cpp 4612-4618). -/
def Webview.HasCallbacks (w : Webview) (event : String) : Bool :=
  match Webview.findCallbacks event w.event_callbacks_ with
  | some vec => !vec.isEmpty
  | none => false

/-- The lambda that `OnWebFavicon` gives to `EmitEvent` (addon.cpp 4846-4868),
run for one handler: it looks at the icon, calls the handler and frees the
icon.  When the handler throws, the statement that frees is not reached. -/
def OnWebFavicon.invoker (result : CallResult) : List HeapEvent :=
  match result with
  | .returns _ => [.read, .delete]
  | .throws _ => [.read]

/-- The function `Webview::OnWebFavicon` (addon.cpp 4830-4886) for an icon that
is not null: everything done to the icon, in order, once the host thread has
run the calls that `EmitEvent` queued.  `self` is the result of `FromHandle`,
`js ref` what the host function `ref` does. -/
def Webview.OnWebFavicon (js : Nat → CallResult) (self : Option Webview) : List HeapEvent :=
  match self with
  | some self =>
    if !self.HasCallbacks "favicon" then [.delete]
    else
      let queued := (self.EmitEvent "favicon").queue.drop self.queue.length
      (queued.map fun call => OnWebFavicon.invoker (js call.callback)).flatten
  | none => [.delete]

/-! ## Scripts: `Webview::Execute` and `Webview::Evaluate` -/

/-- An exception handed to the host by `ThrowAsJavaScriptException`: a new
error of one of the classes of the host, or the value of an error that was
caught. -/
inductive HostException where
  | Error (message : String)
  | TypeError (message : String)
  | RangeError (message : String)
  | rethrown (value : JsValue)

/-- A request made of the native layer by `Execute` or `Evaluate`: the plain
`saucer_webview_execute`, or `handle->execute` / `handle->evaluate` with the
code and the parameters in the order of the call. -/
inductive ScriptCall where
  | saucer_webview_execute (code : String)
  | execute (code : String) (params : List json_t)
  | evaluate (code : String) (params : List json_t)

/-- What a call of `Execute` or `Evaluate` comes to: the requests made of the
native layer, in order, and the exception handed to the host, if any. -/
structure ScriptOutcome where
  calls : List ScriptCall
  thrown : Option HostException

/-- The method `Webview::Execute` (addon.cpp 2634-2724) on the argument list
`info`; `webview_` is the native handle. -/
def Webview.Execute (webview_ : Option Nat) (info : List JsValue) : ScriptOutcome :=
  match info with
  | .string code :: _ =>
    let hasArgs := decide (info.length > 1)
    if !hasArgs then { calls := [.saucer_webview_execute code], thrown := none }
    else
      match CollectJsonArgs info 1 with
      | .error err => { calls := [], thrown := some (.rethrown err) }
      | .ok args =>
        match webview_ with
        | none => { calls := [.saucer_webview_execute code], thrown := none }
        | some _ =>
          if 1 ≤ args.length ∧ args.length ≤ 8 then
            { calls := [.execute code args], thrown := none }
          else
            { calls := [], thrown := some (.RangeError "Too many arguments for execute") }
  | _ => { calls := [], thrown := some (.TypeError "JavaScript code string required") }

/-- The method `Webview::Evaluate` (addon.cpp 3692-3864) on the argument list
`info`, up to the start of the worker that waits for the result. -/
def Webview.Evaluate (webview_ : Option Nat) (info : List JsValue) : ScriptOutcome :=
  match info with
  | .string code :: _ =>
    match webview_ with
    | none => { calls := [], thrown := some (.Error "Native webview handle unavailable") }
    | some _ =>
      match CollectJsonArgs info 1 with
      | .error err => { calls := [], thrown := some (.rethrown err) }
      | .ok args =>
        if args.length ≤ 8 then { calls := [.evaluate code args], thrown := none }
        else { calls := [], thrown := some (.RangeError "Too many arguments for evaluate") }
  | _ => { calls := [], thrown := some (.TypeError "Usage: evaluate(code, ...params)") }

/-- The documents of the arguments in the words of the contract: each argument
read from what `JSON.stringify` makes of it, in order; `none` when some
argument has no JSON text. -/
def serialisedArguments : List JsValue → Option (List json_t)
  | [] => some []
  | v :: rest =>
    match JSON_stringify v, serialisedArguments rest with
    | .ok (some text), some docs => some (glz.toDocument text :: docs)
    | _, _ => none

/-! ## The forwarders and the native subscriptions -/

namespace Webview

/-- What the forwarders `OnWindowDecorated` ... `OnWebLoad` (addon.cpp 4620-4920)
do to the instance that `FromHandle` found, for the event name each of them
carries: `OnWindowClose` and `OnWebNavigate` ask `EvaluatePolicy`, all others
call `EmitEvent`. -/
def forwarder (w : Webview) (event : String) : Webview :=
  if event = "close" ∨ event = "navigate" then (w.EvaluatePolicy event).2
  else w.EmitEvent event

/-- Number of subscriptions that `RegisterEvent` has made for `event` through
`saucer_window_on` / `saucer_webview_on` (compat/window.cpp 344-393): each call
adds a listener of its own that calls the forwarder. -/
def nativeSubscriptions (w : Webview) (event : String) : Nat :=
  match MapWindowEventName event with
  | some we =>
    w.native.countP fun call =>
      match call with
      | .window_on e _ => decide (e = we)
      | _ => false
  | none =>
    match MapWebEventName event with
    | some ev =>
      w.native.countP fun call =>
        match call with
        | .webview_on e _ => decide (e = ev)
        | _ => false
    | none => 0

/-- One native event under the native model of the contract: every
subscription made for the event calls its forwarder once. -/
def nativeEvent (w : Webview) (event : String) : Webview :=
  (List.range (w.nativeSubscriptions event)).foldl (fun v _ => v.forwarder event) w

/-- A new instance on which the host functions `handlers` have been registered
for `event` with `on`, one after the other; the native layer numbers the
subscriptions from 1. -/
def onEach (event : String) (handlers : List Nat) : Webview :=
  handlers.foldl (fun w cb => (w.RegisterEvent event cb false (w.next_tsfn + 1)).2) {}

end Webview

/-! ## Host functions that use the instance while they run -/

namespace Webview

end Webview

/-! ## Structural equality of host values -/

mutual
/-- Whether a host value is representable in JSON: `null`, a boolean, a number,
a string, an array of such values, or a plain object with such values. -/
def JsonRepresentable : JsValue → Bool
  | .null => true
  | .boolean _ => true
  | .number _ => true
  | .string _ => true
  | .array items => JsonRepresentableList items
  | .object props => JsonRepresentableProps props
  | _ => false
/-- All elements are representable. -/
def JsonRepresentableList : List JsValue → Bool
  | [] => true
  | x :: xs => JsonRepresentable x && JsonRepresentableList xs
/-- All member values are representable and no key occurs twice (an object has
one property per name). -/
def JsonRepresentableProps : List (String × JsValue) → Bool
  | [] => true
  | (k, v) :: rest =>
    JsonRepresentable v && !(JsValue.keysOf rest).contains k && JsonRepresentableProps rest
end

mutual
/-- Structural (deep) equality of host values: same kind, equal primitives,
arrays equal element by element, objects with the same property names and
structurally equal values under each name, whatever the order of the
properties. -/
def structEq : JsValue → JsValue → Bool
  | .undefined, .undefined => true
  | .null, .null => true
  | .boolean a, .boolean b => a == b
  | .number a, .number b => a == b
  | .string a, .string b => a == b
  | .bigint a, .bigint b => a == b
  | .array xs, .array ys => structEqList xs ys
  | .object ps, .object qs =>
    structEqProps ps qs && (JsValue.keysOf qs).all fun k => (JsValue.keysOf ps).contains k
  | _, _ => false
/-- Element by element. -/
def structEqList : List JsValue → List JsValue → Bool
  | [], [] => true
  | x :: xs, y :: ys => structEq x y && structEqList xs ys
  | _, _ => false
/-- Every member on the left has a structurally equal member on the right. -/
def structEqProps : List (String × JsValue) → List (String × JsValue) → Bool
  | [], _ => true
  | (k, v) :: rest, qs =>
    (match JsValue.lookupProp k qs with
     | some w => structEq v w
     | none => false) && structEqProps rest qs
end

/-! ## Scenarios used in the statements below -/

/-- An instance with three persistent handlers registered for `close`, the host
functions 0, 1 and 2 in this order (native ids 11, 12, 13). -/
def threeCloseHandlers : Webview :=
  ((((({} : Webview).RegisterEvent "close" 0 false 11).2).RegisterEvent "close" 1 false 12).2
    |>.RegisterEvent "close" 2 false 13).2

/-- Host functions of which number 1 returns `false` and every other one `true`. -/
def secondVetoes : Nat → CallResult :=
  fun ref => if ref = 1 then .returns (.boolean false) else .returns (.boolean true)

/-- An instance with one persistent handler registered for `navigate`, the host
function 0 (native id 21). -/
def oneNavigateHandler : Webview :=
  (({} : Webview).RegisterEvent "navigate" 0 false 21).2

/-- Host functions that all return the string `"block"`. -/
def alwaysBlocks : Nat → CallResult :=
  fun _ => .returns (.string "block")

/-- An instance with one scheme handler, registered under `myscheme` with the
thread-safe function 0. -/
def oneSchemeHandler : Webview :=
  { scheme_handlers_ := [{ name := "myscheme", tsfn := some 0 }], next_tsfn := 1 }

/-- A `GET` request for `myscheme://path` without body or headers. -/
def pathRequest : SchemeRequest :=
  { url := some "myscheme://path", method := some "GET", content := none, headers := [] }

/-- A scheme handler that answers every request with a small page. -/
def pageHandler : Nat → JsValue → CallResult :=
  fun _ _ => .returns (.object [("data", .string "<p>hi</p>"), ("mime", .string "text/html")])

/-- One completion of a scheme executor followed by its release, and nothing else. -/
def CompletedOnce (events : List SchemeExecutorEvent) : Prop :=
  ∃ ev, ev ≠ .free ∧ events = [ev, .free]

/-! # Lemmas -/

open JsValue


/-! ### Members and keys of the maps of the JSON bridge -/

theorem mem_mapInsert {α : Type} (k : String) (v : α) (m : List (String × α)) (x : String × α)
    (hx : x ∈ mapInsert k v m) : x = (k, v) ∨ x ∈ m := by
  induction m with
  | nil => simp [mapInsert] at hx; exact Or.inl hx
  | cons hd tl ih =>
    obtain ⟨k', v'⟩ := hd
    unfold mapInsert at hx
    split at hx
    · simp only [List.mem_cons] at hx ⊢
      tauto
    · split at hx
      · simp only [List.mem_cons] at hx ⊢
        tauto
      · simp only [List.mem_cons] at hx ⊢
        rcases hx with h | h
        · exact Or.inr (Or.inl h)
        · rcases ih h with h | h
          · exact Or.inl h
          · exact Or.inr (Or.inr h)

theorem key_mem_mapInsert {α : Type} (k : String) (v : α) (m : List (String × α)) (j : String)
    (hj : j = k ∨ j ∈ m.map (·.1)) : j ∈ (mapInsert k v m).map (·.1) := by
  induction m with
  | nil =>
    simp [mapInsert] at hj ⊢
    exact hj
  | cons hd tl ih =>
    obtain ⟨k', v'⟩ := hd
    unfold mapInsert
    split
    · simp only [List.map_cons, List.mem_cons] at hj ⊢
      exact hj
    · split
      · rename_i h
        simp only [List.map_cons, List.mem_cons] at hj ⊢
        subst h
        tauto
      · simp only [List.map_cons, List.mem_cons] at hj ⊢
        rcases hj with h | h | h
        · exact Or.inr (ih (Or.inl h))
        · exact Or.inl h
        · exact Or.inr (ih (Or.inr h))

theorem mem_toDocumentObject (ms : List (String × JsonText)) :
    ∀ (acc : List (String × json_t)) (x : String × json_t),
      x ∈ glz.toDocumentObject ms acc →
      x ∈ acc ∨ ∃ t, (x.1, t) ∈ ms ∧ x.2 = glz.toDocument t := by
  induction ms with
  | nil => intro acc x hx; simp [glz.toDocumentObject] at hx; exact Or.inl hx
  | cons hd tl ih =>
    intro acc x hx
    obtain ⟨k, t⟩ := hd
    simp only [glz.toDocumentObject] at hx
    rcases ih _ x hx with h | ⟨t', h1, h2⟩
    · rcases mem_mapInsert _ _ _ _ h with h | h
      · right
        exact ⟨t, by simp [h], by simp [h]⟩
      · exact Or.inl h
    · right
      exact ⟨t', List.mem_cons_of_mem _ h1, h2⟩

theorem key_mem_toDocumentObject (ms : List (String × JsonText)) :
    ∀ (acc : List (String × json_t)) (j : String),
      (j ∈ acc.map (·.1) ∨ j ∈ ms.map (·.1)) →
      j ∈ (glz.toDocumentObject ms acc).map (·.1) := by
  induction ms with
  | nil => intro acc j hj; simpa [glz.toDocumentObject] using hj
  | cons hd tl ih =>
    intro acc j hj
    obtain ⟨k, t⟩ := hd
    simp only [glz.toDocumentObject]
    apply ih
    simp only [List.map_cons, List.mem_cons] at hj
    rcases hj with h | h | h
    · exact Or.inl (key_mem_mapInsert _ _ _ _ (Or.inr h))
    · exact Or.inl (key_mem_mapInsert _ _ _ _ (Or.inl h))
    · exact Or.inr h

theorem write_jsonObject_eq_map (d : List (String × json_t)) :
    glz.write_jsonObject d = d.map fun p => (p.1, glz.write_json p.2) := by
  induction d with
  | nil => simp [glz.write_jsonObject]
  | cons hd tl ih =>
    obtain ⟨k, v⟩ := hd
    simp [glz.write_jsonObject, ih]

theorem mem_propSet (k : String) (v : JsValue) (acc : List (String × JsValue))
    (x : String × JsValue) (hx : x ∈ propSet k v acc) : x = (k, v) ∨ x ∈ acc := by
  induction acc with
  | nil => simp [propSet] at hx; exact Or.inl hx
  | cons hd tl ih =>
    obtain ⟨k', v'⟩ := hd
    unfold propSet at hx
    split at hx
    · rename_i h
      simp only [List.mem_cons] at hx ⊢
      subst h
      tauto
    · simp only [List.mem_cons] at hx ⊢
      rcases hx with h | h
      · exact Or.inr (Or.inl h)
      · rcases ih h with h | h
        · exact Or.inl h
        · exact Or.inr (Or.inr h)

theorem key_mem_propSet (k : String) (v : JsValue) (acc : List (String × JsValue)) (j : String)
    (hj : j = k ∨ j ∈ acc.map (·.1)) : j ∈ (propSet k v acc).map (·.1) := by
  induction acc with
  | nil => simpa [propSet] using hj
  | cons hd tl ih =>
    obtain ⟨k', v'⟩ := hd
    unfold propSet
    split
    · rename_i h
      simp only [List.map_cons, List.mem_cons] at hj ⊢
      subst h
      tauto
    · simp only [List.map_cons, List.mem_cons] at hj ⊢
      rcases hj with h | h | h
      · exact Or.inr (ih (Or.inl h))
      · exact Or.inl h
      · exact Or.inr (ih (Or.inr h))

theorem mem_JSON_parseObject (ms : List (String × JsonText)) :
    ∀ (acc : List (String × JsValue)) (x : String × JsValue),
      x ∈ JSON_parseObject ms acc →
      x ∈ acc ∨ ∃ t, (x.1, t) ∈ ms ∧ x.2 = JSON_parse t := by
  induction ms with
  | nil => intro acc x hx; simp [JSON_parseObject] at hx; exact Or.inl hx
  | cons hd tl ih =>
    intro acc x hx
    obtain ⟨k, t⟩ := hd
    simp only [JSON_parseObject] at hx
    rcases ih _ x hx with h | ⟨t', h1, h2⟩
    · rcases mem_propSet _ _ _ _ h with h | h
      · right
        exact ⟨t, by simp [h], by simp [h]⟩
      · exact Or.inl h
    · right
      exact ⟨t', List.mem_cons_of_mem _ h1, h2⟩

theorem key_mem_JSON_parseObject (ms : List (String × JsonText)) :
    ∀ (acc : List (String × JsValue)) (j : String),
      (j ∈ acc.map (·.1) ∨ j ∈ ms.map (·.1)) →
      j ∈ (JSON_parseObject ms acc).map (·.1) := by
  induction ms with
  | nil => intro acc j hj; simpa [JSON_parseObject] using hj
  | cons hd tl ih =>
    intro acc j hj
    obtain ⟨k, t⟩ := hd
    simp only [JSON_parseObject]
    apply ih
    simp only [List.map_cons, List.mem_cons] at hj
    rcases hj with h | h | h
    · exact Or.inl (key_mem_propSet _ _ _ _ (Or.inr h))
    · exact Or.inl (key_mem_propSet _ _ _ _ (Or.inl h))
    · exact Or.inr h

theorem keysOf_eq_map (ps : List (String × JsValue)) : keysOf ps = ps.map (·.1) := by
  induction ps with
  | nil => rfl
  | cons hd tl ih => obtain ⟨k, v⟩ := hd; simp [keysOf, ih]

theorem lookupProp_of_mem (ps : List (String × JsValue)) (h : JsonRepresentableProps ps = true)
    (k : String) (v : JsValue) (hm : (k, v) ∈ ps) : lookupProp k ps = some v := by
  induction ps with
  | nil => simp at hm
  | cons hd tl ih =>
    obtain ⟨k0, v0⟩ := hd
    simp only [JsonRepresentableProps, Bool.and_eq_true, Bool.not_eq_true', keysOf_eq_map] at h
    obtain ⟨⟨_, hk⟩, htl⟩ := h
    simp only [List.mem_cons, Prod.mk.injEq] at hm
    unfold lookupProp
    rcases hm with ⟨h1, h2⟩ | hm
    · simp [h1, h2]
    · have hne : k0 ≠ k := by
        intro he
        subst he
        have : k0 ∈ tl.map (·.1) := List.mem_map.mpr ⟨(k0, v), hm, rfl⟩
        simp [this] at hk
      simp [hne, ih htl hm]

theorem structEqProps_of_forall (qs : List (String × JsValue)) :
    ∀ (ps : List (String × JsValue)),
      (∀ k v, (k, v) ∈ ps → ∃ w, lookupProp k qs = some w ∧ structEq v w = true) →
      structEqProps ps qs = true := by
  intro ps
  induction ps with
  | nil => intro _; simp [structEqProps]
  | cons hd tl ih =>
    intro h
    obtain ⟨k, v⟩ := hd
    obtain ⟨w, hw1, hw2⟩ := h k v (List.mem_cons_self _ _)
    simp only [structEqProps, hw1, hw2, Bool.true_and]
    exact ih fun k v hm => h k v (List.mem_cons_of_mem _ hm)

mutual
theorem roundtrip_value : ∀ (v : JsValue), JsonRepresentable v = true →
    ∃ t, JSON_stringify v = .ok (some t) ∧
      structEq (JSON_parse (glz.write_json (glz.toDocument t))) v = true
  | .null, _ => ⟨.null, by simp [JSON_stringify], by simp [glz.toDocument, glz.write_json, JSON_parse, structEq]⟩
  | .boolean b, _ => ⟨.bool b, by simp [JSON_stringify], by simp [glz.toDocument, glz.write_json, JSON_parse, structEq]⟩
  | .number n, _ => ⟨.num n, by simp [JSON_stringify], by simp [glz.toDocument, glz.write_json, JSON_parse, structEq]⟩
  | .string s, _ => ⟨.str s, by simp [JSON_stringify], by simp [glz.toDocument, glz.write_json, JSON_parse, structEq]⟩
  | .array items, h => by
    simp only [JsonRepresentable] at h
    obtain ⟨ts, h1, h2⟩ := roundtrip_list items h
    exact ⟨.arr ts, by simp [JSON_stringify, h1],
      by simpa [glz.toDocument, glz.write_json, JSON_parse, structEq] using h2⟩
  | .object props, h => by
    simp only [JsonRepresentable] at h
    obtain ⟨ms, h1, h2, h3⟩ := roundtrip_props props h
    refine ⟨.obj ms, by simp [JSON_stringify, h1], ?_⟩
    simp only [glz.toDocument, glz.write_json, JSON_parse, structEq, Bool.and_eq_true,
      List.all_eq_true, keysOf_eq_map]
    constructor
    · apply structEqProps_of_forall
      intro k v' hm
      rcases mem_JSON_parseObject _ _ _ hm with hm | ⟨tw, hw1, hw2⟩
      · simp at hm
      · rw [write_jsonObject_eq_map] at hw1
        obtain ⟨⟨k', d⟩, hd1, hd2⟩ := List.mem_map.mp hw1
        simp only [Prod.mk.injEq] at hd2
        obtain ⟨hk, hd2⟩ := hd2
        subst hk
        rcases mem_toDocumentObject _ _ _ hd1 with hd1 | ⟨t, ht1, ht2⟩
        · simp at hd1
        · obtain ⟨v, hv1, hv2⟩ := h3 k' t ht1
          refine ⟨v, lookupProp_of_mem props h k' v hv1, ?_⟩
          simp only at hw2 ht2
          rw [hw2, ← hd2, ht2]
          exact hv2
    · intro j hj
      suffices hs : j ∈ (JSON_parseObject (glz.write_jsonObject (glz.toDocumentObject ms [])) []).map
          (·.1) by simpa using hs
      apply key_mem_JSON_parseObject
      right
      rw [write_jsonObject_eq_map, List.map_map]
      have : ((fun x : String × JsonText => x.1) ∘ fun p : String × json_t => (p.1, glz.write_json p.2))
          = fun p => p.1 := by
        funext p; rfl
      rw [this]
      apply key_mem_toDocumentObject
      right
      rw [h2]
      exact hj
  | .undefined, h | .bigint _, h | .symbol _, h | .function _, h | .error _, h | .buffer _, h
  | .promisePending, h | .promiseFulfils _, h | .promiseRejects _, h => by
    simp [JsonRepresentable] at h
theorem roundtrip_list : ∀ (xs : List JsValue), JsonRepresentableList xs = true →
    ∃ ts, JSON_stringifyArray xs = .ok ts ∧
      structEqList (JSON_parseArray (glz.write_jsonArray (glz.toDocumentArray ts))) xs = true
  | [], _ => ⟨[], by simp [JSON_stringifyArray], by simp [glz.toDocumentArray, glz.write_jsonArray, JSON_parseArray, structEqList]⟩
  | x :: xs, h => by
    simp only [JsonRepresentableList, Bool.and_eq_true] at h
    obtain ⟨t, h1, h2⟩ := roundtrip_value x h.1
    obtain ⟨ts, h3, h4⟩ := roundtrip_list xs h.2
    exact ⟨t :: ts, by simp [JSON_stringifyArray, h1, h3],
      by simp [glz.toDocumentArray, glz.write_jsonArray, JSON_parseArray, structEqList, h2, h4]⟩
theorem roundtrip_props : ∀ (ps : List (String × JsValue)), JsonRepresentableProps ps = true →
    ∃ ms, JSON_stringifyObject ps = .ok ms ∧ ms.map (·.1) = ps.map (·.1) ∧
      ∀ k t, (k, t) ∈ ms → ∃ v, (k, v) ∈ ps ∧
        structEq (JSON_parse (glz.write_json (glz.toDocument t))) v = true
  | [], _ => ⟨[], by simp [JSON_stringifyObject], rfl, by simp⟩
  | (k, v) :: rest, h => by
    simp only [JsonRepresentableProps, Bool.and_eq_true] at h
    obtain ⟨t, h1, h2⟩ := roundtrip_value v h.1.1
    obtain ⟨ms, h3, h4, h5⟩ := roundtrip_props rest h.2
    refine ⟨(k, t) :: ms, by simp [JSON_stringifyObject, h1, h3], by simp [h4], ?_⟩
    intro k' t' hm
    simp only [List.mem_cons, Prod.mk.injEq] at hm
    rcases hm with ⟨hk, ht⟩ | hm
    · subst hk ht
      exact ⟨v, List.mem_cons_self _ _, h2⟩
    · obtain ⟨v', hv1, hv2⟩ := h5 k' t' hm
      exact ⟨v', List.mem_cons_of_mem _ hv1, hv2⟩
end

/-! ### The key-sorted list is a map -/

theorem charsLt_irrefl (a : List Char) : charsLt a a = false := by
  induction a with
  | nil => rfl
  | cons c cs ih => simp [charsLt, ih]

theorem charsLt_trans : ∀ (a b c : List Char), charsLt a b = true → charsLt b c = true →
    charsLt a c = true
  | [], [], _, h, _ => by simp [charsLt] at h
  | [], _ :: _, [], _, h => by simp [charsLt] at h
  | [], _ :: _, _ :: _, _, _ => by simp [charsLt]
  | _ :: _, [], _, h, _ => by simp [charsLt] at h
  | _ :: _, _ :: _, [], _, h => by simp [charsLt] at h
  | x :: xs, y :: ys, z :: zs, h1, h2 => by
    simp only [charsLt] at h1 h2 ⊢
    by_cases hxy : x.toNat < y.toNat
    · by_cases hyz : y.toNat < z.toNat
      · have : x.toNat < z.toNat := by omega
        simp [this]
      · by_cases hyz2 : y.toNat = z.toNat
        · have : x.toNat < z.toNat := by omega
          simp [this]
        · simp [hyz, hyz2] at h2
    · by_cases hxy2 : x.toNat = y.toNat
      · simp only [hxy, hxy2, if_false, if_true] at h1
        by_cases hyz : y.toNat < z.toNat
        · have : x.toNat < z.toNat := by omega
          simp [this]
        · by_cases hyz2 : y.toNat = z.toNat
          · simp only [hyz, hyz2, if_false, if_true] at h2
            have e1 : ¬ x.toNat < z.toNat := by omega
            have e2 : x.toNat = z.toNat := by omega
            rw [if_neg e1, if_pos e2]
            have g1 : charsLt xs ys = true := by simpa using h1
            have g2 : charsLt ys zs = true := by simpa using h2
            exact charsLt_trans xs ys zs g1 g2
          · simp [hyz, hyz2] at h2
      · simp [hxy, hxy2] at h1

theorem charsLt_total : ∀ (a b : List Char), charsLt a b = false → a ≠ b → charsLt b a = true
  | [], [], _, h => absurd rfl h
  | [], _ :: _, h, _ => by simp [charsLt] at h
  | _ :: _, [], _, _ => by simp [charsLt]
  | x :: xs, y :: ys, h, hne => by
    simp only [charsLt] at h ⊢
    by_cases hxy : x.toNat < y.toNat
    · simp [hxy] at h
    · by_cases hxy2 : x.toNat = y.toNat
      · have hc : x = y := by
          apply Char.ext
          apply UInt32.ext
          simpa [Char.toNat, UInt32.toNat] using hxy2
        subst hc
        simp only [lt_self_iff_false, if_false, if_true] at h ⊢
        exact charsLt_total xs ys h (fun he => hne (by rw [he]))
      · have : y.toNat < x.toNat := by omega
        simp [this]

theorem keySorted_mapInsert {α : Type} (k : String) (v : α) (m : List (String × α))
    (h : KeySorted m) : KeySorted (mapInsert k v m) := by
  induction m with
  | nil => simp [mapInsert, KeySorted]
  | cons hd tl ih =>
    obtain ⟨k0, v0⟩ := hd
    unfold KeySorted at h ih ⊢
    rw [List.pairwise_cons] at h
    unfold mapInsert
    by_cases h1 : keyLt k k0 = true
    · simp only [h1, if_true]
      rw [List.pairwise_cons]
      refine ⟨?_, List.pairwise_cons.mpr h⟩
      intro q hq
      rcases List.mem_cons.mp hq with hq | hq
      · rw [hq]; exact h1
      · exact charsLt_trans _ _ _ h1 (h.1 q hq)
    · simp only [h1]
      by_cases h2 : k = k0
      · subst h2
        simp only [if_true, Bool.false_eq_true, if_false]
        exact List.pairwise_cons.mpr h
      · simp only [h2, if_false, Bool.false_eq_true]
        rw [List.pairwise_cons]
        refine ⟨?_, ih h.2⟩
        intro q hq
        rcases mem_mapInsert _ _ _ _ hq with hq | hq
        · rw [hq]
          have hne : k.data ≠ k0.data := fun he => h2 (String.ext he)
          exact charsLt_total _ _ (by simpa [keyLt] using h1) hne
        · exact h.1 q hq

theorem keySorted_toDocumentObject (ms : List (String × JsonText)) :
    ∀ (acc : List (String × json_t)), KeySorted acc → KeySorted (glz.toDocumentObject ms acc) := by
  induction ms with
  | nil => intro acc h; simpa [glz.toDocumentObject] using h
  | cons hd tl ih =>
    intro acc h
    obtain ⟨k, t⟩ := hd
    simp only [glz.toDocumentObject]
    exact ih _ (keySorted_mapInsert _ _ _ h)

/-! ### The executor lambdas -/


mutual
theorem JSON_stringify_throws : ∀ (v e : JsValue), JSON_stringify v = .error e →
    e = .error "Do not know how to serialize a BigInt"
  | .bigint _, e, h => by simp [JSON_stringify] at h; exact h.symm
  | .array items, e, h => by
    simp only [JSON_stringify] at h
    split at h
    · simp at h
    · rename_i e' he
      simp only [Except.error.injEq] at h
      subst h
      exact JSON_stringifyArray_throws items _ he
  | .object props, e, h => by
    simp only [JSON_stringify] at h
    split at h
    · simp at h
    · rename_i e' he
      simp only [Except.error.injEq] at h
      subst h
      exact JSON_stringifyObject_throws props _ he
  | .undefined, _, h | .null, _, h | .boolean _, _, h | .number _, _, h | .string _, _, h
  | .symbol _, _, h | .function _, _, h | .error _, _, h | .buffer _, _, h
  | .promisePending, _, h | .promiseFulfils _, _, h | .promiseRejects _, _, h => by
    simp [JSON_stringify] at h
theorem JSON_stringifyArray_throws : ∀ (xs : List JsValue) (e : JsValue),
    JSON_stringifyArray xs = .error e → e = .error "Do not know how to serialize a BigInt"
  | [], _, h => by simp [JSON_stringifyArray] at h
  | x :: xs, e, h => by
    simp only [JSON_stringifyArray] at h
    split at h
    · rename_i e' he
      simp only [Except.error.injEq] at h
      subst h
      exact JSON_stringify_throws x _ he
    · split at h
      · rename_i e' he
        simp only [Except.error.injEq] at h
        subst h
        exact JSON_stringifyArray_throws xs _ he
      · simp at h
theorem JSON_stringifyObject_throws : ∀ (ps : List (String × JsValue)) (e : JsValue),
    JSON_stringifyObject ps = .error e → e = .error "Do not know how to serialize a BigInt"
  | [], _, h => by simp [JSON_stringifyObject] at h
  | (k, v) :: rest, e, h => by
    simp only [JSON_stringifyObject] at h
    split at h
    · rename_i e' he
      simp only [Except.error.injEq] at h
      subst h
      exact JSON_stringify_throws v _ he
    · split at h
      · rename_i e' he
        simp only [Except.error.injEq] at h
        subst h
        exact JSON_stringifyObject_throws rest _ he
      · split at h <;> simp at h
end

theorem StringifyForRPC_error_value (m : String) : StringifyForRPC (.error m) = .ok (.str m) := by
  simp [StringifyForRPC, IsUndefined, IsNull, IsObject, getProp, IsString, JSON_stringify]

theorem StringifyForRPC_throws (v e : JsValue) (h : StringifyForRPC v = .error e) :
    ∃ m, e = .error m := by
  unfold StringifyForRPC at h
  split at h
  · simp at h
  · simp only at h
    split at h
    · simp at h
    · split at h
      · rename_i e' he
        simp only [Except.error.injEq] at h
        subst h
        exact ⟨_, JSON_stringify_throws v _ he⟩
      · simp only [Except.error.injEq] at h
        exact ⟨_, h.symm⟩
      · simp at h

theorem SerializeForRPC_throws (v e : JsValue) (h : SerializeForRPC v = .error e) :
    ∃ m, e = .error m := by
  unfold SerializeForRPC at h
  split at h
  · simp [glz.read_json] at h
  · split at h
    · rename_i e' he
      simp only [Except.error.injEq] at h
      subst h
      exact StringifyForRPC_throws v _ he
    · simp [glz.read_json] at h

theorem reject_with_once (reason : JsValue) :
    ∃ text, Expose.reject_with reason = ([.reject (.json text)], none) := by
  unfold Expose.reject_with
  split
  · exact ⟨_, rfl⟩
  · rename_i err he
    obtain ⟨m, hm⟩ := StringifyForRPC_throws _ _ he
    subst hm
    simp [StringifyForRPC_error_value]

theorem resolve_with_once (value : JsValue) :
    (∃ doc, SerializeForRPC value = .ok doc ∧ Expose.resolve_with value = ([.resolve doc], none))
    ∨ (∃ err text, SerializeForRPC value = .error err ∧
        Expose.resolve_with value = ([.reject (.json text)], none)) := by
  unfold Expose.resolve_with
  cases hs : SerializeForRPC value with
  | ok doc => exact Or.inl ⟨doc, rfl, rfl⟩
  | error err =>
    obtain ⟨m, hm⟩ := SerializeForRPC_throws _ _ hs
    subst hm
    exact Or.inr ⟨_, .str m, rfl, by simp [StringifyForRPC_error_value]⟩

/-- On every path except a settled promise whose value cannot be converted and a promise that
never settles, one invocation completes the execution handle exactly once. -/
theorem Expose.handler_completes_once (status_ok : Bool) (jsCallback : List JsValue → CallResult)
    (params : List json_t)
    (hful : ∀ val, jsCallback (Expose.arguments (ParseJson (glz.write_json (.array params))))
        = .returns (.promiseFulfils val) → ∃ doc, SerializeForRPC val = .ok doc)
    (hrej : ∀ reason, jsCallback (Expose.arguments (ParseJson (glz.write_json (.array params))))
        = .returns (.promiseRejects reason) → ∃ text, StringifyForRPC reason = .ok text)
    (hpend : jsCallback (Expose.arguments (ParseJson (glz.write_json (.array params))))
        ≠ .returns .promisePending) :
    (Expose.handler status_ok jsCallback params).length = 1 := by
  unfold Expose.handler
  cases status_ok with
  | false => simp
  | true =>
    simp only [if_true]
    unfold Expose.callJs
    simp only
    cases hc : jsCallback (Expose.arguments (ParseJson (glz.write_json (.array params)))) with
    | throws err =>
      obtain ⟨t, ht⟩ := reject_with_once err
      simp [ht]
    | returns result =>
      simp only
      cases hp : result.IsPromise with
      | false =>
        simp only [Bool.false_eq_true, if_false]
        rcases resolve_with_once result with ⟨doc, _, h⟩ | ⟨err, t, _, h⟩ <;> simp [h]
      | true =>
        simp only [if_true]
        cases result with
        | promisePending => exact absurd hc hpend
        | promiseFulfils val =>
          obtain ⟨doc, hd⟩ := hful val hc
          simp [Expose.on_resolve, hd]
        | promiseRejects reason =>
          obtain ⟨t, ht⟩ := hrej reason hc
          simp [Expose.on_reject, ht]
        | _ => simp [IsPromise] at hp

/-! ### The registry as a map -/

namespace Webview

theorem findCallbacks_storeCallbacks_same (e : String) (vec : List CallbackData)
    (m : List (String × List CallbackData)) :
    findCallbacks e (storeCallbacks e vec m) = some vec := by
  induction m with
  | nil => simp [storeCallbacks, findCallbacks]
  | cons hd tl ih =>
    obtain ⟨e0, v0⟩ := hd
    unfold storeCallbacks
    split
    · rename_i h; simp [findCallbacks, h]
    · rename_i h; simp [findCallbacks, h, ih]

theorem findCallbacks_storeCallbacks_other (e e2 : String) (vec : List CallbackData)
    (m : List (String × List CallbackData)) (hne : e2 ≠ e) :
    findCallbacks e2 (storeCallbacks e vec m) = findCallbacks e2 m := by
  induction m with
  | nil => simp [storeCallbacks, findCallbacks, Ne.symm hne]
  | cons hd tl ih =>
    obtain ⟨e0, v0⟩ := hd
    unfold storeCallbacks
    split
    · rename_i h
      subst h
      simp [findCallbacks, Ne.symm hne]
    · rename_i h
      by_cases h2 : e0 = e2
      · simp [findCallbacks, h2]
      · simp [findCallbacks, h2, ih]

theorem regCount_cons (t : Nat) (e : String) (v : List CallbackData)
    (m : List (String × List CallbackData)) :
    regCount t ((e, v) :: m) = (v.map (·.tsfn)).count t + regCount t m := by
  simp [regCount, List.count_append]

theorem regCount_storeCallbacks (t : Nat) (e : String) (vec : List CallbackData)
    (m : List (String × List CallbackData)) :
    regCount t (storeCallbacks e vec m) + (((findCallbacks e m).getD []).map (·.tsfn)).count t
      = regCount t m + (vec.map (·.tsfn)).count t := by
  induction m with
  | nil => simp [storeCallbacks, findCallbacks, regCount]
  | cons hd tl ih =>
    obtain ⟨e0, v0⟩ := hd
    unfold storeCallbacks findCallbacks
    split
    · simp only [regCount_cons, Option.getD_some]
      omega
    · simp only [regCount_cons]
      omega

theorem mem_flatten_storeCallbacks (e : String) (vec : List CallbackData)
    (m : List (String × List CallbackData)) (d : CallbackData)
    (hd : d ∈ ((storeCallbacks e vec m).map (·.2)).flatten) :
    d ∈ vec ∨ d ∈ (m.map (·.2)).flatten := by
  induction m with
  | nil => simpa [storeCallbacks] using hd
  | cons hd0 tl ih =>
    obtain ⟨e0, v0⟩ := hd0
    unfold storeCallbacks at hd
    split at hd
    · simp only [List.map_cons, List.flatten_cons, List.mem_append] at hd ⊢
      tauto
    · simp only [List.map_cons, List.flatten_cons, List.mem_append] at hd ⊢
      rcases hd with h | h
      · exact Or.inr (Or.inl h)
      · rcases ih h with h | h
        · exact Or.inl h
        · exact Or.inr (Or.inr h)

theorem mem_flatten_of_findCallbacks (e : String) (vec : List CallbackData)
    (m : List (String × List CallbackData)) (h : findCallbacks e m = some vec)
    (d : CallbackData) (hd : d ∈ vec) : d ∈ (m.map (·.2)).flatten := by
  induction m with
  | nil => simp [findCallbacks] at h
  | cons hd0 tl ih =>
    obtain ⟨e0, v0⟩ := hd0
    unfold findCallbacks at h
    split at h
    · simp only [Option.some.injEq] at h
      subst h
      simp [hd]
    · simp only [List.map_cons, List.flatten_cons, List.mem_append]
      exact Or.inr (ih h)

/-! ### What the dispatch loops change -/

theorem dispatchTo_fields (kind : CallKind) (w : Webview) (cb : CallbackData) :
    (w.dispatchTo kind cb).event_callbacks_ = w.event_callbacks_ ∧
    (w.dispatchTo kind cb).invoked = w.invoked ∧
    (w.dispatchTo kind cb).cells = w.cells ∧
    (w.dispatchTo kind cb).native = w.native ∧
    (w.dispatchTo kind cb).next_tsfn = w.next_tsfn ∧
    (w.dispatchTo kind cb).scheme_handlers_ = w.scheme_handlers_ ∧
    (w.dispatchTo kind cb).exposed_callbacks_ = w.exposed_callbacks_ ∧
    (w.dispatchTo kind cb).released = w.released ++ (if cb.once then [cb.tsfn] else []) := by
  unfold dispatchTo BlockingCall Release
  cases cb.once <;> by_cases hr : cb.tsfn ∈ w.released <;> simp [hr]

theorem dispatchTo_queue (kind : CallKind) (w : Webview) (cb : CallbackData) :
    (w.dispatchTo kind cb).queue = w.queue ++
      (if cb.tsfn ∈ w.released then []
       else [{ tsfn := cb.tsfn, callback := cb.callback_ref, kind := kind }]) := by
  unfold dispatchTo BlockingCall Release
  cases cb.once <;> by_cases hr : cb.tsfn ∈ w.released <;> simp [hr]

theorem dispatchLoop_fields (kind : CallKind) (vec : List CallbackData) : ∀ (w : Webview),
    (vec.foldl (dispatchTo kind) w).event_callbacks_ = w.event_callbacks_ ∧
    (vec.foldl (dispatchTo kind) w).invoked = w.invoked ∧
    (vec.foldl (dispatchTo kind) w).cells = w.cells ∧
    (vec.foldl (dispatchTo kind) w).native = w.native ∧
    (vec.foldl (dispatchTo kind) w).next_tsfn = w.next_tsfn ∧
    (vec.foldl (dispatchTo kind) w).scheme_handlers_ = w.scheme_handlers_ ∧
    (vec.foldl (dispatchTo kind) w).exposed_callbacks_ = w.exposed_callbacks_ ∧
    (vec.foldl (dispatchTo kind) w).released = w.released ++ (vec.filter (·.once)).map (·.tsfn) := by
  induction vec with
  | nil => intro w; simp
  | cons cb rest ih =>
    intro w
    obtain ⟨h1, h2, h3, h4, h5, h6, h7, h8⟩ := ih (w.dispatchTo kind cb)
    obtain ⟨g1, g2, g3, g4, g5, g6, g7, g8⟩ := dispatchTo_fields kind w cb
    simp only [List.foldl_cons]
    rw [h1, h2, h3, h4, h5, h6, h7, h8, g1, g2, g3, g4, g5, g6, g7, g8]
    cases h : cb.once <;> simp [List.filter_cons, h]

/-- The calls a dispatch loop adds to the queue: the queue before the loop is kept in front,
and the calls added are, in the order of the vector, calls of entries of the vector. -/
theorem dispatchLoop_queue (kind : CallKind) (vec : List CallbackData) : ∀ (w : Webview),
    ∃ added : List QueuedCall, (vec.foldl (dispatchTo kind) w).queue = w.queue ++ added ∧
      added.Sublist
        (vec.map fun cb => { tsfn := cb.tsfn, callback := cb.callback_ref, kind := kind }) := by
  induction vec with
  | nil => intro w; exact ⟨[], by simp, by simp⟩
  | cons cb rest ih =>
    intro w
    obtain ⟨added, h1, h2⟩ := ih (w.dispatchTo kind cb)
    simp only [List.foldl_cons]
    rw [h1, dispatchTo_queue]
    by_cases hr : cb.tsfn ∈ w.released
    · exact ⟨added, by simp [hr], List.Sublist.cons _ h2⟩
    · exact ⟨{ tsfn := cb.tsfn, callback := cb.callback_ref, kind := kind } :: added,
        by simp [hr], List.Sublist.cons₂ _ h2⟩

/-- With no entry of the vector released beforehand, every entry gets its call. -/
theorem dispatchLoop_queue_all (kind : CallKind) (vec : List CallbackData) : ∀ (w : Webview),
    (∀ cb ∈ vec, cb.tsfn ∉ w.released) → (vec.map (·.tsfn)).Nodup →
    (vec.foldl (dispatchTo kind) w).queue = w.queue ++
      vec.map fun cb => { tsfn := cb.tsfn, callback := cb.callback_ref, kind := kind } := by
  induction vec with
  | nil => intro w _ _; simp
  | cons cb rest ih =>
    intro w hrel hnd
    simp only [List.map_cons, List.nodup_cons] at hnd
    have h0 : cb.tsfn ∉ w.released := hrel cb (List.mem_cons_self _ _)
    simp only [List.foldl_cons]
    rw [ih (w.dispatchTo kind cb) ?_ hnd.2, dispatchTo_queue]
    · simp [h0]
    · intro c hc
      rw [(dispatchTo_fields kind w cb).2.2.2.2.2.2.2]
      have h1 : c.tsfn ∉ w.released := hrel c (List.mem_cons_of_mem _ hc)
      have h2 : c.tsfn ≠ cb.tsfn := by
        intro he
        exact hnd.1 (he ▸ List.mem_map.mpr ⟨c, hc, rfl⟩)
      cases h : cb.once <;> simp [h1, h2]

theorem RemoveOnceCallbacks_fields (w : Webview) (e : String) :
    (w.RemoveOnceCallbacks e).invoked = w.invoked ∧
    (w.RemoveOnceCallbacks e).queue = w.queue ∧
    (w.RemoveOnceCallbacks e).cells = w.cells ∧
    (w.RemoveOnceCallbacks e).native = w.native ∧
    (w.RemoveOnceCallbacks e).next_tsfn = w.next_tsfn ∧
    (w.RemoveOnceCallbacks e).released = w.released := by
  unfold RemoveOnceCallbacks
  split <;> simp

/-- The verdict returned by `EvaluatePolicy` is always allow: the queued calls that could
change the shared verdict have not run when it is read. -/
theorem EvaluatePolicy_returns_true (w : Webview) (event : String) :
    (w.EvaluatePolicy event).1 = true := by
  unfold EvaluatePolicy
  split
  · rfl
  · simp only [policyLoop]
    rw [(RemoveOnceCallbacks_fields _ _).2.2.1, (dispatchLoop_fields _ _ _).2.2.1]
    simp

/-- No host callback runs inside `EvaluatePolicy`. -/
theorem EvaluatePolicy_invoked (w : Webview) (event : String) :
    (w.EvaluatePolicy event).2.invoked = w.invoked := by
  unfold EvaluatePolicy
  split
  · rfl
  · simp only [policyLoop]
    rw [(RemoveOnceCallbacks_fields _ _).1, (dispatchLoop_fields _ _ _).2.1]

/-- No host callback runs inside `EmitEvent`. -/
theorem EmitEvent_invoked (w : Webview) (event : String) :
    (w.EmitEvent event).invoked = w.invoked := by
  unfold EmitEvent
  split
  · rfl
  · simp only [emitLoop]
    rw [(RemoveOnceCallbacks_fields _ _).1, (dispatchLoop_fields _ _ _).2.1]


theorem runCall_cells (js : Nat → CallResult) (w : Webview) (c : QueuedCall) :
    (w.runCall js c).cells =
      match c.kind with
      | .emit => w.cells
      | .policy cell => if denies (js c.callback) then w.cells.set cell false else w.cells := by
  unfold runCall
  cases hk : c.kind with
  | emit => simp
  | policy cell =>
    simp only
    cases hj : js c.callback with
    | throws e => simp [denies]
    | returns result =>
      cases result with
      | boolean b => cases b <;> simp [JsValue.IsBoolean, denies]
      | string val => by_cases hv : val = "block" <;> simp [JsValue.IsBoolean, JsValue.IsString, denies, hv]
      | _ => simp [JsValue.IsBoolean, JsValue.IsString, denies]

theorem runCalls_cell (js : Nat → CallResult) (cell : Nat) (calls : List QueuedCall) :
    ∀ (w : Webview), cell < w.cells.length →
      (∀ c ∈ calls, c.kind = .policy cell) →
      (calls.foldl (runCall js) w).cells.getD cell true =
        (w.cells.getD cell true && calls.all fun c => !denies (js c.callback)) := by
  induction calls with
  | nil => intro w _ _; simp
  | cons c rest ih =>
    intro w hlen hk
    have hc : c.kind = .policy cell := hk c (List.mem_cons_self _ _)
    have hcells := runCall_cells js w c
    rw [hc] at hcells
    simp only at hcells
    simp only [List.foldl_cons, List.all_cons]
    rw [ih (w.runCall js c) ?_ fun c hc => hk c (List.mem_cons_of_mem _ hc)]
    · rw [hcells]
      cases hd : denies (js c.callback)
      · simp
      · simp [List.getD_eq_getElem?_getD, hlen]
    · rw [hcells]
      split <;> simp [hlen]


/-- What one emission does to the registry, the queue and the releases, whatever the kind of
the queued calls: `w0` is the instance when the loop starts and `vec` the copied vector. -/
theorem emission_core (kind : CallKind) (w0 : Webview) (e : String) (vec : List CallbackData)
    (hf : findCallbacks e w0.event_callbacks_ = some vec) :
    ((vec.foldl (dispatchTo kind) w0).RemoveOnceCallbacks e).event_callbacks_
        = storeCallbacks e (vec.filter fun cb => !cb.once) w0.event_callbacks_ ∧
    ((vec.foldl (dispatchTo kind) w0).RemoveOnceCallbacks e).invoked = w0.invoked ∧
    ((vec.foldl (dispatchTo kind) w0).RemoveOnceCallbacks e).released
        = w0.released ++ (vec.filter (·.once)).map (·.tsfn) ∧
    ∃ added : List QueuedCall,
      ((vec.foldl (dispatchTo kind) w0).RemoveOnceCallbacks e).queue = w0.queue ++ added ∧
      added.Sublist
        (vec.map fun cb => { tsfn := cb.tsfn, callback := cb.callback_ref, kind := kind }) := by
  obtain ⟨h1, h2, h3, h4, h5, h6, h7, h8⟩ := dispatchLoop_fields kind vec w0
  obtain ⟨g1, g2, g3, g4, g5, g6⟩ := RemoveOnceCallbacks_fields (vec.foldl (dispatchTo kind) w0) e
  refine ⟨?_, by rw [g1, h2], by rw [g6, h8], ?_⟩
  · unfold RemoveOnceCallbacks
    rw [h1, hf]
  · obtain ⟨added, ha1, ha2⟩ := dispatchLoop_queue kind vec w0
    exact ⟨added, by rw [g2, ha1], ha2⟩

theorem runCalls_invoked (js : Nat → CallResult) (calls : List QueuedCall) : ∀ (w : Webview),
    (calls.foldl (runCall js) w).invoked = w.invoked ++ calls.map (·.tsfn) ∧
    (calls.foldl (runCall js) w).queue = w.queue ∧
    (calls.foldl (runCall js) w).event_callbacks_ = w.event_callbacks_ ∧
    (calls.foldl (runCall js) w).released = w.released ∧
    (calls.foldl (runCall js) w).cells.length = w.cells.length := by
  induction calls with
  | nil => intro w; simp
  | cons c rest ih =>
    intro w
    obtain ⟨h1, h2, h3, h4, h5⟩ := ih (w.runCall js c)
    simp only [List.foldl_cons, List.map_cons]
    rw [h1, h2, h3, h4, h5]
    have hc := runCall_cells js w c
    have : (w.runCall js c).invoked = w.invoked ++ [c.tsfn] ∧ (w.runCall js c).queue = w.queue ∧
        (w.runCall js c).event_callbacks_ = w.event_callbacks_ ∧
        (w.runCall js c).released = w.released := by
      unfold runCall
      simp only
      split
      · simp
      · split
        · split
          · split <;> simp
          · split
            · split
              · split <;> simp
              · simp
            · simp
        · simp
    obtain ⟨k1, k2, k3, k4⟩ := this
    rw [k1, k2, k3, k4, hc]
    refine ⟨by simp, rfl, rfl, rfl, ?_⟩
    split
    · rfl
    · split <;> simp

theorem runPending_fields (js : Nat → CallResult) (w : Webview) :
    (w.runPending js).invoked = w.invoked ++ w.queue.map (·.tsfn) ∧
    (w.runPending js).queue = [] ∧
    (w.runPending js).event_callbacks_ = w.event_callbacks_ ∧
    (w.runPending js).released = w.released := by
  unfold runPending
  obtain ⟨h1, h2, h3, h4, _⟩ := runCalls_invoked js w.queue { w with queue := [] }
  exact ⟨h1, h2, h3, h4⟩

theorem all_policy_calls (js : Nat → CallResult) (cell : Nat) (vec : List CallbackData) :
    ((vec.map fun cb =>
        ({ tsfn := cb.tsfn, callback := cb.callback_ref, kind := .policy cell } : QueuedCall)).all
      fun c => !denies (js c.callback)) = vec.all fun cb => !denies (js cb.callback_ref) := by
  induction vec with
  | nil => rfl
  | cons c rest ih => simp only [List.map_cons, List.all_cons, ih]

/-- The shared verdict once the host thread has run the calls queued by `EvaluatePolicy`:
it is the conjunction over the handlers of the event, none of which vetoes. -/
theorem EvaluatePolicy_verdict_after_host_loop (js : Nat → CallResult) (w : Webview)
    (event : String) (vec : List CallbackData) (hq : w.queue = [])
    (hf : findCallbacks event w.event_callbacks_ = some vec)
    (hrel : ∀ cb ∈ vec, cb.tsfn ∉ w.released) (hnd : (vec.map (·.tsfn)).Nodup) :
    (((w.EvaluatePolicy event).2.runPending js).cells.getD w.cells.length true)
      = vec.all fun cb => !denies (js cb.callback_ref) := by
  unfold EvaluatePolicy
  rw [hf]
  simp only [policyLoop]
  have hq2 : ((vec.foldl (dispatchTo (.policy w.cells.length))
      { w with cells := w.cells ++ [true] }).RemoveOnceCallbacks event).queue
      = vec.map fun cb =>
          { tsfn := cb.tsfn, callback := cb.callback_ref, kind := .policy w.cells.length } := by
    rw [(RemoveOnceCallbacks_fields _ _).2.1,
      dispatchLoop_queue_all (.policy w.cells.length) vec { w with cells := w.cells ++ [true] }
        hrel hnd]
    simp [hq]
  have hc2 : ((vec.foldl (dispatchTo (.policy w.cells.length))
      { w with cells := w.cells ++ [true] }).RemoveOnceCallbacks event).cells
      = w.cells ++ [true] := by
    rw [(RemoveOnceCallbacks_fields _ _).2.2.1, (dispatchLoop_fields _ _ _).2.2.1]
  unfold runPending
  rw [hq2, runCalls_cell js w.cells.length]
  · rw [hc2]
    simp only [List.getD_eq_getElem?_getD, List.getElem?_concat_length, Option.getD_some,
      Bool.true_and]
    exact all_policy_calls js w.cells.length vec
  · simp [hc2]
  · intro c hc
    simp only [List.mem_map] at hc
    obtain ⟨cb, _, rfl⟩ := hc
    rfl


theorem onceTracked_emission (kind : CallKind) (t : Nat) (w0 : Webview) (e : String)
    (vec : List CallbackData) (hf : findCallbacks e w0.event_callbacks_ = some vec)
    (h : OnceTracked t w0) :
    OnceTracked t ((vec.foldl (dispatchTo kind) w0).RemoveOnceCallbacks e) := by
  obtain ⟨h1, h2⟩ := h
  obtain ⟨c1, c2, _, added, c4, c5⟩ := emission_core kind w0 e vec hf
  have hsub : ∀ d ∈ vec, d ∈ w0.registrations := fun d hd =>
    mem_flatten_of_findCallbacks e vec _ hf d hd
  constructor
  · intro d hd ht
    unfold registrations at hd
    rw [c1] at hd
    rcases mem_flatten_storeCallbacks _ _ _ _ hd with hd | hd
    · exact h1 d (hsub d (List.mem_filter.mp hd).1) ht
    · exact h1 d hd ht
  · have hz : ((vec.filter fun cb => !cb.once).map (·.tsfn)).count t = 0 := by
      rw [List.count_eq_zero]
      intro hm
      obtain ⟨d, hd, hdt⟩ := List.mem_map.mp hm
      obtain ⟨hd1, hd2⟩ := List.mem_filter.mp hd
      have := h1 d (hsub d hd1) hdt
      simp [this] at hd2
    have hr := regCount_storeCallbacks t e (vec.filter fun cb => !cb.once) w0.event_callbacks_
    rw [hf, hz] at hr
    simp only [Option.getD_some, Nat.add_zero] at hr
    have hq : (added.map (·.tsfn)).count t ≤ (vec.map (·.tsfn)).count t := by
      have := (c5.map (·.tsfn)).count_le t
      simpa [List.map_map, Function.comp_def] using this
    unfold dispatches at h2 ⊢
    rw [c1, c2, c4]
    simp only [List.map_append, List.count_append]
    omega

theorem onceTracked_congr (t : Nat) (w w2 : Webview)
    (h1 : w2.event_callbacks_ = w.event_callbacks_) (h2 : w2.invoked = w.invoked)
    (h3 : w2.queue = w.queue) (h : OnceTracked t w) : OnceTracked t w2 := by
  unfold OnceTracked registrations dispatches at *
  rw [h1, h2, h3]
  exact h

theorem onceTracked_step (js : Nat → CallResult) (t : Nat) (w : Webview) (em : Emission)
    (h : OnceTracked t w) : OnceTracked t (w.step js em) := by
  cases em with
  | emit event =>
    simp only [step, EmitEvent]
    split
    · exact h
    · rename_i vec hf
      exact onceTracked_emission .emit t w event vec hf h
  | policy event =>
    simp only [step, EvaluatePolicy]
    split
    · exact h
    · rename_i vec hf
      exact onceTracked_emission _ t { w with cells := w.cells ++ [true] } event vec hf
        (onceTracked_congr t w _ rfl rfl rfl h)
  | hostLoop =>
    simp only [step]
    obtain ⟨g1, g2, g3, _⟩ := runPending_fields js w
    obtain ⟨h1, h2⟩ := h
    constructor
    · intro d hd ht
      unfold registrations at hd
      rw [g3] at hd
      exact h1 d hd ht
    · unfold dispatches at h2 ⊢
      rw [g1, g2, g3]
      simp only [List.count_append, List.map_nil, List.count_nil]
      omega

theorem onceTracked_run (js : Nat → CallResult) (t : Nat) (trace : List Emission) :
    ∀ (w : Webview), OnceTracked t w → OnceTracked t (w.run js trace) := by
  induction trace with
  | nil => intro w h; exact h
  | cons em rest ih =>
    intro w h
    exact ih (w.step js em) (onceTracked_step js t w em h)

theorem onceTracked_register (w : Webview) (event : String) (cb nativeId : Nat)
    (hfresh : Fresh w) (hreg : (w.RegisterEvent event cb true nativeId).1 = true) :
    OnceTracked w.next_tsfn (w.RegisterEvent event cb true nativeId).2 := by
  obtain ⟨f1, f2, f3⟩ := hfresh
  have hold : ∀ d ∈ (findCallbacks event w.event_callbacks_).getD [], d ∈ w.registrations := by
    intro d hd
    cases hf : findCallbacks event w.event_callbacks_ with
    | none => simp [hf] at hd
    | some vec =>
      rw [hf] at hd
      exact mem_flatten_of_findCallbacks event vec _ hf d hd
  have hfields : (w.RegisterEvent event cb true nativeId).2.event_callbacks_ =
      storeCallbacks event ((findCallbacks event w.event_callbacks_).getD [] ++
        [{ tsfn := w.next_tsfn, id := 0, once := true, callback_ref := cb }]) w.event_callbacks_ ∧
      (w.RegisterEvent event cb true nativeId).2.invoked = w.invoked ∧
      (w.RegisterEvent event cb true nativeId).2.queue = w.queue := by
    unfold RegisterEvent at hreg ⊢
    simp only at hreg ⊢
    split <;> simp_all
  obtain ⟨e1, e2, e3⟩ := hfields
  have hz1 : regCount w.next_tsfn w.event_callbacks_ = 0 := by
    unfold regCount
    rw [List.count_eq_zero]
    intro hm
    obtain ⟨d, hd, hdt⟩ := List.mem_map.mp hm
    have := f1 d hd
    omega
  have hz2 : (((findCallbacks event w.event_callbacks_).getD []).map (·.tsfn)).count w.next_tsfn
      = 0 := by
    rw [List.count_eq_zero]
    intro hm
    obtain ⟨d, hd, hdt⟩ := List.mem_map.mp hm
    have := f1 d (hold d hd)
    omega
  have hz3 : w.dispatches w.next_tsfn = 0 := by
    unfold dispatches
    have a1 : w.invoked.count w.next_tsfn = 0 := by
      rw [List.count_eq_zero]
      intro hm
      have := f2 _ hm
      omega
    have a2 : (w.queue.map (·.tsfn)).count w.next_tsfn = 0 := by
      rw [List.count_eq_zero]
      intro hm
      obtain ⟨c, hc, hct⟩ := List.mem_map.mp hm
      have := f3 c hc
      omega
    omega
  constructor
  · intro d hd ht
    unfold registrations at hd
    rw [e1] at hd
    rcases mem_flatten_storeCallbacks _ _ _ _ hd with hd | hd
    · rcases List.mem_append.mp hd with hd | hd
      · have := f1 d (hold d hd)
        omega
      · simp only [List.mem_singleton] at hd
        rw [hd]
    · have := f1 d hd
      omega
  · have hr := regCount_storeCallbacks w.next_tsfn event
      ((findCallbacks event w.event_callbacks_).getD [] ++
        [{ tsfn := w.next_tsfn, id := 0, once := true, callback_ref := cb }]) w.event_callbacks_
    rw [hz1, hz2] at hr
    simp only [List.map_append, List.count_append, hz2, List.map_cons, List.map_nil,
      List.count_singleton_self, Nat.add_zero, Nat.zero_add] at hr
    have hd : (w.RegisterEvent event cb true nativeId).2.dispatches w.next_tsfn = 0 := by
      unfold dispatches at hz3 ⊢
      rw [e2, e3]
      exact hz3
    rw [e1, hr, hd]


theorem removeMatching_eq (cb : Nat) (vec : List CallbackData) :
    removeMatching cb vec =
      (vec.filter (fun d => decide (d.callback_ref ≠ cb)),
       ((vec.filter (fun d => decide (d.callback_ref = cb))).filter
          (fun d => decide (d.id ≠ 0))).map (·.id),
       (vec.filter (fun d => decide (d.callback_ref = cb))).map (·.tsfn)) := by
  induction vec with
  | nil => simp [removeMatching]
  | cons d rest ih =>
    unfold removeMatching
    rw [ih]
    by_cases h : d.callback_ref = cb
    · by_cases h0 : d.id = 0 <;> simp [h, h0, List.filter_cons]
    · simp [h, List.filter_cons]

theorem RegisterEvent_supported (w : Webview) (event : String) (cb : Nat) (once : Bool)
    (nativeId : Nat)
    (hsup : (MapWindowEventName event).isSome = true ∨ (MapWebEventName event).isSome = true) :
    (w.RegisterEvent event cb once nativeId).1 = true ∧
    (w.RegisterEvent event cb once nativeId).2.event_callbacks_ =
      storeCallbacks event ((findCallbacks event w.event_callbacks_).getD [] ++
        [{ tsfn := w.next_tsfn, id := if once then 0 else nativeId, once := once,
           callback_ref := cb }]) w.event_callbacks_ ∧
    (w.RegisterEvent event cb once nativeId).2.next_tsfn = w.next_tsfn + 1 ∧
    (w.RegisterEvent event cb once nativeId).2.released = w.released ∧
    (w.RegisterEvent event cb once nativeId).2.queue = w.queue ∧
    (w.RegisterEvent event cb once nativeId).2.invoked = w.invoked := by
  unfold RegisterEvent
  simp only
  cases h1 : MapWindowEventName event with
  | some we => simp
  | none =>
    cases h2 : MapWebEventName event with
    | some ev => simp
    | none => simp [h1, h2] at hsup

end Webview

theorem std_find_eq_zero (needle : List Char) (hay : List Char) :
    std_find needle hay = some 0 ↔ needle <+: hay := by
  cases hay with
  | nil =>
    unfold std_find
    by_cases h : needle.isPrefixOf [] = true
    · simp only [h, if_true, true_iff]
      exact List.isPrefixOf_iff_prefix.mp h
    · simp only [h]
      constructor
      · intro hs
        simp at hs
      · intro hp
        exact absurd (List.isPrefixOf_iff_prefix.mpr hp) h
  | cons c cs =>
    unfold std_find
    by_cases h : needle.isPrefixOf (c :: cs) = true
    · simp only [h, if_true, true_iff]
      exact List.isPrefixOf_iff_prefix.mp h
    · simp only [h]
      constructor
      · intro hs
        cases hf : std_find needle cs <;> simp [hf] at hs
      · intro hp
        exact absurd (List.isPrefixOf_iff_prefix.mpr hp) h

theorem colon_prefix_of_slashes (name : String) (url : List Char)
    (h : (name ++ "://").data <+: url) : (name ++ ":").data <+: url := by
  have h1 : (name ++ ":").data <+: (name ++ "://").data := by
    simp only [String.data_append]
    exact (List.prefix_append_right_inj _).mpr ⟨['/', '/'], rfl⟩
  exact h1.trans h

/-- The test of the lookup loop is the test that `name:` starts the URL. -/
theorem findSchemeHandler_eq_find (urlStr : String) (hs : List SchemeHandler) :
    findSchemeHandler urlStr hs
      = hs.find? fun h => decide ((h.name ++ ":").data <+: urlStr.data) := by
  induction hs with
  | nil => rfl
  | cons h rest ih =>
    unfold findSchemeHandler
    simp only [std_find_eq_zero, List.find?_cons]
    by_cases hp : (h.name ++ ":").data <+: urlStr.data
    · rw [if_pos (Or.inr hp), decide_eq_true hp]
    · have hq : ¬ (h.name ++ "://").data <+: urlStr.data := fun hq =>
        hp (colon_prefix_of_slashes _ _ hq)
      rw [if_neg (not_or.mpr ⟨hq, hp⟩), decide_eq_false hp, ih]

theorem split_at_colon (url : List Char) (h : ':' ∈ url) :
    ∃ rest, url = url.takeWhile (fun c => decide (c ≠ ':')) ++ ':' :: rest := by
  induction url with
  | nil => simp at h
  | cons c cs ih =>
    by_cases hc : c = ':'
    · subst hc
      exact ⟨cs, by simp⟩
    · have hm : ':' ∈ cs := by
        rcases List.mem_cons.mp h with h | h
        · exact absurd h.symm hc
        · exact h
      obtain ⟨rest, hr⟩ := ih hm
      refine ⟨rest, ?_⟩
      rw [List.takeWhile_cons_of_pos (by simpa using hc), List.cons_append, ← hr]

theorem prefix_colon_iff (name url : List Char) (hn : ':' ∉ name) :
    name ++ [':'] <+: url ↔ (':' ∈ url ∧ url.takeWhile (fun c => decide (c ≠ ':')) = name) := by
  constructor
  · rintro ⟨rest, rfl⟩
    refine ⟨by simp, ?_⟩
    rw [List.append_assoc, List.takeWhile_append_of_pos]
    · simp
    · intro c hc
      have : c ≠ ':' := fun he => hn (he ▸ hc)
      simpa using this
  · rintro ⟨hmem, htake⟩
    subst htake
    obtain ⟨rest, hr⟩ := split_at_colon url hmem
    refine ⟨rest, ?_⟩
    rw [List.append_assoc]
    exact hr.symm

/-! ### The scheme lookup -/

theorem takeWhile_key (key rest : List Char) (hk : ':' ∉ key) :
    (key ++ ':' :: rest).takeWhile (fun c => decide (c ≠ ':')) = key := by
  rw [List.takeWhile_append_of_pos]
  · simp
  · intro c hc
    have : c ≠ ':' := fun he => hk (he ▸ hc)
    simpa using this

/-- In a URL with a single colon, written after `key`, the only name whose `name:` starts the
URL is `key`. -/
theorem prefix_colon_unique (name key rest : List Char) (hk : ':' ∉ key) (hr : ':' ∉ rest) :
    name ++ [':'] <+: key ++ ':' :: rest ↔ name = key := by
  constructor
  · rintro ⟨r2, h⟩
    rw [List.append_assoc] at h
    by_cases hn : ':' ∈ name
    · obtain ⟨b, hb⟩ := split_at_colon name hn
      have hna : ':' ∉ name.takeWhile (fun c => decide (c ≠ ':')) := by
        intro hm
        have := List.mem_takeWhile_imp hm
        simp at this
      generalize name.takeWhile (fun c => decide (c ≠ ':')) = a at hb hna
      subst hb
      simp only [List.append_assoc, List.cons_append, List.singleton_append] at h
      have h1 := congrArg (List.takeWhile (fun c => decide (c ≠ ':'))) h
      rw [takeWhile_key _ _ hna, takeWhile_key _ _ hk] at h1
      rw [h1] at h
      have h2 := List.append_cancel_left h
      simp only [List.cons.injEq, true_and] at h2
      exact absurd (h2 ▸ (by simp : ':' ∈ b ++ ':' :: r2)) hr
    · have h1 := congrArg (List.takeWhile (fun c => decide (c ≠ ':'))) h
      simp only [List.singleton_append] at h1
      rw [takeWhile_key _ _ hn, takeWhile_key _ _ hk] at h1
      exact h1
  · rintro rfl
    exact ⟨rest, by simp⟩

theorem findSchemeHandler_single_colon (key rest : String) (hs : List SchemeHandler)
    (hk : ':' ∉ key.data) (hr : ':' ∉ rest.data) :
    findSchemeHandler (key ++ ":" ++ rest) hs = hs.find? fun h => decide (h.name = key) := by
  rw [findSchemeHandler_eq_find]
  congr 1
  funext h
  have : (h.name ++ ":").data <+: (key ++ ":" ++ rest).data ↔ h.name = key := by
    simp only [String.data_append]
    have e : key.data ++ [':'] ++ rest.data = key.data ++ ':' :: rest.data := by simp
    rw [e, prefix_colon_unique _ _ _ hk hr]
    constructor
    · intro hd; exact String.ext hd
    · intro hd; rw [hd]
  simp only [this]

open Webview

/-! ### The argument collector and the result conversion -/

theorem CollectJsonArgs_loop_ok (rest : List JsValue) :
    ∀ (acc : List json_t), (∀ v ∈ rest, JsonRepresentable v = true) →
      ∃ docs, CollectJsonArgs.loop rest acc = .ok (acc ++ docs) ∧
        List.Forall₂ (fun doc v => structEq (ParseJson (glz.write_json doc)) v = true) docs rest := by
  induction rest with
  | nil => intro acc _; exact ⟨[], by simp [CollectJsonArgs.loop], List.Forall₂.nil⟩
  | cons v rest ih =>
    intro acc h
    obtain ⟨t, h1, h2⟩ := roundtrip_value v (h v (List.mem_cons_self _ _))
    obtain ⟨docs, h3, h4⟩ := ih (acc ++ [glz.toDocument t])
      fun x hx => h x (List.mem_cons_of_mem _ hx)
    refine ⟨glz.toDocument t :: docs, ?_, List.Forall₂.cons h2 h4⟩
    simp only [CollectJsonArgs.loop, h1, glz.read_json, h3]
    simp

theorem CollectJsonArgs_loop_throws (rest : List JsValue) :
    ∀ (acc : List json_t), (∃ v ∈ rest, ∀ t, JSON_stringify v ≠ .ok (some t)) →
      ∃ e, CollectJsonArgs.loop rest acc = .error e := by
  induction rest with
  | nil => intro acc h; simp at h
  | cons v rest ih =>
    intro acc h
    unfold CollectJsonArgs.loop
    cases hs : JSON_stringify v with
    | error e => exact ⟨e, rfl⟩
    | ok r =>
      cases r with
      | none => exact ⟨_, rfl⟩
      | some t =>
        simp only [glz.read_json]
        apply ih
        obtain ⟨x, hx, hxt⟩ := h
        rcases List.mem_cons.mp hx with hx | hx
        · subst hx
          exact absurd hs (hxt t)
        · exact ⟨x, hx, hxt⟩

/-- The conversion of results is a round trip on every representable value that is not an
object carrying a string under `message`. -/
theorem SerializeForRPC_roundtrip (v : JsValue) (hv : JsonRepresentable v = true)
    (hm : ∀ s, v.getProp "message" ≠ some (.string s)) :
    ∃ doc, SerializeForRPC v = .ok doc ∧ structEq (ParseJson (glz.write_json doc)) v = true := by
  obtain ⟨t, h1, h2⟩ := roundtrip_value v hv
  by_cases hn : v = .null
  · subst hn
    exact ⟨.null, rfl, rfl⟩
  · have hnn : (v.IsUndefined || v.IsNull) = false := by
      cases v <;> simp [JsValue.IsUndefined, JsValue.IsNull, JsonRepresentable] at hv hn ⊢
    refine ⟨glz.toDocument t, ?_, h2⟩
    unfold SerializeForRPC StringifyForRPC
    simp only [hnn, Bool.false_eq_true, if_false]
    have hvia : (if v.IsObject = true then
        match v.getProp "message" with
        | some msg =>
          if msg.IsString = true then
            match JSON_stringify msg with
            | .ok (some jsonVal) => some jsonVal
            | _ => none
          else none
        | none => none
      else none) = none := by
      split
      · cases hg : v.getProp "message" with
        | none => rfl
        | some msg =>
          simp only
          cases msg with
          | string s => exact absurd hg (hm s)
          | _ => simp [JsValue.IsString]
      · rfl
    simp only [hvia, h1, glz.read_json]

/-! ### The scheme trampoline -/

theorem resolveResponse_once (result : JsValue) :
    CompletedOnce (HandleScheme.resolveResponse result) := by
  unfold HandleScheme.resolveResponse
  split
  · simp only
    split
    · exact ⟨_, by simp, rfl⟩
    · exact ⟨_, by simp, rfl⟩
  · exact ⟨_, by simp, rfl⟩

/-- On every path of the trampoline on which the dispatch to the handler is accepted and the
handler does not return a promise that stays pending, the executor of the request is completed
once and then freed. -/
theorem trampoline_completes_once (self : Option Webview) (request : SchemeRequest)
    (status_ok : Nat → Bool) (js : Nat → JsValue → CallResult)
    (hok : ∀ tsfn, status_ok tsfn = true)
    (hsettles : ∀ tsfn req, js tsfn req ≠ .returns .promisePending) :
    CompletedOnce (HandleScheme.trampoline self request status_ok js) := by
  unfold HandleScheme.trampoline
  split
  · exact ⟨_, by simp, rfl⟩
  · simp only
    split
    · exact ⟨_, by simp, rfl⟩
    · split
      · exact ⟨_, by simp, rfl⟩
      · rename_i tsfn _
        simp only [hok, if_true]
        unfold HandleScheme.callJs
        split
        · exact ⟨_, by simp, rfl⟩
        · rename_i result hres
          cases hp : result.IsPromise with
          | false =>
            simp only [Bool.false_eq_true, if_false]
            exact resolveResponse_once _
          | true =>
            simp only [if_true]
            cases result with
            | promisePending => exact absurd hres (hsettles _ _)
            | promiseFulfils val => exact resolveResponse_once _
            | promiseRejects r => exact ⟨_, by simp, rfl⟩
            | _ => simp [JsValue.IsPromise] at hp

/-! ### Emissions and removals -/

theorem EmitEvent_eq (v : Webview) (e : String) (vec : List CallbackData)
    (hf : findCallbacks e v.event_callbacks_ = some vec) :
    v.EmitEvent e = (vec.foldl (dispatchTo .emit) v).RemoveOnceCallbacks e := by
  unfold EmitEvent emitLoop
  rw [hf]

theorem EvaluatePolicy_eq (v : Webview) (e : String) (vec : List CallbackData)
    (hf : findCallbacks e v.event_callbacks_ = some vec) :
    (v.EvaluatePolicy e).2 = (vec.foldl (dispatchTo (.policy v.cells.length))
      { v with cells := v.cells ++ [true] }).RemoveOnceCallbacks e := by
  unfold EvaluatePolicy policyLoop
  rw [hf]

theorem RemoveCallbackByFunction_spec (w : Webview) (event : String) (cb : Nat)
    (vec : List CallbackData) (hf : findCallbacks event w.event_callbacks_ = some vec) :
    (w.RemoveCallbackByFunction event cb).event_callbacks_
      = storeCallbacks event (vec.filter fun d => decide (d.callback_ref ≠ cb))
          w.event_callbacks_ ∧
    (w.RemoveCallbackByFunction event cb).released
      = w.released ++ (vec.filter fun d => decide (d.callback_ref = cb)).map (·.tsfn) ∧
    (w.RemoveCallbackByFunction event cb).native
      = w.native ++
        match MapWindowEventName event with
        | some we =>
          (((vec.filter fun d => decide (d.callback_ref = cb)).filter
            fun d => decide (d.id ≠ 0)).map (·.id)).map (NativeCall.window_remove we)
        | none =>
          match MapWebEventName event with
          | some ev =>
            (((vec.filter fun d => decide (d.callback_ref = cb)).filter
              fun d => decide (d.id ≠ 0)).map (·.id)).map (NativeCall.webview_remove ev)
          | none => [] := by
  unfold RemoveCallbackByFunction
  rw [hf]
  simp only [removeMatching_eq]
  cases MapWindowEventName event with
  | some we => simp
  | none =>
    cases MapWebEventName event with
    | some ev => simp
    | none => simp

/-! ### The hypotheses of the claims hold on the instances that can be reached -/

/-- An event without list in the registry: `off` changes nothing. -/
theorem RemoveCallbackByFunction_absent (w : Webview) (event : String) (cb : Nat)
    (hf : findCallbacks event w.event_callbacks_ = none) :
    w.RemoveCallbackByFunction event cb = w := by
  unfold RemoveCallbackByFunction
  rw [hf]

/-! ### The thread-safe function a scheme request is handed to -/

theorem trampoline_eq_dispatchTarget (self : Option Webview) (request : SchemeRequest)
    (status_ok : Nat → Bool) (js : Nat → JsValue → CallResult) :
    HandleScheme.trampoline self request status_ok js =
      match (HandleScheme.dispatchTarget self request).2 with
      | none => (HandleScheme.dispatchTarget self request).1
      | some tsfn =>
        if status_ok tsfn then
          HandleScheme.callJs (js tsfn) (request.url.getD "") (request.method.getD "GET")
            (request.content.getD []) (request.headers.map fun kv => (kv.1.getD "", kv.2.getD ""))
        else [] := by
  unfold HandleScheme.trampoline HandleScheme.dispatchTarget
  cases self with
  | none => rfl
  | some self =>
    simp only
    cases findSchemeHandler (request.url.getD "") self.scheme_handlers_ with
    | none => rfl
    | some handler_entry =>
      simp only
      cases handler_entry.tsfn with
      | none => rfl
      | some tsfn => rfl

theorem findSchemeHandler_none (urlStr : String) (hs : List SchemeHandler)
    (hnone : ∀ h ∈ hs, ¬ (std_find (h.name ++ "://").data urlStr.data = some 0
      ∨ std_find (h.name ++ ":").data urlStr.data = some 0)) :
    findSchemeHandler urlStr hs = none := by
  induction hs with
  | nil => rfl
  | cons h rest ih =>
    unfold findSchemeHandler
    rw [if_neg (hnone h (List.mem_cons_self _ _))]
    exact ih fun h' hm => hnone h' (List.mem_cons_of_mem _ hm)

/-! ### Parsed arrays -/

theorem JSON_parseArray_eq_map (items : List JsonText) :
    JSON_parseArray items = items.map JSON_parse := by
  induction items with
  | nil => simp [JSON_parseArray]
  | cons t ts ih => simp [JSON_parseArray, ih]

theorem write_jsonArray_eq_map (items : List json_t) :
    glz.write_jsonArray items = items.map glz.write_json := by
  induction items with
  | nil => simp [glz.write_jsonArray]
  | cons t ts ih => simp [glz.write_jsonArray, ih]

theorem callJs_arguments (jsCallback : List JsValue → CallResult) (params : JsonText) :
    Expose.callJs jsCallback params
      = Expose.callJs (fun _ => jsCallback (Expose.arguments (ParseJson params))) params := by
  unfold Expose.callJs
  rfl

/-- A host function that throws the number of its arguments shows how many it was given. -/
theorem callJs_argument_count (params : JsonText) :
    Expose.callJs (fun args => .throws (.number args.length)) params
      = ([.reject (.json (.num (Expose.arguments (ParseJson params)).length))], none) := by
  simp only [Expose.callJs]
  rfl

theorem handler_argument_count (params : List json_t) :
    Expose.handler true (fun args => .throws (.number args.length)) params
      = [.reject (.json (.num params.length))] := by
  have h : Expose.arguments (ParseJson (glz.write_json (.array params)))
      = params.map fun d => JSON_parse (glz.write_json d) := by
    simp [ParseJson, glz.write_json, JSON_parse, Expose.arguments, JSON_parseArray_eq_map,
      write_jsonArray_eq_map, List.map_map, Function.comp_def]
  unfold Expose.handler
  simp only [if_true]
  rw [callJs_argument_count, h, List.length_map]

/-! ### Unsupported event names -/

theorem RegisterEvent_unsupported (w : Webview) (event : String) (cb : Nat) (once : Bool)
    (nativeId : Nat) (h1 : MapWindowEventName event = none) (h2 : MapWebEventName event = none) :
    w.RegisterEvent event cb once nativeId = (false, w) := by
  unfold RegisterEvent
  simp [h1, h2]

theorem On_unsupported (w : Webview) (event : String) (cb : Nat) (nativeId : Nat)
    (h1 : MapWindowEventName event = none) (h2 : MapWebEventName event = none) :
    w.On [.string event, .function cb] nativeId
      = .error (.error ("Unsupported event: " ++ event)) := by
  unfold On
  simp [RegisterEvent_unsupported w event cb false nativeId h1 h2]

theorem Once_unsupported (w : Webview) (event : String) (cb : Nat) (nativeId : Nat)
    (h1 : MapWindowEventName event = none) (h2 : MapWebEventName event = none) :
    w.Once [.string event, .function cb] nativeId
      = .error (.error ("Unsupported event: " ++ event)) := by
  unfold Once
  simp [RegisterEvent_unsupported w event cb true nativeId h1 h2]

/-! ### The instance table and the destructor -/

theorem FromHandle_erased (instances_ : List (Nat × Nat)) (handle : Nat) :
    FromHandle (instances_.filter fun kv => !decide (kv.1 = handle)) handle = none := by
  unfold FromHandle
  have h : (instances_.filter fun kv => !decide (kv.1 = handle)).find?
      (fun kv => decide (kv.1 = handle)) = none := by
    rw [List.find?_eq_none]
    intro kv hkv
    have := (List.mem_filter.mp hkv).2
    simpa using this
  rw [h]

theorem destructor_fields (instances_ : List (Nat × Nat)) (w : Webview) :
    (w.destructor instances_).2.exposed_callbacks_ = [] ∧
    (w.destructor instances_).2.scheme_handlers_ = [] ∧
    (w.destructor instances_).2.released
      = w.released ++ w.exposed_callbacks_.map (·.tsfn) ++ w.scheme_handlers_.filterMap (·.tsfn)
          ++ w.message_tsfn_.toList ∧
    (w.destructor instances_).2.event_callbacks_ = w.event_callbacks_ ∧
    (w.destructor instances_).2.queue = w.queue := by
  unfold destructor
  cases hm : w.message_tsfn_ <;> cases hh : w.webview_ <;> simp [Release, hm, hh]

theorem destructor_instances (instances_ : List (Nat × Nat)) (w : Webview) (handle : Nat)
    (hh : w.webview_ = some handle) :
    (w.destructor instances_).1 = instances_.filter fun kv => !decide (kv.1 = handle) := by
  unfold destructor
  cases hm : w.message_tsfn_ <;> simp [Release, hm, hh]

/-! ### The bookkeeping `Registered` and the snapshots of the dispatch loops -/

namespace Webview

theorem count_le_regCount (t : Nat) (e : String) (vec : List CallbackData)
    (m : List (String × List CallbackData)) (h : findCallbacks e m = some vec) :
    (vec.map (·.tsfn)).count t ≤ regCount t m := by
  induction m with
  | nil => simp [findCallbacks] at h
  | cons hd tl ih =>
    obtain ⟨e0, v0⟩ := hd
    rw [regCount_cons]
    unfold findCallbacks at h
    split at h
    · cases h
      omega
    · have := ih h
      omega

theorem registered_snapshot (w : Webview) (hreg : Registered w) (e : String)
    (vec : List CallbackData) (hf : findCallbacks e w.event_callbacks_ = some vec) :
    (∀ cb ∈ vec, cb.tsfn ∉ w.released) ∧ (vec.map (·.tsfn)).Nodup := by
  constructor
  · intro cb hcb hrel
    have h0 := hreg.2.1 _ hrel
    have h1 := count_le_regCount cb.tsfn e vec _ hf
    have h2 : 0 < (vec.map (·.tsfn)).count cb.tsfn :=
      List.count_pos_iff.mpr (List.mem_map_of_mem _ hcb)
    omega
  · rw [List.nodup_iff_count_le_one]
    intro t
    exact le_trans (count_le_regCount t e vec _ hf) (hreg.1 t)

theorem EmitEvent_queue_all (w : Webview) (hreg : Registered w) (e : String) :
    (w.EmitEvent e).queue = w.queue ++
      ((findCallbacks e w.event_callbacks_).getD []).map fun cb =>
        { tsfn := cb.tsfn, callback := cb.callback_ref, kind := .emit } := by
  cases hf : findCallbacks e w.event_callbacks_ with
  | none =>
    unfold EmitEvent
    simp [hf]
  | some vec =>
    obtain ⟨hrel, hnd⟩ := registered_snapshot w hreg e vec hf
    rw [EmitEvent_eq w e vec hf, (RemoveOnceCallbacks_fields _ _).2.1,
      dispatchLoop_queue_all .emit vec w hrel hnd]
    rfl

theorem EvaluatePolicy_queue_all (w : Webview) (hreg : Registered w) (e : String) :
    (w.EvaluatePolicy e).2.queue = w.queue ++
      ((findCallbacks e w.event_callbacks_).getD []).map fun cb =>
        { tsfn := cb.tsfn, callback := cb.callback_ref, kind := .policy w.cells.length } := by
  cases hf : findCallbacks e w.event_callbacks_ with
  | none =>
    unfold EvaluatePolicy
    simp [hf]
  | some vec =>
    obtain ⟨hrel, hnd⟩ := registered_snapshot w hreg e vec hf
    rw [EvaluatePolicy_eq w e vec hf, (RemoveOnceCallbacks_fields _ _).2.1,
      dispatchLoop_queue_all (.policy w.cells.length) vec { w with cells := w.cells ++ [true] }
        hrel hnd]
    rfl

theorem runPending_next_tsfn (js : Nat → CallResult) (w : Webview) :
    (w.runPending js).next_tsfn = w.next_tsfn := by
  unfold runPending
  generalize w.queue = calls
  generalize hw : ({ w with queue := [] } : Webview) = w2
  have : w2.next_tsfn = w.next_tsfn := by rw [← hw]
  rw [← this]
  clear this hw
  induction calls generalizing w2 with
  | nil => rfl
  | cons c rest ih =>
    simp only [List.foldl_cons]
    rw [ih]
    unfold runCall
    simp only
    split
    · rfl
    · split
      · split
        · split <;> rfl
        · split
          · split
            · split <;> rfl
            · rfl
          · rfl
      · rfl

theorem registered_new : Registered ({} : Webview) := by
  refine ⟨fun t => ?_, fun t ht => ?_, fun t _ => ⟨?_, ?_⟩⟩
  · simp [regCount]
  · simp at ht
  · simp [regCount]
  · simp

theorem count_filter_once (t : Nat) (vec : List CallbackData) :
    (vec.map (·.tsfn)).count t
      = ((vec.filter (·.once)).map (·.tsfn)).count t
        + ((vec.filter fun cb => !cb.once).map (·.tsfn)).count t := by
  induction vec with
  | nil => rfl
  | cons c rest ih =>
    cases h : c.once <;> simp [List.filter_cons, h, List.count_cons, ih] <;> omega

theorem registered_RegisterEvent (w : Webview) (event : String) (cb : Nat) (once : Bool)
    (nativeId : Nat) (h : Registered w) :
    Registered (w.RegisterEvent event cb once nativeId).2 := by
  by_cases hsup : (MapWindowEventName event).isSome = true ∨ (MapWebEventName event).isSome = true
  · obtain ⟨_, he, hn, hr, _, _⟩ := RegisterEvent_supported w event cb once nativeId hsup
    obtain ⟨r1, r2, r3⟩ := h
    have hc : ∀ t, regCount t (w.RegisterEvent event cb once nativeId).2.event_callbacks_
        = regCount t w.event_callbacks_ + if w.next_tsfn = t then 1 else 0 := by
      intro t
      have := regCount_storeCallbacks t event
        ((findCallbacks event w.event_callbacks_).getD [] ++
          [{ tsfn := w.next_tsfn, id := if once then 0 else nativeId, once := once,
             callback_ref := cb }]) w.event_callbacks_
      rw [he]
      simp only [List.map_append, List.count_append, List.map_cons, List.map_nil,
        List.count_cons, List.count_nil, beq_iff_eq] at this
      omega
    refine ⟨fun t => ?_, fun t ht => ?_, fun t ht => ⟨?_, ?_⟩⟩
    · rw [hc]
      by_cases e : w.next_tsfn = t
      · have := (r3 t (by omega)).1
        simp only [e, if_true]
        omega
      · have := r1 t
        simp only [e, if_false]
        omega
    · rw [hr] at ht
      rw [hc]
      have h0 := r2 t ht
      have hne : w.next_tsfn ≠ t := fun e => (r3 t (by omega)).2 ht
      simp only [hne, if_false]
      omega
    · rw [hn] at ht
      rw [hc]
      have := (r3 t (by omega)).1
      have hne : w.next_tsfn ≠ t := by omega
      simp only [hne, if_false]
      omega
    · rw [hn] at ht
      rw [hr]
      exact (r3 t (by omega)).2
  · have h1 : MapWindowEventName event = none := by
      cases hm : MapWindowEventName event with
      | none => rfl
      | some we => simp [hm] at hsup
    have h2 : MapWebEventName event = none := by
      cases hm : MapWebEventName event with
      | none => rfl
      | some ev => simp [hm] at hsup
    rw [RegisterEvent_unsupported w event cb once nativeId h1 h2]
    exact h

theorem registered_emission (kind : CallKind) (w0 : Webview) (e : String)
    (vec : List CallbackData) (hf : findCallbacks e w0.event_callbacks_ = some vec)
    (h : Registered w0) :
    Registered ((vec.foldl (dispatchTo kind) w0).RemoveOnceCallbacks e) := by
  obtain ⟨r1, r2, r3⟩ := h
  obtain ⟨c1, _, c3, _⟩ := emission_core kind w0 e vec hf
  have hn : ((vec.foldl (dispatchTo kind) w0).RemoveOnceCallbacks e).next_tsfn = w0.next_tsfn := by
    rw [(RemoveOnceCallbacks_fields _ _).2.2.2.2.1, (dispatchLoop_fields _ _ _).2.2.2.2.1]
  have hc : ∀ t, regCount t ((vec.foldl (dispatchTo kind) w0).RemoveOnceCallbacks e).event_callbacks_
      + ((vec.filter (·.once)).map (·.tsfn)).count t = regCount t w0.event_callbacks_ := by
    intro t
    have h1 := regCount_storeCallbacks t e (vec.filter fun cb => !cb.once) w0.event_callbacks_
    have h2 := count_filter_once t vec
    rw [hf] at h1
    simp only [Option.getD_some] at h1
    rw [c1]
    omega
  have hle : ∀ t, ((vec.filter (·.once)).map (·.tsfn)).count t ≤ regCount t w0.event_callbacks_ :=
    fun t => by have := hc t; omega
  refine ⟨fun t => ?_, fun t ht => ?_, fun t ht => ⟨?_, ?_⟩⟩
  · have := hc t
    have := r1 t
    omega
  · rw [c3] at ht
    have := hc t
    rcases List.mem_append.mp ht with ht | ht
    · have := r2 t ht
      omega
    · have h2 : 0 < ((vec.filter (·.once)).map (·.tsfn)).count t := List.count_pos_iff.mpr ht
      have := r1 t
      omega
  · rw [hn] at ht
    have := hc t
    have := (r3 t ht).1
    omega
  · rw [hn] at ht
    rw [c3]
    intro hm
    rcases List.mem_append.mp hm with hm | hm
    · exact (r3 t ht).2 hm
    · have h2 : 0 < ((vec.filter (·.once)).map (·.tsfn)).count t := List.count_pos_iff.mpr hm
      have := hle t
      have := (r3 t ht).1
      omega

theorem registered_step (js : Nat → CallResult) (w : Webview) (em : Emission)
    (h : Registered w) : Registered (w.step js em) := by
  cases em with
  | emit event =>
    simp only [step, EmitEvent]
    split
    · exact h
    · rename_i vec hf
      exact registered_emission .emit w event vec hf h
  | policy event =>
    simp only [step, EvaluatePolicy]
    split
    · exact h
    · rename_i vec hf
      exact registered_emission _ { w with cells := w.cells ++ [true] } event vec hf h
  | hostLoop =>
    simp only [step]
    obtain ⟨_, _, g3, g4⟩ := runPending_fields js w
    unfold Registered
    rw [g3, g4, runPending_next_tsfn]
    exact h

theorem registered_run (js : Nat → CallResult) (trace : List Emission) :
    ∀ w : Webview, Registered w → Registered (w.run js trace) := by
  induction trace with
  | nil => intro w h; exact h
  | cons em rest ih =>
    intro w h
    exact ih _ (registered_step js w em h)

end Webview

theorem RegisterEvent_cells (w : Webview) (event : String) (cb : Nat) (once : Bool)
    (nativeId : Nat) : (w.RegisterEvent event cb once nativeId).2.cells = w.cells := by
  unfold RegisterEvent
  simp only
  cases MapWindowEventName event with
  | some we => rfl
  | none =>
    cases MapWebEventName event with
    | some ev => rfl
    | none => rfl

theorem registered_threeCloseHandlers : Registered threeCloseHandlers :=
  registered_RegisterEvent _ "close" 2 false 13
    (registered_RegisterEvent _ "close" 1 false 12
      (registered_RegisterEvent _ "close" 0 false 11 registered_new))

/-! ### The task queues of `Application` -/

namespace Application

theorem runCall_fields (js : Nat → CallResult) (a : Application) (c : TaskCall) :
    (runCall js a c).invoked = a.invoked ++ [c] ∧
    (runCall js a c).released = a.released ++ releasedBy [c] ∧
    (runCall js a c).settled = a.settled ++ settledBy js [c] ∧
    (runCall js a c).queue = a.queue ∧
    (runCall js a c).post_queue_ = a.post_queue_ ∧
    (runCall js a c).dispatch_queue_ = a.dispatch_queue_ ∧
    (runCall js a c).pool_queue_ = a.pool_queue_ ∧
    (runCall js a c).next_tsfn = a.next_tsfn ∧
    (runCall js a c).next_deferred = a.next_deferred ∧
    (runCall js a c).app_ = a.app_ := by
  obtain ⟨tsfn, cb, lam⟩ := c
  unfold runCall
  cases lam with
  | post => cases h : js cb <;> simp [h, releasedBy, settledBy, TaskLambda.deferred]
  | dispatch deferred =>
    cases deferred <;> cases h : js cb <;>
      simp [h, settle, Release, releasedBy, settledBy, TaskLambda.deferred, promisedSettlement]
  | pool deferred =>
    cases deferred <;> cases h : js cb <;>
      simp [h, settle, Release, releasedBy, settledBy, TaskLambda.deferred, promisedSettlement]

theorem releasedBy_cons (c : TaskCall) (rest : List TaskCall) :
    releasedBy (c :: rest) = releasedBy [c] ++ releasedBy rest := by
  simp [releasedBy]

theorem settledBy_cons (js : Nat → CallResult) (c : TaskCall) (rest : List TaskCall) :
    settledBy js (c :: rest) = settledBy js [c] ++ settledBy js rest := by
  simp [settledBy]

theorem runCalls_fields (js : Nat → CallResult) (calls : List TaskCall) : ∀ a : Application,
    (calls.foldl (runCall js) a).invoked = a.invoked ++ calls ∧
    (calls.foldl (runCall js) a).released = a.released ++ releasedBy calls ∧
    (calls.foldl (runCall js) a).settled = a.settled ++ settledBy js calls ∧
    (calls.foldl (runCall js) a).queue = a.queue ∧
    (calls.foldl (runCall js) a).post_queue_ = a.post_queue_ ∧
    (calls.foldl (runCall js) a).dispatch_queue_ = a.dispatch_queue_ ∧
    (calls.foldl (runCall js) a).pool_queue_ = a.pool_queue_ ∧
    (calls.foldl (runCall js) a).next_tsfn = a.next_tsfn ∧
    (calls.foldl (runCall js) a).next_deferred = a.next_deferred ∧
    (calls.foldl (runCall js) a).app_ = a.app_ := by
  induction calls with
  | nil => intro a; simp [releasedBy, settledBy]
  | cons c rest ih =>
    intro a
    obtain ⟨h1, h2, h3, h4, h5, h6, h7, h8, h9, h10⟩ := ih (runCall js a c)
    obtain ⟨g1, g2, g3, g4, g5, g6, g7, g8, g9, g10⟩ := runCall_fields js a c
    simp only [List.foldl_cons]
    rw [h1, h2, h3, h4, h5, h6, h7, h8, h9, h10, g1, g2, g3, g4, g5, g6, g7, g8, g9, g10,
      releasedBy_cons c rest, settledBy_cons js c rest]
    simp

theorem taskLoop_fields (js : Nat → CallResult) (a : Application) :
    (a.runPending js).invoked = a.invoked ++ a.queue ∧
    (a.runPending js).released = a.released ++ releasedBy a.queue ∧
    (a.runPending js).settled = a.settled ++ settledBy js a.queue ∧
    (a.runPending js).queue = [] ∧
    (a.runPending js).post_queue_ = a.post_queue_ ∧
    (a.runPending js).dispatch_queue_ = a.dispatch_queue_ ∧
    (a.runPending js).pool_queue_ = a.pool_queue_ ∧
    (a.runPending js).next_tsfn = a.next_tsfn ∧
    (a.runPending js).next_deferred = a.next_deferred ∧
    (a.runPending js).app_ = a.app_ := by
  unfold runPending
  exact runCalls_fields js a.queue { a with queue := [] }

theorem mem_releasedBy (t : Nat) (calls : List TaskCall) (h : t ∈ releasedBy calls) :
    t ∈ calls.map (·.tsfn) := by
  induction calls with
  | nil => simp [releasedBy] at h
  | cons c rest ih =>
    rw [releasedBy_cons] at h
    rcases List.mem_append.mp h with h | h
    · have : t = c.tsfn := by
        unfold releasedBy at h
        split at h <;> simp [releasedBy] at h
        exact h
      simp [this]
    · simp [ih h]

theorem settlements_settledBy (js : Nat → CallResult) (d f : Nat) (calls : List TaskCall)
    (hf : ∀ c ∈ calls, c.lambda.deferred = some d → c.callback = f) :
    ((settledBy js calls).filter fun s => decide (s.1 = d)).map (·.2)
      = List.replicate ((calls.map (·.lambda.deferred)).count (some d))
          (promisedSettlement (js f)) := by
  induction calls with
  | nil => simp [settledBy]
  | cons c rest ih =>
    have ih2 := ih fun c2 hc2 => hf c2 (List.mem_cons_of_mem _ hc2)
    rw [settledBy_cons, List.filter_append, List.map_append, ih2]
    cases hd : c.lambda.deferred with
    | none => simp [settledBy, hd]
    | some d2 =>
      by_cases e : d2 = d
      · subst e
        have := hf c (List.mem_cons_self _ _) hd
        simp [settledBy, hd, this, List.count_cons, List.replicate_succ]
      · have e2 : (some d2 : Option Nat) ≠ some d := fun h => e (Option.some.inj h)
        simp [settledBy, hd, e, List.count_cons, e2]


theorem Post_ok (a : Application) (cb : Nat) (rest : List JsValue) (h : a.app_.isSome = true) :
    a.Post (.function cb :: rest) = .ok { a with
      next_tsfn := a.next_tsfn + 1
      post_queue_ := a.post_queue_ ++ [{ tsfn := a.next_tsfn, callback := cb }]
      native := a.native ++ [.saucer_application_post .ProcessPostTask] } := by
  unfold Post
  cases h2 : a.app_ with
  | none => simp [h2] at h
  | some _ => rfl

theorem Dispatch_ok (a : Application) (cb : Nat) (rest : List JsValue)
    (h : a.app_.isSome = true) :
    a.Dispatch (.function cb :: rest) = .ok (a.next_deferred, { a with
      next_deferred := a.next_deferred + 1
      next_tsfn := a.next_tsfn + 1
      dispatch_queue_ := a.dispatch_queue_ ++
        [{ tsfn := a.next_tsfn, callback := cb, deferred := some a.next_deferred }]
      native := a.native ++ [.saucer_application_post .ProcessDispatchTask] }) := by
  unfold Dispatch
  cases h2 : a.app_ with
  | none => simp [h2] at h
  | some _ => rfl

theorem PoolSubmit_ok (a : Application) (cb : Nat) (rest : List JsValue)
    (h : a.app_.isSome = true) :
    a.PoolSubmit (.function cb :: rest) = .ok (a.next_deferred, { a with
      next_deferred := a.next_deferred + 1
      next_tsfn := a.next_tsfn + 1
      pool_queue_ := a.pool_queue_ ++
        [{ tsfn := a.next_tsfn, callback := cb, deferred := some a.next_deferred }]
      native := a.native ++ [.saucer_application_pool_emplace .ProcessPoolTask] }) := by
  unfold PoolSubmit
  cases h2 : a.app_ with
  | none => simp [h2] at h
  | some _ => rfl

theorem PoolEmplace_ok (a : Application) (cb : Nat) (rest : List JsValue)
    (h : a.app_.isSome = true) :
    a.PoolEmplace (.function cb :: rest) = .ok { a with
      next_tsfn := a.next_tsfn + 1
      pool_queue_ := a.pool_queue_ ++ [{ tsfn := a.next_tsfn, callback := cb, deferred := none }]
      native := a.native ++ [.saucer_application_pool_emplace .ProcessPoolTask] } := by
  unfold PoolEmplace
  cases h2 : a.app_ with
  | none => simp [h2] at h
  | some _ => rfl

theorem queued_unreleased (a : Application) (h : Sound a) (t : Nat)
    (ht : 0 < a.queuedUses t) : t ∉ a.released := by
  intro hr
  have := h.2.2.1 t hr
  omega

theorem ProcessPostTask_cons (a : Application) (h : Sound a) (task : PostTask)
    (rest : List PostTask) (hq : a.post_queue_ = task :: rest) :
    a.ProcessPostTask = { a with
      post_queue_ := rest
      queue := a.queue ++ [{ tsfn := task.tsfn, callback := task.callback, lambda := .post }]
      released := a.released ++ [task.tsfn] } := by
  have hr : task.tsfn ∉ a.released :=
    queued_unreleased a h _ (by simp [queuedUses, hq])
  unfold ProcessPostTask
  rw [hq]
  simp [NonBlockingCall, Release, hr]

theorem ProcessDispatchTask_cons (a : Application) (h : Sound a) (task : DispatchTask)
    (rest : List DispatchTask) (hq : a.dispatch_queue_ = task :: rest) :
    a.ProcessDispatchTask = { a with
      dispatch_queue_ := rest
      queue := a.queue ++
        [{ tsfn := task.tsfn, callback := task.callback, lambda := .dispatch task.deferred }] } := by
  have hr : task.tsfn ∉ a.released :=
    queued_unreleased a h _ (by simp [queuedUses, hq])
  unfold ProcessDispatchTask
  rw [hq]
  simp [NonBlockingCall, hr]

theorem ProcessPoolTask_cons (a : Application) (h : Sound a) (task : PoolTask)
    (rest : List PoolTask) (hq : a.pool_queue_ = task :: rest) :
    a.ProcessPoolTask = { a with
      pool_queue_ := rest
      queue := a.queue ++
        [{ tsfn := task.tsfn, callback := task.callback, lambda := .pool task.deferred }] } := by
  have hr : task.tsfn ∉ a.released :=
    queued_unreleased a h _ (by simp [queuedUses, hq])
  unfold ProcessPoolTask
  rw [hq]
  simp [NonBlockingCall, hr]

theorem sound_new (handle : Nat) : Sound { app_ := some handle } := by
  refine ⟨rfl, fun t => ?_, fun t ht => ?_, fun t _ => ⟨?_, ?_⟩, fun d _ => ⟨?_, ?_⟩⟩ <;>
    simp_all [uses, queuedUses, unsettled, settlements]

theorem sound_Post (a : Application) (cb : Nat) (h : Sound a) :
    Sound { a with
      next_tsfn := a.next_tsfn + 1
      post_queue_ := a.post_queue_ ++ [{ tsfn := a.next_tsfn, callback := cb }]
      native := a.native ++ [.saucer_application_post .ProcessPostTask] } := by
  obtain ⟨r0, r1, r2, r3, r4⟩ := h
  refine ⟨r0, fun t => ?_, fun t ht => ?_, fun t ht => ⟨?_, ?_⟩, fun d hd => ?_⟩
  · have h1 := r1 t
    have h3 := (r3 t)
    simp only [uses, queuedUses, List.map_append, List.count_append, List.map_cons, List.map_nil,
      List.count_cons, List.count_nil, beq_iff_eq] at h1 h3 ⊢
    split_ifs with e
    · have := (h3 (by omega)).1
      omega
    · omega
  · have h2 := r2 t ht
    have hne : a.next_tsfn ≠ t := fun e => (r3 t (by omega)).2 ht
    simp only [queuedUses, List.map_append, List.count_append, List.map_cons, List.map_nil,
      List.count_cons, List.count_nil, beq_iff_eq, hne, if_false] at h2 ⊢
    omega
  · have h3 := (r3 t (by simp only at ht; omega)).1
    have hne : a.next_tsfn ≠ t := by simp only at ht; omega
    simp only [uses, queuedUses, List.map_append, List.count_append, List.map_cons, List.map_nil,
      List.count_cons, List.count_nil, beq_iff_eq, hne, if_false] at h3 ⊢
    omega
  · exact (r3 t (by simp only at ht; omega)).2
  · exact r4 d hd

theorem sound_Dispatch (a : Application) (cb : Nat) (h : Sound a) :
    Sound { a with
      next_deferred := a.next_deferred + 1
      next_tsfn := a.next_tsfn + 1
      dispatch_queue_ := a.dispatch_queue_ ++
        [{ tsfn := a.next_tsfn, callback := cb, deferred := some a.next_deferred }]
      native := a.native ++ [.saucer_application_post .ProcessDispatchTask] } := by
  obtain ⟨r0, r1, r2, r3, r4⟩ := h
  refine ⟨r0, fun t => ?_, fun t ht => ?_, fun t ht => ⟨?_, ?_⟩, fun d hd => ⟨?_, ?_⟩⟩
  · have h1 := r1 t
    have h3 := (r3 t)
    simp only [uses, queuedUses, List.map_append, List.count_append, List.map_cons, List.map_nil,
      List.count_cons, List.count_nil, beq_iff_eq] at h1 h3 ⊢
    split_ifs with e
    · have := (h3 (by omega)).1
      omega
    · omega
  · have h2 := r2 t ht
    have hne : a.next_tsfn ≠ t := fun e => (r3 t (by omega)).2 ht
    simp only [queuedUses, List.map_append, List.count_append, List.map_cons, List.map_nil,
      List.count_cons, List.count_nil, beq_iff_eq, hne, if_false] at h2 ⊢
    omega
  · have h3 := (r3 t (by simp only at ht; omega)).1
    have hne : a.next_tsfn ≠ t := by simp only at ht; omega
    simp only [uses, queuedUses, List.map_append, List.count_append, List.map_cons, List.map_nil,
      List.count_cons, List.count_nil, beq_iff_eq, hne, if_false] at h3 ⊢
    omega
  · exact (r3 t (by simp only at ht; omega)).2
  · have h4 := (r4 d (by simp only at hd; omega)).1
    have hne : ¬ (some a.next_deferred = some d) := by
      simp only at hd
      simp only [Option.some.injEq]
      omega
    simp only [unsettled, List.map_append, List.count_append, List.map_cons, List.map_nil,
      List.count_cons, List.count_nil, beq_iff_eq, hne, if_false] at h4 ⊢
    omega
  · exact (r4 d (by simp only at hd; omega)).2

theorem sound_PoolSubmit (a : Application) (cb : Nat) (h : Sound a) :
    Sound { a with
      next_deferred := a.next_deferred + 1
      next_tsfn := a.next_tsfn + 1
      pool_queue_ := a.pool_queue_ ++
        [{ tsfn := a.next_tsfn, callback := cb, deferred := some a.next_deferred }]
      native := a.native ++ [.saucer_application_pool_emplace .ProcessPoolTask] } := by
  obtain ⟨r0, r1, r2, r3, r4⟩ := h
  refine ⟨r0, fun t => ?_, fun t ht => ?_, fun t ht => ⟨?_, ?_⟩, fun d hd => ⟨?_, ?_⟩⟩
  · have h1 := r1 t
    have h3 := (r3 t)
    simp only [uses, queuedUses, List.map_append, List.count_append, List.map_cons, List.map_nil,
      List.count_cons, List.count_nil, beq_iff_eq] at h1 h3 ⊢
    split_ifs with e
    · have := (h3 (by omega)).1
      omega
    · omega
  · have h2 := r2 t ht
    have hne : a.next_tsfn ≠ t := fun e => (r3 t (by omega)).2 ht
    simp only [queuedUses, List.map_append, List.count_append, List.map_cons, List.map_nil,
      List.count_cons, List.count_nil, beq_iff_eq, hne, if_false] at h2 ⊢
    omega
  · have h3 := (r3 t (by simp only at ht; omega)).1
    have hne : a.next_tsfn ≠ t := by simp only at ht; omega
    simp only [uses, queuedUses, List.map_append, List.count_append, List.map_cons, List.map_nil,
      List.count_cons, List.count_nil, beq_iff_eq, hne, if_false] at h3 ⊢
    omega
  · exact (r3 t (by simp only at ht; omega)).2
  · have h4 := (r4 d (by simp only at hd; omega)).1
    have hne : ¬ (some a.next_deferred = some d) := by
      simp only at hd
      simp only [Option.some.injEq]
      omega
    simp only [unsettled, List.map_append, List.count_append, List.map_cons, List.map_nil,
      List.count_cons, List.count_nil, beq_iff_eq, hne, if_false] at h4 ⊢
    omega
  · exact (r4 d (by simp only at hd; omega)).2

theorem sound_PoolEmplace (a : Application) (cb : Nat) (h : Sound a) :
    Sound { a with
      next_tsfn := a.next_tsfn + 1
      pool_queue_ := a.pool_queue_ ++ [{ tsfn := a.next_tsfn, callback := cb, deferred := none }]
      native := a.native ++ [.saucer_application_pool_emplace .ProcessPoolTask] } := by
  obtain ⟨r0, r1, r2, r3, r4⟩ := h
  refine ⟨r0, fun t => ?_, fun t ht => ?_, fun t ht => ⟨?_, ?_⟩, fun d hd => ⟨?_, ?_⟩⟩
  · have h1 := r1 t
    have h3 := (r3 t)
    simp only [uses, queuedUses, List.map_append, List.count_append, List.map_cons, List.map_nil,
      List.count_cons, List.count_nil, beq_iff_eq] at h1 h3 ⊢
    split_ifs with e
    · have := (h3 (by omega)).1
      omega
    · omega
  · have h2 := r2 t ht
    have hne : a.next_tsfn ≠ t := fun e => (r3 t (by omega)).2 ht
    simp only [queuedUses, List.map_append, List.count_append, List.map_cons, List.map_nil,
      List.count_cons, List.count_nil, beq_iff_eq, hne, if_false] at h2 ⊢
    omega
  · have h3 := (r3 t (by simp only at ht; omega)).1
    have hne : a.next_tsfn ≠ t := by simp only at ht; omega
    simp only [uses, queuedUses, List.map_append, List.count_append, List.map_cons, List.map_nil,
      List.count_cons, List.count_nil, beq_iff_eq, hne, if_false] at h3 ⊢
    omega
  · exact (r3 t (by simp only at ht; omega)).2
  · have h4 := (r4 d hd).1
    simp only [unsettled, List.map_append, List.count_append, List.map_cons, List.map_nil,
      List.count_cons, List.count_nil, beq_iff_eq] at h4 ⊢
    simp only [reduceCtorEq, if_false]
    omega
  · exact (r4 d hd).2

theorem sound_ProcessPostTask (a : Application) (h : Sound a) : Sound a.ProcessPostTask := by
  cases hq : a.post_queue_ with
  | nil =>
    unfold ProcessPostTask
    rw [hq]
    exact h
  | cons task rest =>
    rw [ProcessPostTask_cons a h task rest hq]
    obtain ⟨r0, r1, r2, r3, r4⟩ := h
    have hu : ∀ t, uses { a with
        post_queue_ := rest
        queue := a.queue ++ [{ tsfn := task.tsfn, callback := task.callback, lambda := .post }]
        released := a.released ++ [task.tsfn] } t = a.uses t := by
      intro t
      simp only [uses, queuedUses, hq, List.map_append, List.count_append, List.map_cons,
        List.map_nil, List.count_cons, List.count_nil, beq_iff_eq]
      omega
    have hqu : ∀ t, queuedUses { a with
        post_queue_ := rest
        queue := a.queue ++ [{ tsfn := task.tsfn, callback := task.callback, lambda := .post }]
        released := a.released ++ [task.tsfn] } t + (if task.tsfn = t then 1 else 0)
          = a.queuedUses t := by
      intro t
      simp only [queuedUses, hq, List.map_cons, List.count_cons, beq_iff_eq]
      omega
    have hle : ∀ t, a.queuedUses t ≤ a.uses t := fun t => by simp only [uses]; omega
    refine ⟨r0, fun t => ?_, fun t ht => ?_, fun t ht => ⟨?_, ?_⟩, fun d hd => ⟨?_, ?_⟩⟩
    · rw [hu]
      exact r1 t
    · have := hqu t
      rcases List.mem_append.mp ht with ht | ht
      · have := r2 t ht
        omega
      · have e : task.tsfn = t := (List.mem_singleton.mp ht).symm
        have := r1 t
        have := hle t
        simp only [e, if_true] at *
        omega
    · rw [hu]
      exact (r3 t ht).1
    · intro hm
      rcases List.mem_append.mp hm with hm | hm
      · exact (r3 t ht).2 hm
      · have e : task.tsfn = t := (List.mem_singleton.mp hm).symm
        have := hqu t
        have := (r3 t ht).1
        have := hle t
        simp only [e, if_true] at *
        omega
    · have h4 := (r4 d hd).1
      simp only [unsettled, List.map_append, List.count_append, List.map_cons, List.map_nil,
        List.count_cons, List.count_nil, beq_iff_eq, TaskLambda.deferred] at h4 ⊢
      simp only [reduceCtorEq, if_false]
      omega
    · exact (r4 d hd).2

theorem sound_ProcessDispatchTask (a : Application) (h : Sound a) :
    Sound a.ProcessDispatchTask := by
  cases hq : a.dispatch_queue_ with
  | nil =>
    unfold ProcessDispatchTask
    rw [hq]
    exact h
  | cons task rest =>
    rw [ProcessDispatchTask_cons a h task rest hq]
    obtain ⟨r0, r1, r2, r3, r4⟩ := h
    refine ⟨r0, fun t => ?_, fun t ht => ?_, fun t ht => ⟨?_, ?_⟩, fun d hd => ⟨?_, ?_⟩⟩
    · have := r1 t
      simp only [uses, queuedUses, hq, List.map_append, List.count_append, List.map_cons,
        List.map_nil, List.count_cons, List.count_nil, beq_iff_eq] at this ⊢
      omega
    · have := r2 t ht
      simp only [queuedUses, hq, List.map_cons, List.count_cons, beq_iff_eq] at this ⊢
      omega
    · have := (r3 t ht).1
      simp only [uses, queuedUses, hq, List.map_append, List.count_append, List.map_cons,
        List.map_nil, List.count_cons, List.count_nil, beq_iff_eq] at this ⊢
      omega
    · exact (r3 t ht).2
    · have h4 := (r4 d hd).1
      simp only [unsettled, hq, List.map_append, List.count_append, List.map_cons, List.map_nil,
        List.count_cons, List.count_nil, beq_iff_eq, TaskLambda.deferred] at h4 ⊢
      omega
    · exact (r4 d hd).2

theorem sound_ProcessPoolTask (a : Application) (h : Sound a) : Sound a.ProcessPoolTask := by
  cases hq : a.pool_queue_ with
  | nil =>
    unfold ProcessPoolTask
    rw [hq]
    exact h
  | cons task rest =>
    rw [ProcessPoolTask_cons a h task rest hq]
    obtain ⟨r0, r1, r2, r3, r4⟩ := h
    refine ⟨r0, fun t => ?_, fun t ht => ?_, fun t ht => ⟨?_, ?_⟩, fun d hd => ⟨?_, ?_⟩⟩
    · have := r1 t
      simp only [uses, queuedUses, hq, List.map_append, List.count_append, List.map_cons,
        List.map_nil, List.count_cons, List.count_nil, beq_iff_eq] at this ⊢
      omega
    · have := r2 t ht
      simp only [queuedUses, hq, List.map_cons, List.count_cons, beq_iff_eq] at this ⊢
      omega
    · have := (r3 t ht).1
      simp only [uses, queuedUses, hq, List.map_append, List.count_append, List.map_cons,
        List.map_nil, List.count_cons, List.count_nil, beq_iff_eq] at this ⊢
      omega
    · exact (r3 t ht).2
    · have h4 := (r4 d hd).1
      simp only [unsettled, hq, List.map_append, List.count_append, List.map_cons, List.map_nil,
        List.count_cons, List.count_nil, beq_iff_eq, TaskLambda.deferred] at h4 ⊢
      omega
    · exact (r4 d hd).2

theorem sound_runPending (js : Nat → CallResult) (a : Application) (h : Sound a) :
    Sound (a.runPending js) := by
  obtain ⟨r0, r1, r2, r3, r4⟩ := h
  obtain ⟨g1, g2, g3, g4, g5, g6, g7, g8, g9, g10⟩ := taskLoop_fields js a
  have hu : ∀ t, (a.runPending js).uses t = a.uses t := by
    intro t
    simp only [uses, queuedUses, g1, g4, g5, g6, g7, List.map_append, List.count_append,
      List.map_nil, List.count_nil]
    omega
  have hqu : ∀ t, (a.runPending js).queuedUses t = a.queuedUses t := by
    intro t
    simp only [queuedUses, g5, g6, g7]
  have hpend : ∀ t, t ∈ releasedBy a.queue → 0 < (a.queue.map (·.tsfn)).count t := fun t ht =>
    List.count_pos_iff.mpr (mem_releasedBy t _ ht)
  refine ⟨by rw [g10]; exact r0, fun t => ?_, fun t ht => ?_, fun t ht => ⟨?_, ?_⟩,
    fun d hd => ⟨?_, ?_⟩⟩
  · rw [hu]
    exact r1 t
  · rw [hqu]
    rw [g2] at ht
    rcases List.mem_append.mp ht with ht | ht
    · exact r2 t ht
    · have := hpend t ht
      have := r1 t
      simp only [uses] at this
      omega
  · rw [hu]
    rw [g8] at ht
    exact (r3 t ht).1
  · rw [g8] at ht
    rw [g2]
    intro hm
    rcases List.mem_append.mp hm with hm | hm
    · exact (r3 t ht).2 hm
    · have := hpend t hm
      have := (r3 t ht).1
      simp only [uses] at this
      omega
  · rw [g9] at hd
    have := (r4 d hd).1
    simp only [unsettled, g4, g6, g7, List.map_nil, List.count_nil] at this ⊢
    omega
  · rw [g9] at hd
    have h0 := (r4 d hd).1
    have hs := (r4 d hd).2
    have hc : (a.queue.map (·.lambda.deferred)).count (some d) = 0 := by
      simp only [unsettled] at h0
      omega
    have hvac : ∀ c ∈ a.queue, c.lambda.deferred = some d → c.callback = 0 := by
      intro c hc2 hd2
      have : 0 < (a.queue.map (·.lambda.deferred)).count (some d) :=
        List.count_pos_iff.mpr (List.mem_map.mpr ⟨c, hc2, hd2⟩)
      omega
    have := settlements_settledBy js d 0 a.queue hvac
    rw [hc] at this
    simp only [settlements] at hs ⊢
    rw [g3, List.filter_append, List.map_append, hs, this]
    rfl

theorem sound_step (js : Nat → CallResult) (a : Application) (ev : Event) (h : Sound a) :
    Sound (a.step js ev) := by
  cases ev with
  | post cb =>
    simp only [step, Post_ok a cb [] h.1]
    exact sound_Post a cb h
  | dispatch cb =>
    simp only [step, Dispatch_ok a cb [] h.1]
    exact sound_Dispatch a cb h
  | poolSubmit cb =>
    simp only [step, PoolSubmit_ok a cb [] h.1]
    exact sound_PoolSubmit a cb h
  | poolEmplace cb =>
    simp only [step, PoolEmplace_ok a cb [] h.1]
    exact sound_PoolEmplace a cb h
  | drainPost => exact sound_ProcessPostTask a h
  | drainDispatch => exact sound_ProcessDispatchTask a h
  | drainPool => exact sound_ProcessPoolTask a h
  | hostLoop => exact sound_runPending js a h

theorem sound_run (js : Nat → CallResult) (trace : List Event) :
    ∀ a : Application, Sound a → Sound (a.run js trace) := by
  induction trace with
  | nil => intro a h; exact h
  | cons ev rest ih =>
    intro a h
    exact ih _ (sound_step js a ev h)

theorem posted_cons (ev : Event) (rest : List Event) :
    posted (ev :: rest) = posted [ev] ++ posted rest := by
  cases ev <;> simp [posted]

theorem fifo_step (js : Nat → CallResult) (a : Application) (ev : Event) (h : Sound a) :
    (a.step js ev).dispatchedPosts ++ (a.step js ev).post_queue_.map (·.callback)
      = a.dispatchedPosts ++ a.post_queue_.map (·.callback) ++ posted [ev] := by
  cases ev with
  | post cb =>
    simp only [step, Post_ok a cb [] h.1]
    simp [dispatchedPosts, posted]
  | dispatch cb =>
    simp only [step, Dispatch_ok a cb [] h.1]
    simp [dispatchedPosts, posted]
  | poolSubmit cb =>
    simp only [step, PoolSubmit_ok a cb [] h.1]
    simp [dispatchedPosts, posted]
  | poolEmplace cb =>
    simp only [step, PoolEmplace_ok a cb [] h.1]
    simp [dispatchedPosts, posted]
  | drainPost =>
    simp only [step]
    cases hq : a.post_queue_ with
    | nil =>
      unfold ProcessPostTask
      simp [hq, posted]
    | cons task rest =>
      rw [ProcessPostTask_cons a h task rest hq]
      simp [dispatchedPosts, posted, List.filter_append]
  | drainDispatch =>
    simp only [step]
    cases hq : a.dispatch_queue_ with
    | nil =>
      unfold ProcessDispatchTask
      simp [hq, posted]
    | cons task rest =>
      rw [ProcessDispatchTask_cons a h task rest hq]
      simp [dispatchedPosts, posted, List.filter_append]
  | drainPool =>
    simp only [step]
    cases hq : a.pool_queue_ with
    | nil =>
      unfold ProcessPoolTask
      simp [hq, posted]
    | cons task rest =>
      rw [ProcessPoolTask_cons a h task rest hq]
      simp [dispatchedPosts, posted, List.filter_append]
  | hostLoop =>
    simp only [step]
    obtain ⟨g1, _, _, g4, g5, _⟩ := taskLoop_fields js a
    simp [dispatchedPosts, posted, g1, g4, g5]

theorem fifo_run (js : Nat → CallResult) (trace : List Event) : ∀ a : Application, Sound a →
    (a.run js trace).dispatchedPosts ++ (a.run js trace).post_queue_.map (·.callback)
      = a.dispatchedPosts ++ a.post_queue_.map (·.callback) ++ posted trace := by
  induction trace with
  | nil => intro a _; simp [run, posted]
  | cons ev rest ih =>
    intro a h
    have h1 := ih (a.step js ev) (sound_step js a ev h)
    have h2 := fifo_step js a ev h
    rw [posted_cons]
    simp only [run, List.foldl_cons] at h1 ⊢
    rw [h1, h2]
    simp

theorem dispatched_nodup (a : Application) (h : Sound a) :
    (a.dispatchedPostTsfns ++ a.post_queue_.map (·.tsfn)).Nodup := by
  rw [List.nodup_iff_count_le_one]
  intro t
  have h1 := h.2.1 t
  have h2 : (a.dispatchedPostTsfns).count t
      ≤ ((a.invoked ++ a.queue).map (·.tsfn)).count t :=
    List.Sublist.count_le ((List.filter_sublist _).map _) t
  simp only [uses, queuedUses] at h1
  simp only [List.count_append, List.map_append] at h2 ⊢
  omega

theorem ProcessPostTask_head (a : Application) (h : Sound a) :
    a.ProcessPostTask.post_queue_ = a.post_queue_.tail ∧
    a.ProcessPostTask.queue = a.queue ++ a.post_queue_.head?.toList.map (fun task =>
      { tsfn := task.tsfn, callback := task.callback, lambda := .post }) ∧
    a.ProcessPostTask.released = a.released ++ a.post_queue_.head?.toList.map (·.tsfn) ∧
    a.ProcessPostTask.dispatchedPosts
      = a.dispatchedPosts ++ a.post_queue_.head?.toList.map (·.callback) := by
  cases hq : a.post_queue_ with
  | nil =>
    unfold ProcessPostTask
    simp [hq]
  | cons task rest =>
    rw [ProcessPostTask_cons a h task rest hq]
    simp [dispatchedPosts, List.filter_append]

theorem run_append (js : Nat → CallResult) (a : Application) (t1 t2 : List Event) :
    a.run js (t1 ++ t2) = (a.run js t1).run js t2 := by
  simp [run, List.foldl_append]

theorem run_posts (js : Nat → CallResult) (fs : List Nat) : ∀ a : Application, Sound a →
    (a.run js (fs.map .post)).post_queue_.map (·.callback)
      = a.post_queue_.map (·.callback) ++ fs ∧
    (a.run js (fs.map .post)).dispatchedPosts = a.dispatchedPosts := by
  induction fs with
  | nil => intro a _; simp [run]
  | cons f rest ih =>
    intro a h
    obtain ⟨h1, h2⟩ := ih (a.step js (.post f)) (sound_step js a (.post f) h)
    simp only [List.map_cons, run, List.foldl_cons] at h1 h2 ⊢
    rw [h1, h2]
    simp only [step, Post_ok a f [] h.1]
    simp [dispatchedPosts]

theorem run_drains (js : Nat → CallResult) (k : Nat) : ∀ a : Application, Sound a →
    (a.run js (List.replicate k .drainPost)).dispatchedPosts
      = a.dispatchedPosts ++ (a.post_queue_.map (·.callback)).take k ∧
    (a.run js (List.replicate k .drainPost)).post_queue_ = a.post_queue_.drop k := by
  induction k with
  | zero => intro a _; simp [run]
  | succ k ih =>
    intro a h
    obtain ⟨h1, h2⟩ := ih a.ProcessPostTask (sound_ProcessPostTask a h)
    obtain ⟨g1, _, _, g4⟩ := ProcessPostTask_head a h
    simp only [List.replicate_succ, run, List.foldl_cons, step] at h1 h2 ⊢
    rw [h1, h2, g1, g4]
    cases hq : a.post_queue_ with
    | nil => simp
    | cons task rest => simp

theorem settledBy_length (js : Nat → CallResult) (calls : List TaskCall) :
    (settledBy js calls).length = (calls.filter fun c => c.lambda.deferred.isSome).length := by
  induction calls with
  | nil => simp [settledBy]
  | cons c rest ih =>
    rw [settledBy_cons, List.length_append, ih]
    cases hd : c.lambda.deferred with
    | none => simp [settledBy, hd, List.filter_cons]
    | some d =>
      simp [settledBy, hd, List.filter_cons]
      omega

theorem promised_cons (ev : Event) (rest : List Event) :
    promised (ev :: rest) = promised [ev] + promised rest := by
  cases ev <;> simp [promised] <;> omega

theorem awaiting_step (js : Nat → CallResult) (a : Application) (ev : Event) (h : Sound a) :
    (a.step js ev).settled.length + (a.step js ev).awaiting
      = a.settled.length + a.awaiting + promised [ev] := by
  cases ev with
  | post cb =>
    simp only [step, Post_ok a cb [] h.1]
    simp [awaiting, promised]
  | dispatch cb =>
    simp only [step, Dispatch_ok a cb [] h.1]
    simp [awaiting, promised, List.filter_append]
    omega
  | poolSubmit cb =>
    simp only [step, PoolSubmit_ok a cb [] h.1]
    simp [awaiting, promised, List.filter_append]
    omega
  | poolEmplace cb =>
    simp only [step, PoolEmplace_ok a cb [] h.1]
    simp [awaiting, promised, List.filter_append]
  | drainPost =>
    simp only [step]
    cases hq : a.post_queue_ with
    | nil =>
      unfold ProcessPostTask
      simp [hq, promised]
    | cons task rest =>
      rw [ProcessPostTask_cons a h task rest hq]
      simp [awaiting, promised, List.filter_append, TaskLambda.deferred]
  | drainDispatch =>
    simp only [step]
    cases hq : a.dispatch_queue_ with
    | nil =>
      unfold ProcessDispatchTask
      simp [hq, promised]
    | cons task rest =>
      rw [ProcessDispatchTask_cons a h task rest hq]
      cases hd : task.deferred with
      | none =>
        simp [awaiting, promised, List.filter_append, List.filter_cons, TaskLambda.deferred,
          hq, hd]
      | some d =>
        simp [awaiting, promised, List.filter_append, List.filter_cons, TaskLambda.deferred,
          hq, hd]
        omega
  | drainPool =>
    simp only [step]
    cases hq : a.pool_queue_ with
    | nil =>
      unfold ProcessPoolTask
      simp [hq, promised]
    | cons task rest =>
      rw [ProcessPoolTask_cons a h task rest hq]
      cases hd : task.deferred with
      | none =>
        simp [awaiting, promised, List.filter_append, List.filter_cons, TaskLambda.deferred,
          hq, hd]
      | some d =>
        simp [awaiting, promised, List.filter_append, List.filter_cons, TaskLambda.deferred,
          hq, hd]
        omega
  | hostLoop =>
    simp only [step]
    obtain ⟨_, _, g3, g4, _, g6, g7, _⟩ := taskLoop_fields js a
    simp only [awaiting, promised, g3, g4, g6, g7, List.length_append, settledBy_length,
      List.filter_nil, List.length_nil]
    omega

theorem awaiting_run (js : Nat → CallResult) (trace : List Event) : ∀ a : Application,
    Sound a →
    (a.run js trace).settled.length + (a.run js trace).awaiting
      = a.settled.length + a.awaiting + promised trace := by
  induction trace with
  | nil => intro a _; simp [run, promised]
  | cons ev rest ih =>
    intro a h
    have h1 := ih (a.step js ev) (sound_step js a ev h)
    have h2 := awaiting_step js a ev h
    rw [promised_cons]
    simp only [run, List.foldl_cons] at h1 ⊢
    omega

theorem tracks_step (js : Nat → CallResult) (d f : Nat) (a : Application) (ev : Event)
    (h : Sound a) (ht : Tracks js d f a) : Tracks js d f (a.step js ev) := by
  obtain ⟨t1, t2, t3, t4, t5, t6⟩ := ht
  cases ev with
  | post cb =>
    simp only [step, Post_ok a cb [] h.1]
    exact ⟨t1, t2, t3, t4, t5, t6⟩
  | poolEmplace cb =>
    simp only [step, PoolEmplace_ok a cb [] h.1]
    have hu : unsettled { a with
        next_tsfn := a.next_tsfn + 1
        pool_queue_ := a.pool_queue_ ++
          [{ tsfn := a.next_tsfn, callback := cb, deferred := none }]
        native := a.native ++ [.saucer_application_pool_emplace .ProcessPoolTask] } d
        = a.unsettled d := by
      simp [unsettled]
    refine ⟨?_, by rw [hu]; exact t2, t3, t4, ?_, t6⟩
    · rw [hu]
      exact t1
    · intro task hm hd
      rcases List.mem_append.mp hm with hm | hm
      · exact t5 task hm hd
      · rw [List.mem_singleton.mp hm] at hd
        simp at hd
  | dispatch cb =>
    simp only [step, Dispatch_ok a cb [] h.1]
    have hne : ¬ (a.next_deferred = d) := by omega
    have hu : unsettled { a with
        next_deferred := a.next_deferred + 1
        next_tsfn := a.next_tsfn + 1
        dispatch_queue_ := a.dispatch_queue_ ++
          [{ tsfn := a.next_tsfn, callback := cb, deferred := some a.next_deferred }]
        native := a.native ++ [.saucer_application_post .ProcessDispatchTask] } d
        = a.unsettled d := by
      simp [unsettled, List.count_cons, hne]
    refine ⟨?_, by rw [hu]; exact t2, by simp only; omega, ?_, t5, t6⟩
    · rw [hu]
      exact t1
    · intro task hm hd
      rcases List.mem_append.mp hm with hm | hm
      · exact t4 task hm hd
      · rw [List.mem_singleton.mp hm] at hd
        simp at hd
        omega
  | poolSubmit cb =>
    simp only [step, PoolSubmit_ok a cb [] h.1]
    have hne : ¬ (a.next_deferred = d) := by omega
    have hu : unsettled { a with
        next_deferred := a.next_deferred + 1
        next_tsfn := a.next_tsfn + 1
        pool_queue_ := a.pool_queue_ ++
          [{ tsfn := a.next_tsfn, callback := cb, deferred := some a.next_deferred }]
        native := a.native ++ [.saucer_application_pool_emplace .ProcessPoolTask] } d
        = a.unsettled d := by
      simp [unsettled, List.count_cons, hne]
    refine ⟨?_, by rw [hu]; exact t2, by simp only; omega, t4, ?_, t6⟩
    · rw [hu]
      exact t1
    · intro task hm hd
      rcases List.mem_append.mp hm with hm | hm
      · exact t5 task hm hd
      · rw [List.mem_singleton.mp hm] at hd
        simp at hd
        omega
  | drainPost =>
    simp only [step]
    cases hq : a.post_queue_ with
    | nil =>
      unfold ProcessPostTask
      rw [hq]
      exact ⟨t1, t2, t3, t4, t5, t6⟩
    | cons task rest =>
      rw [ProcessPostTask_cons a h task rest hq]
      have hu : unsettled { a with
          post_queue_ := rest
          queue := a.queue ++ [{ tsfn := task.tsfn, callback := task.callback, lambda := .post }]
          released := a.released ++ [task.tsfn] } d = a.unsettled d := by
        simp [unsettled, TaskLambda.deferred]
      refine ⟨?_, by rw [hu]; exact t2, t3, t4, t5, ?_⟩
      · rw [hu]
        exact t1
      · intro c hm hd
        rcases List.mem_append.mp hm with hm | hm
        · exact t6 c hm hd
        · rw [List.mem_singleton.mp hm] at hd
          simp [TaskLambda.deferred] at hd
  | drainDispatch =>
    simp only [step]
    cases hq : a.dispatch_queue_ with
    | nil =>
      unfold ProcessDispatchTask
      rw [hq]
      exact ⟨t1, t2, t3, t4, t5, t6⟩
    | cons task rest =>
      rw [ProcessDispatchTask_cons a h task rest hq]
      have hu : unsettled { a with
          dispatch_queue_ := rest
          queue := a.queue ++ [{ tsfn := task.tsfn, callback := task.callback,
                                 lambda := .dispatch task.deferred }] } d = a.unsettled d := by
        simp only [unsettled, hq, List.map_append, List.count_append, List.map_cons,
          List.map_nil, List.count_cons, List.count_nil, TaskLambda.deferred]
        omega
      refine ⟨?_, by rw [hu]; exact t2, t3, ?_, t5, ?_⟩
      · rw [hu]
        exact t1
      · intro task2 hm hd
        exact t4 task2 (by rw [hq]; exact List.mem_cons_of_mem _ hm) hd
      · intro c hm hd
        rcases List.mem_append.mp hm with hm | hm
        · exact t6 c hm hd
        · rw [List.mem_singleton.mp hm] at hd ⊢
          exact t4 task (by rw [hq]; exact List.mem_cons_self _ _) hd
  | drainPool =>
    simp only [step]
    cases hq : a.pool_queue_ with
    | nil =>
      unfold ProcessPoolTask
      rw [hq]
      exact ⟨t1, t2, t3, t4, t5, t6⟩
    | cons task rest =>
      rw [ProcessPoolTask_cons a h task rest hq]
      have hu : unsettled { a with
          pool_queue_ := rest
          queue := a.queue ++ [{ tsfn := task.tsfn, callback := task.callback,
                                 lambda := .pool task.deferred }] } d = a.unsettled d := by
        simp only [unsettled, hq, List.map_append, List.count_append, List.map_cons,
          List.map_nil, List.count_cons, List.count_nil, TaskLambda.deferred]
        omega
      refine ⟨?_, by rw [hu]; exact t2, t3, t4, ?_, ?_⟩
      · rw [hu]
        exact t1
      · intro task2 hm hd
        exact t5 task2 (by rw [hq]; exact List.mem_cons_of_mem _ hm) hd
      · intro c hm hd
        rcases List.mem_append.mp hm with hm | hm
        · exact t6 c hm hd
        · rw [List.mem_singleton.mp hm] at hd ⊢
          exact t5 task (by rw [hq]; exact List.mem_cons_self _ _) hd
  | hostLoop =>
    simp only [step]
    obtain ⟨_, _, g3, g4, _, g6, g7, _, g9, _⟩ := taskLoop_fields js a
    have hs := settlements_settledBy js d f a.queue t6
    have hu : (a.runPending js).unsettled d + (a.queue.map (·.lambda.deferred)).count (some d)
        = a.unsettled d := by
      simp only [unsettled, g4, g6, g7, List.map_nil, List.count_nil]
      omega
    refine ⟨?_, by omega, by rw [g9]; exact t3, by rw [g6]; exact t4, by rw [g7]; exact t5,
      by rw [g4]; intro c hc; simp at hc⟩
    simp only [settlements] at t1 ⊢
    rw [g3, List.filter_append, List.map_append, t1, hs, ← List.replicate_add]
    congr 1
    omega

theorem tracks_run (js : Nat → CallResult) (d f : Nat) (trace : List Event) :
    ∀ a : Application, Sound a → Tracks js d f a → Tracks js d f (a.run js trace) := by
  induction trace with
  | nil => intro a _ h; exact h
  | cons ev rest ih =>
    intro a h ht
    exact ih _ (sound_step js a ev h) (tracks_step js d f a ev h ht)

theorem tracks_settlements (js : Nat → CallResult) (d f : Nat) (a : Application)
    (ht : Tracks js d f a) :
    a.settlements d = if a.unsettled d = 0 then [promisedSettlement (js f)] else [] := by
  obtain ⟨t1, t2, _⟩ := ht
  rw [t1]
  by_cases e : a.unsettled d = 0
  · simp [e]
  · have : a.unsettled d = 1 := by omega
    simp [this]

theorem not_held_of_fresh (a : Application) (h : Sound a) :
    (a.dispatch_queue_.map (·.deferred)).count (some a.next_deferred) = 0 ∧
    (a.pool_queue_.map (·.deferred)).count (some a.next_deferred) = 0 ∧
    (a.queue.map (·.lambda.deferred)).count (some a.next_deferred) = 0 := by
  have := (h.2.2.2.2 a.next_deferred (Nat.le_refl _)).1
  simp only [unsettled] at this
  omega

theorem tracks_Dispatch (js : Nat → CallResult) (a : Application) (f : Nat) (h : Sound a) :
    Tracks js a.next_deferred f { a with
      next_deferred := a.next_deferred + 1
      next_tsfn := a.next_tsfn + 1
      dispatch_queue_ := a.dispatch_queue_ ++
        [{ tsfn := a.next_tsfn, callback := f, deferred := some a.next_deferred }]
      native := a.native ++ [.saucer_application_post .ProcessDispatchTask] } := by
  obtain ⟨n1, n2, n3⟩ := not_held_of_fresh a h
  have hs := (h.2.2.2.2 a.next_deferred (Nat.le_refl _)).2
  have hu : unsettled { a with
      next_deferred := a.next_deferred + 1
      next_tsfn := a.next_tsfn + 1
      dispatch_queue_ := a.dispatch_queue_ ++
        [{ tsfn := a.next_tsfn, callback := f, deferred := some a.next_deferred }]
      native := a.native ++ [.saucer_application_post .ProcessDispatchTask] } a.next_deferred
      = 1 := by
    simp only [unsettled, List.map_append, List.count_append, List.map_cons, List.map_nil,
      List.count_cons, List.count_nil, n1, n2, n3]
    simp
  refine ⟨?_, by rw [hu], by simp only; omega, ?_, ?_, ?_⟩
  · rw [hu]
    simpa [settlements] using hs
  · intro task hm hd
    rcases List.mem_append.mp hm with hm | hm
    · have : 0 < (a.dispatch_queue_.map (·.deferred)).count (some a.next_deferred) :=
        List.count_pos_iff.mpr (List.mem_map.mpr ⟨task, hm, hd⟩)
      omega
    · rw [List.mem_singleton.mp hm]
  · intro task hm hd
    have : 0 < (a.pool_queue_.map (·.deferred)).count (some a.next_deferred) :=
      List.count_pos_iff.mpr (List.mem_map.mpr ⟨task, hm, hd⟩)
    omega
  · intro c hm hd
    have : 0 < (a.queue.map (·.lambda.deferred)).count (some a.next_deferred) :=
      List.count_pos_iff.mpr (List.mem_map.mpr ⟨c, hm, hd⟩)
    omega

theorem tracks_PoolSubmit (js : Nat → CallResult) (a : Application) (f : Nat) (h : Sound a) :
    Tracks js a.next_deferred f { a with
      next_deferred := a.next_deferred + 1
      next_tsfn := a.next_tsfn + 1
      pool_queue_ := a.pool_queue_ ++
        [{ tsfn := a.next_tsfn, callback := f, deferred := some a.next_deferred }]
      native := a.native ++ [.saucer_application_pool_emplace .ProcessPoolTask] } := by
  obtain ⟨n1, n2, n3⟩ := not_held_of_fresh a h
  have hs := (h.2.2.2.2 a.next_deferred (Nat.le_refl _)).2
  have hu : unsettled { a with
      next_deferred := a.next_deferred + 1
      next_tsfn := a.next_tsfn + 1
      pool_queue_ := a.pool_queue_ ++
        [{ tsfn := a.next_tsfn, callback := f, deferred := some a.next_deferred }]
      native := a.native ++ [.saucer_application_pool_emplace .ProcessPoolTask] }
      a.next_deferred = 1 := by
    simp only [unsettled, List.map_append, List.count_append, List.map_cons, List.map_nil,
      List.count_cons, List.count_nil, n1, n2, n3]
    simp
  refine ⟨?_, by rw [hu], by simp only; omega, ?_, ?_, ?_⟩
  · rw [hu]
    simpa [settlements] using hs
  · intro task hm hd
    have : 0 < (a.dispatch_queue_.map (·.deferred)).count (some a.next_deferred) :=
      List.count_pos_iff.mpr (List.mem_map.mpr ⟨task, hm, hd⟩)
    omega
  · intro task hm hd
    rcases List.mem_append.mp hm with hm | hm
    · have : 0 < (a.pool_queue_.map (·.deferred)).count (some a.next_deferred) :=
        List.count_pos_iff.mpr (List.mem_map.mpr ⟨task, hm, hd⟩)
      omega
    · rw [List.mem_singleton.mp hm]
  · intro c hm hd
    have : 0 < (a.queue.map (·.lambda.deferred)).count (some a.next_deferred) :=
      List.count_pos_iff.mpr (List.mem_map.mpr ⟨c, hm, hd⟩)
    omega

theorem run_drainDispatch (js : Nat → CallResult) (k : Nat) : ∀ a : Application, Sound a →
    (a.run js (List.replicate k .drainDispatch)).dispatch_queue_ = a.dispatch_queue_.drop k ∧
    (a.run js (List.replicate k .drainDispatch)).pool_queue_ = a.pool_queue_ := by
  induction k with
  | zero => intro a _; simp [run]
  | succ k ih =>
    intro a h
    obtain ⟨h1, h2⟩ := ih a.ProcessDispatchTask (sound_ProcessDispatchTask a h)
    simp only [List.replicate_succ, run, List.foldl_cons, step] at h1 h2 ⊢
    rw [h1, h2]
    cases hq : a.dispatch_queue_ with
    | nil =>
      unfold ProcessDispatchTask
      simp [hq]
    | cons task rest =>
      rw [ProcessDispatchTask_cons a h task rest hq]
      simp

theorem run_drainPool (js : Nat → CallResult) (k : Nat) : ∀ a : Application, Sound a →
    (a.run js (List.replicate k .drainPool)).pool_queue_ = a.pool_queue_.drop k ∧
    (a.run js (List.replicate k .drainPool)).dispatch_queue_ = a.dispatch_queue_ := by
  induction k with
  | zero => intro a _; simp [run]
  | succ k ih =>
    intro a h
    obtain ⟨h1, h2⟩ := ih a.ProcessPoolTask (sound_ProcessPoolTask a h)
    simp only [List.replicate_succ, run, List.foldl_cons, step] at h1 h2 ⊢
    rw [h1, h2]
    cases hq : a.pool_queue_ with
    | nil =>
      unfold ProcessPoolTask
      simp [hq]
    | cons task rest =>
      rw [ProcessPoolTask_cons a h task rest hq]
      simp

theorem settled_after_drains (js : Nat → CallResult) (d f : Nat) (a : Application)
    (drains : List Event) (h : Sound a) (ht : Tracks js d f a)
    (hd : ((a.run js drains).dispatch_queue_.map (·.deferred)).count (some d) = 0)
    (hp : ((a.run js drains).pool_queue_.map (·.deferred)).count (some d) = 0) :
    (a.run js (drains ++ [.hostLoop])).settlements d = [promisedSettlement (js f)] := by
  have ht2 := tracks_run js d f (drains ++ [.hostLoop]) a h ht
  rw [tracks_settlements js d f _ ht2]
  have hu : (a.run js (drains ++ [.hostLoop])).unsettled d = 0 := by
    rw [run_append]
    obtain ⟨_, _, _, g4, _, g6, g7, _⟩ := taskLoop_fields js (a.run js drains)
    simp only [run, List.foldl_cons, List.foldl_nil, step] at g4 g6 g7 hd hp ⊢
    simp only [unsettled, g4, g6, g7, hd, hp, List.map_nil, List.count_nil]
  rw [if_pos hu]

end Application

/-! ### The encoding of the data URI -/

set_option maxRecDepth 100000 in
theorem UrlEncode.step_cases : ∀ c < 256,
    (UrlEncode.step c = [c] ∧ unreserved c = true ∧ c ≠ '%'.toNat) ∨
    (UrlEncode.step c
        = ['%'.toNat, UrlEncode.hex.getD (c / 16) 0, UrlEncode.hex.getD (c % 16) 0] ∧
      unreserved c = false ∧
      upperHexValue (UrlEncode.hex.getD (c / 16) 0) = some (c / 16) ∧
      upperHexValue (UrlEncode.hex.getD (c % 16) 0) = some (c % 16) ∧
      unreserved (UrlEncode.hex.getD (c / 16) 0) = true ∧
      unreserved (UrlEncode.hex.getD (c % 16) 0) = true) := by
  decide

theorem percentDecode_plain (c : Nat) (rest : List Nat) (h : c ≠ '%'.toNat) :
    percentDecode (c :: rest) = (percentDecode rest).map (c :: ·) := by
  conv_lhs => unfold percentDecode
  rw [if_neg h]

theorem percentDecode_triple (h l : Nat) (rest : List Nat) :
    percentDecode ('%'.toNat :: h :: l :: rest)
      = match upperHexValue h, upperHexValue l, percentDecode rest with
        | some hv, some lv, some tail => some ((16 * hv + lv) :: tail)
        | _, _, _ => none := by
  conv_lhs => unfold percentDecode
  rw [if_pos rfl]

theorem percentDecode_step (c : Nat) (hc : c < 256) (tail : List Nat) :
    percentDecode (UrlEncode.step c ++ tail) = (percentDecode tail).map (c :: ·) := by
  rcases UrlEncode.step_cases c hc with ⟨h1, _, h3⟩ | ⟨h1, _, h3, h4, _⟩
  · rw [h1]
    exact percentDecode_plain c tail h3
  · rw [h1]
    simp only [List.cons_append, List.nil_append]
    rw [percentDecode_triple, h3, h4]
    cases percentDecode tail with
    | none => rfl
    | some t =>
      have : 16 * (c / 16) + c % 16 = c := Nat.div_add_mod c 16
      simp [this]

theorem percentDecode_UrlEncode (s : List Nat) (hs : ∀ c ∈ s, c < 256) :
    percentDecode (UrlEncode s) = some s := by
  induction s with
  | nil => rfl
  | cons c rest ih =>
    unfold UrlEncode
    rw [percentDecode_step c (hs c (List.mem_cons_self _ _)),
      ih fun c2 h2 => hs c2 (List.mem_cons_of_mem _ h2)]
    rfl

theorem UrlEncode_eq_flatten (s : List Nat) :
    UrlEncode s = (s.map UrlEncode.step).flatten := by
  induction s with
  | nil => rfl
  | cons c rest ih => simp [UrlEncode, ih]

theorem UrlEncode_alphabet (s : List Nat) (hs : ∀ c ∈ s, c < 256) :
    ∀ b ∈ UrlEncode s, unreserved b = true ∨ b = '%'.toNat := by
  induction s with
  | nil => intro b hb; simp [UrlEncode] at hb
  | cons c rest ih =>
    intro b hb
    unfold UrlEncode at hb
    rcases List.mem_append.mp hb with hb | hb
    · rcases UrlEncode.step_cases c (hs c (List.mem_cons_self _ _)) with
        ⟨h1, h2, _⟩ | ⟨h1, _, _, _, h5, h6⟩
      · rw [h1] at hb
        rw [List.mem_singleton.mp hb]
        exact Or.inl h2
      · rw [h1] at hb
        simp only [List.mem_cons, List.mem_singleton, List.not_mem_nil, or_false] at hb
        rcases hb with hb | hb | hb
        · exact Or.inr hb
        · rw [hb]; exact Or.inl h5
        · rw [hb]; exact Or.inl h6
    · exact ih (fun c2 h2 => hs c2 (List.mem_cons_of_mem _ h2)) b hb

/-! ### The placeholders of a code template -/

theorem placeholderPieces_ne_nil (code : List Char) : placeholderPieces code ≠ [] := by
  induction code using placeholderPieces.induct with
  | case1 => simp [placeholderPieces]
  | case2 c => simp [placeholderPieces]
  | case3 c d rest h ih => simp [placeholderPieces, h]
  | case4 c d rest h p ps hp ih => simp [placeholderPieces, h, hp]
  | case5 c d rest h hp ih => simp [placeholderPieces, h, hp]

theorem fillPlaceholders_cons_head (c : Char) (p : List Char) (ps texts : List (List Char)) :
    fillPlaceholders ((c :: p) :: ps) texts = c :: fillPlaceholders (p :: ps) texts := by
  cases ps with
  | nil => simp [fillPlaceholders]
  | cons q qs => cases texts <;> simp [fillPlaceholders]

theorem fill_plain (c d : Char) (rest : List Char) (texts : List (List Char))
    (h : ¬ (c = '{' ∧ d = '}')) :
    fillPlaceholders (placeholderPieces (c :: d :: rest)) texts
      = c :: fillPlaceholders (placeholderPieces (d :: rest)) texts := by
  obtain ⟨p, ps, hp⟩ := List.exists_cons_of_ne_nil (placeholderPieces_ne_nil (d :: rest))
  have : placeholderPieces (c :: d :: rest) = (c :: p) :: ps := by
    simp [placeholderPieces, h, hp]
  rw [this, hp, fillPlaceholders_cons_head]

theorem fill_last (c : Char) (texts : List (List Char)) :
    fillPlaceholders (placeholderPieces [c]) texts = [c] := by
  simp [placeholderPieces, fillPlaceholders]

theorem fill_placeholder_text (rest : List Char) (text : List Char) (texts : List (List Char)) :
    fillPlaceholders (placeholderPieces ('{' :: '}' :: rest)) (text :: texts)
      = text ++ fillPlaceholders (placeholderPieces rest) texts := by
  obtain ⟨p, ps, hp⟩ := List.exists_cons_of_ne_nil (placeholderPieces_ne_nil rest)
  have : placeholderPieces ('{' :: '}' :: rest) = [] :: p :: ps := by
    simp [placeholderPieces, hp]
  rw [this, hp]
  simp [fillPlaceholders]

theorem fill_placeholder_none (rest : List Char) :
    fillPlaceholders (placeholderPieces ('{' :: '}' :: rest)) []
      = '{' :: '}' :: fillPlaceholders (placeholderPieces rest) [] := by
  obtain ⟨p, ps, hp⟩ := List.exists_cons_of_ne_nil (placeholderPieces_ne_nil rest)
  have : placeholderPieces ('{' :: '}' :: rest) = [] :: p :: ps := by
    simp [placeholderPieces, hp]
  rw [this, hp]
  simp [fillPlaceholders]

theorem fill_nil_texts (code : List Char) :
    fillPlaceholders (placeholderPieces code) [] = code := by
  induction code using placeholderPieces.induct with
  | case1 => simp [placeholderPieces, fillPlaceholders]
  | case2 c => exact fill_last c []
  | case3 c d rest h ih =>
    obtain ⟨h1, h2⟩ := h
    subst h1 h2
    rw [fill_placeholder_none, ih]
  | case4 c d rest h p ps hp ih => rw [fill_plain c d rest [] h, ih]
  | case5 c d rest h hp ih => rw [fill_plain c d rest [] h, ih]

theorem scan_nil_texts (code : List Char) :
    saucer_handle.format_runtime.scan code [] = code := by
  induction code with
  | nil => simp [saucer_handle.format_runtime.scan]
  | cons c tail ih =>
    cases tail with
    | nil => simp [saucer_handle.format_runtime.scan]
    | cons d rest => rw [saucer_handle.format_runtime.scan, ih]

theorem scan_eq_fill (code : List Char) (texts : List (List Char)) :
    saucer_handle.format_runtime.scan code texts
      = fillPlaceholders (placeholderPieces code) texts := by
  induction code, texts using saucer_handle.format_runtime.scan.induct with
  | case1 texts => simp [saucer_handle.format_runtime.scan, placeholderPieces, fillPlaceholders]
  | case2 c texts => simp [saucer_handle.format_runtime.scan, placeholderPieces, fillPlaceholders]
  | case3 c d rest ih => rw [scan_nil_texts, fill_nil_texts]
  | case4 c d rest arg args h ih =>
    obtain ⟨h1, h2⟩ := h
    subst h1 h2
    rw [fill_placeholder_text, ← ih]
    simp [saucer_handle.format_runtime.scan]
  | case5 c d rest arg args h ih =>
    rw [fill_plain c d rest _ h, ← ih]
    simp [saucer_handle.format_runtime.scan, h]

theorem placeholderPieces_head_prefix (code : List Char) :
    ∃ p ps, placeholderPieces code = p :: ps ∧ p <+: code := by
  induction code using placeholderPieces.induct with
  | case1 => exact ⟨[], [], by simp [placeholderPieces], List.prefix_refl _⟩
  | case2 c => exact ⟨[c], [], by simp [placeholderPieces], List.prefix_refl _⟩
  | case3 c d rest h ih =>
    exact ⟨[], placeholderPieces rest, by simp [placeholderPieces, h], List.nil_prefix⟩
  | case4 c d rest h p ps hp ih =>
    obtain ⟨p2, ps2, e, hpre⟩ := ih
    rw [hp] at e
    cases e
    exact ⟨c :: p, ps, by simp [placeholderPieces, h, hp], by simpa using hpre⟩
  | case5 c d rest h hp ih => exact absurd hp (placeholderPieces_ne_nil _)

theorem placeholderPieces_free (code : List Char) :
    ∀ p ∈ placeholderPieces code, ¬ ['{', '}'] <:+: p := by
  induction code using placeholderPieces.induct with
  | case1 =>
    intro p hp
    simp [placeholderPieces] at hp
    subst hp
    simp
  | case2 c =>
    intro p hp
    simp [placeholderPieces] at hp
    subst hp
    intro hin
    have := hin.length_le
    simp at this
  | case3 c d rest h ih =>
    intro p hp
    simp only [placeholderPieces, h, and_self, if_true, List.mem_cons] at hp
    rcases hp with hp | hp
    · subst hp
      simp
    · exact ih p hp
  | case4 c d rest h p ps hp ih =>
    intro q hq
    have e : placeholderPieces (c :: d :: rest) = (c :: p) :: ps := by
      simp [placeholderPieces, h, hp]
    rw [e] at hq
    rcases List.mem_cons.mp hq with hq | hq
    · subst hq
      intro hin
      rcases List.infix_cons_iff.mp hin with hpre | hin2
      · obtain ⟨p2, ps2, e2, hpre2⟩ := placeholderPieces_head_prefix (d :: rest)
        rw [hp] at e2
        cases e2
        obtain ⟨t, ht⟩ := hpre
        simp only [List.cons_append, List.nil_append, List.cons.injEq] at ht
        obtain ⟨hc, hrest⟩ := ht
        rw [← hrest] at hpre2
        obtain ⟨t2, ht2⟩ := hpre2
        simp only [List.cons_append, List.cons.injEq] at ht2
        exact h ⟨hc.symm, ht2.1.symm⟩
      · exact ih p (by rw [hp]; exact List.mem_cons_self _ _) hin2
    · exact ih q (by rw [hp]; exact List.mem_cons_of_mem _ hq)
  | case5 c d rest h hp ih => exact absurd hp (placeholderPieces_ne_nil _)

theorem fill_take (pieces texts : List (List Char)) :
    fillPlaceholders pieces texts = fillPlaceholders pieces (texts.take (pieces.length - 1)) := by
  induction pieces, texts using fillPlaceholders.induct with
  | case1 texts => simp [fillPlaceholders]
  | case2 p texts => simp [fillPlaceholders]
  | case3 p q ps a texts ih =>
    simp only [fillPlaceholders, List.length_cons, Nat.add_sub_cancel, List.take_succ_cons]
    rw [ih]
    simp
  | case4 p q ps ih => simp

/-! ### The scan of the picked paths -/

theorem Desktop.scan_unterminated (paths : List String) : ∀ idx : Nat,
    Desktop.scan idx (paths.map some) = .error (idx + paths.length) := by
  induction paths with
  | nil => intro idx; rfl
  | cons p rest ih =>
    intro idx
    simp only [List.map_cons, Desktop.scan, ih, List.length_cons]
    congr 1
    omega

theorem Desktop.scan_terminated (paths : List String) (after : List (Option String)) :
    ∀ idx : Nat, Desktop.scan idx (paths.map some ++ none :: after) = .ok paths := by
  induction paths with
  | nil => intro idx; rfl
  | cons p rest ih =>
    intro idx
    have h := ih (idx + 1)
    simp only [List.map_cons, List.cons_append, Desktop.scan, List.append_eq, h]

/-! ### The command line of the notification -/

theorem sh.read_quoted_plain_text (s : List Char)
    (hs : ∀ c ∈ s, c ≠ '"' ∧ c ≠ '\\' ∧ c ≠ '$' ∧ c ≠ '\x60') :
    ∀ (w : List Char) (command : List (List Char)) (done : List (List (List Char)))
      (expansions : Nat) (rest : List Char),
      sh.read .quoted (some w) command done expansions (s ++ '"' :: rest)
        = sh.read .plain (some (w ++ s)) command done expansions rest := by
  induction s with
  | nil =>
    intro w command done expansions rest
    simp [sh.read]
  | cons c tail ih =>
    intro w command done expansions rest
    obtain ⟨h1, h2, h3, h4⟩ := hs c (List.mem_cons_self _ _)
    have := ih (fun c2 hc2 => hs c2 (List.mem_cons_of_mem _ hc2)) (w ++ [c]) command done
      expansions rest
    simp only [List.cons_append, sh.read, h1, h2, h3, h4, if_false, or_self, Option.getD_some,
      List.append_eq]
    rw [this]
    simp

/-- A title and a body without double quote, backslash, `$` and backquote are read as the
contract promises. -/
theorem Notification.Show_plain_text (title_ body_ : String)
    (ht : ∀ c ∈ title_.data, c ≠ '"' ∧ c ≠ '\\' ∧ c ≠ '$' ∧ c ≠ '\x60')
    (hb : ∀ c ∈ body_.data, c ≠ '"' ∧ c ≠ '\\' ∧ c ≠ '$' ∧ c ≠ '\x60') :
    sh.reading (Notification.Show title_ body_) = Notification.promisedReading title_ body_ := by
  unfold sh.reading Notification.Show Notification.promisedReading
  simp only [String.data_append, List.append_assoc, List.cons_append, List.nil_append]
  have s1 : ∀ rest, sh.read .plain none [] [] 0
      ('n' :: 'o' :: 't' :: 'i' :: 'f' :: 'y' :: '-' :: 's' :: 'e' :: 'n' :: 'd' :: ' ' :: '"'
        :: rest)
      = sh.read .quoted (some []) ["notify-send".data] [] 0 rest := fun rest => rfl
  have s2 : ∀ (w : List Char) rest, sh.read .plain (some w) ["notify-send".data] [] 0
      (' ' :: '"' :: rest)
      = sh.read .quoted (some []) ["notify-send".data, w] [] 0 rest := fun w rest => rfl
  have s3 : ∀ (w1 w2 : List Char), sh.read .plain (some w2) ["notify-send".data, w1] [] 0
      [' ', '2', '>', '/', 'd', 'e', 'v', '/', 'n', 'u', 'l', 'l', ' ', '&']
      = { commands := [["notify-send".data, w1, w2, "2>/dev/null".data]]
          expansions := 0
          unclosed := false } := fun w1 w2 => rfl
  rw [s1, sh.read_quoted_plain_text title_.data ht, s2,
    sh.read_quoted_plain_text body_.data hb, s3]
  rfl

/-! ### The rejection reason -/

theorem StringifyForRPC_null (value : JsValue)
    (h : value.IsUndefined = true ∨ value.IsNull = true) : StringifyForRPC value = .ok .null := by
  unfold StringifyForRPC
  rcases h with h | h <;> simp [h]

theorem StringifyForRPC_message (value : JsValue) (m : String)
    (h1 : value.IsUndefined = false) (h2 : value.IsNull = false) (h3 : value.IsObject = true)
    (h4 : value.getProp "message" = some (.string m)) :
    StringifyForRPC value = .ok (.str m) := by
  unfold StringifyForRPC
  simp [h1, h2, h3, h4, JsValue.IsString, JSON_stringify]

theorem StringifyForRPC_otherwise (value : JsValue)
    (h1 : value.IsUndefined = false) (h2 : value.IsNull = false)
    (h3 : value.IsObject = false ∨
      (value.getProp "message").all (fun m => !m.IsString) = true) :
    StringifyForRPC value =
      match JSON_stringify value with
      | .error e => .error e
      | .ok none => .error (.error "Failed to stringify RPC value")
      | .ok (some jsonVal) => .ok jsonVal := by
  unfold StringifyForRPC
  rcases h3 with h3 | h3
  · simp [h1, h2, h3]
  · cases hg : value.getProp "message" with
    | none => simp [h1, h2]
    | some msg =>
      rw [hg] at h3
      have : msg.IsString = false := by simpa using h3
      simp [h1, h2, this]

theorem reject_with_of_ok (value : JsValue) (text : JsonText)
    (h : StringifyForRPC value = .ok text) :
    Expose.reject_with value = ([.reject (.json text)], none) ∧
    Expose.on_reject value = ([.reject (.json text)], none) ∧
    ∀ params : JsonText,
      (Expose.callJs (fun _ => .throws value) params).1 = [.reject (.json text)] ∧
      (Expose.callJs (fun _ => .returns (.promiseRejects value)) params).1
        = [.reject (.json text)] := by
  have h1 : Expose.reject_with value = ([.reject (.json text)], none) := by
    simp [Expose.reject_with, h]
  have h2 : Expose.on_reject value = ([.reject (.json text)], none) := by
    simp [Expose.on_reject, h]
  refine ⟨h1, h2, fun params => ⟨?_, ?_⟩⟩
  · simp [Expose.callJs, h1]
  · simp [Expose.callJs, JsValue.IsPromise, h2]

/-! ### The arguments of a script -/

theorem CollectJsonArgs_loop_serialised (rest : List JsValue) :
    ∀ acc : List json_t,
      (∀ docs, serialisedArguments rest = some docs →
        CollectJsonArgs.loop rest acc = .ok (acc ++ docs) ∧ docs.length = rest.length) ∧
      (serialisedArguments rest = none → ∃ e, CollectJsonArgs.loop rest acc = .error e) := by
  induction rest with
  | nil =>
    intro acc
    constructor
    · intro docs h
      simp only [serialisedArguments, Option.some.injEq] at h
      subst h
      simp [CollectJsonArgs.loop]
    · intro h
      simp [serialisedArguments] at h
  | cons v rest ih =>
    intro acc
    unfold serialisedArguments CollectJsonArgs.loop
    cases hs : JSON_stringify v with
    | error e =>
      constructor
      · intro docs h
        simp at h
      · intro _
        exact ⟨e, rfl⟩
    | ok r =>
      cases r with
      | none =>
        constructor
        · intro docs h
          simp at h
        · intro _
          exact ⟨_, rfl⟩
      | some text =>
        obtain ⟨i1, i2⟩ := ih (acc ++ [glz.toDocument text])
        cases hr : serialisedArguments rest with
        | none =>
          constructor
          · intro docs h
            simp at h
          · intro _
            simpa [glz.read_json] using i2 hr
        | some docs0 =>
          constructor
          · intro docs h
            simp only [Option.some.injEq] at h
            subst h
            obtain ⟨j1, j2⟩ := i1 docs0 hr
            simp [glz.read_json, j1, j2]
          · intro h
            simp at h

theorem CollectJsonArgs_after_code (code : String) (rest : List JsValue) :
    CollectJsonArgs (.string code :: rest) 1 = CollectJsonArgs.loop rest [] := by
  unfold CollectJsonArgs
  cases rest with
  | nil => simp [CollectJsonArgs.loop]
  | cons v tail => simp

/-! ### One native event, many subscriptions -/

namespace Webview

theorem nativeSubscriptions_congr (v w : Webview) (event : String) (h : v.native = w.native) :
    v.nativeSubscriptions event = w.nativeSubscriptions event := by
  unfold nativeSubscriptions
  rw [h]

theorem nativeSubscriptions_RegisterEvent (w : Webview) (event : String) (cb nativeId : Nat)
    (hsup : (MapWindowEventName event).isSome = true ∨ (MapWebEventName event).isSome = true) :
    (w.RegisterEvent event cb false nativeId).2.nativeSubscriptions event
      = w.nativeSubscriptions event + 1 := by
  unfold RegisterEvent nativeSubscriptions
  simp only
  cases h1 : MapWindowEventName event with
  | some we => simp [List.countP_append, List.countP_cons]
  | none =>
    cases h2 : MapWebEventName event with
    | some ev => simp [List.countP_append, List.countP_cons]
    | none => simp [h1, h2] at hsup

/-- The one native subscription that a registration makes. -/
theorem RegisterEvent_native (w : Webview) (event : String) (cb : Nat) (once : Bool)
    (nativeId : Nat) :
    (w.RegisterEvent event cb once nativeId).2.native = w.native ++
      match MapWindowEventName event, MapWebEventName event with
      | some we, _ => [if once then .window_once we else .window_on we nativeId]
      | none, some ev => [if once then .webview_once ev else .webview_on ev nativeId]
      | none, none => [] := by
  unfold RegisterEvent
  simp only
  cases h1 : MapWindowEventName event with
  | some we => simp
  | none =>
    cases h2 : MapWebEventName event with
    | some ev => simp
    | none => simp

/-- One emission on an instance whose entries for the event are all persistent. -/
theorem emission_persistent (kind : CallKind) (w0 : Webview) (e : String)
    (vec : List CallbackData) (hf : findCallbacks e w0.event_callbacks_ = some vec)
    (hreg : Registered w0) (hp : ∀ d ∈ vec, d.once = false) :
    Registered ((vec.foldl (dispatchTo kind) w0).RemoveOnceCallbacks e) ∧
    findCallbacks e ((vec.foldl (dispatchTo kind) w0).RemoveOnceCallbacks e).event_callbacks_
      = some vec ∧
    ((vec.foldl (dispatchTo kind) w0).RemoveOnceCallbacks e).queue = w0.queue ++
      vec.map (fun cb => { tsfn := cb.tsfn, callback := cb.callback_ref, kind := kind }) ∧
    ((vec.foldl (dispatchTo kind) w0).RemoveOnceCallbacks e).invoked = w0.invoked ∧
    ((vec.foldl (dispatchTo kind) w0).RemoveOnceCallbacks e).native = w0.native := by
  obtain ⟨c1, c2, _, _⟩ := emission_core kind w0 e vec hf
  obtain ⟨hrel, hnd⟩ := registered_snapshot w0 hreg e vec hf
  have hfilter : (vec.filter fun cb => !cb.once) = vec := by
    apply List.filter_eq_self.mpr
    intro d hd
    simp [hp d hd]
  refine ⟨registered_emission kind w0 e vec hf hreg, ?_, ?_, c2, ?_⟩
  · rw [c1, findCallbacks_storeCallbacks_same, hfilter]
  · rw [(RemoveOnceCallbacks_fields _ _).2.1, dispatchLoop_queue_all kind vec w0 hrel hnd]
  · rw [(RemoveOnceCallbacks_fields _ _).2.2.2.1, (dispatchLoop_fields kind vec w0).2.2.2.1]

theorem forwarder_spec (w : Webview) (event : String) (hreg : Registered w)
    (hp : ∀ d ∈ (findCallbacks event w.event_callbacks_).getD [], d.once = false) :
    Registered (w.forwarder event) ∧
    findCallbacks event (w.forwarder event).event_callbacks_
      = findCallbacks event w.event_callbacks_ ∧
    (w.forwarder event).queue.map (·.tsfn) = w.queue.map (·.tsfn) ++
      ((findCallbacks event w.event_callbacks_).getD []).map (·.tsfn) ∧
    (w.forwarder event).invoked = w.invoked ∧
    (w.forwarder event).native = w.native := by
  cases hf : findCallbacks event w.event_callbacks_ with
  | none =>
    have hw : w.forwarder event = w := by
      unfold forwarder EvaluatePolicy EmitEvent
      split <;> simp [hf]
    rw [hw]
    simp [hreg, hf]
  | some vec =>
    rw [hf] at hp
    simp only [Option.getD_some] at hp ⊢
    by_cases hk : event = "close" ∨ event = "navigate"
    · have hw : w.forwarder event = (vec.foldl (dispatchTo (.policy w.cells.length))
          { w with cells := w.cells ++ [true] }).RemoveOnceCallbacks event := by
        unfold forwarder
        rw [if_pos hk, EvaluatePolicy_eq w event vec hf]
      obtain ⟨h1, h2, h3, h4, h5⟩ := emission_persistent (.policy w.cells.length)
        { w with cells := w.cells ++ [true] } event vec hf hreg hp
      rw [hw]
      refine ⟨h1, h2, ?_, h4, h5⟩
      rw [h3]
      simp [Function.comp_def]
    · have hw : w.forwarder event = (vec.foldl (dispatchTo .emit) w).RemoveOnceCallbacks event := by
        unfold forwarder
        rw [if_neg hk, EmitEvent_eq w event vec hf]
      obtain ⟨h1, h2, h3, h4, h5⟩ := emission_persistent .emit w event vec hf hreg hp
      rw [hw]
      refine ⟨h1, h2, ?_, h4, h5⟩
      rw [h3]
      simp [Function.comp_def]

/-- After `k` forwarder calls in a row every entry of the event has `k` more calls queued. -/
theorem forwarder_iterate (w : Webview) (event : String) (hreg : Registered w)
    (hp : ∀ d ∈ (findCallbacks event w.event_callbacks_).getD [], d.once = false) (k : Nat) :
    Registered ((List.range k).foldl (fun v _ => v.forwarder event) w) ∧
    findCallbacks event ((List.range k).foldl (fun v _ => v.forwarder event) w).event_callbacks_
      = findCallbacks event w.event_callbacks_ ∧
    (∀ t, (((List.range k).foldl (fun v _ => v.forwarder event) w).queue.map (·.tsfn)).count t
      = (w.queue.map (·.tsfn)).count t
        + k * (((findCallbacks event w.event_callbacks_).getD []).map (·.tsfn)).count t) ∧
    ((List.range k).foldl (fun v _ => v.forwarder event) w).invoked = w.invoked := by
  induction k with
  | zero => simp [hreg]
  | succ k ih =>
    obtain ⟨i1, i2, i3, i4⟩ := ih
    rw [List.range_succ, List.foldl_append]
    simp only [List.foldl_cons, List.foldl_nil]
    obtain ⟨h1, h2, h3, h4, _⟩ := forwarder_spec
      ((List.range k).foldl (fun v _ => v.forwarder event) w) event i1 (by rw [i2]; exact hp)
    refine ⟨h1, by rw [h2, i2], fun t => ?_, by rw [h4, i4]⟩
    rw [h3, List.count_append, i3 t, i2, Nat.succ_mul]
    omega

/-- The registry after the host functions `handlers` have been registered with `on`. -/
theorem registerEach_spec (event : String)
    (hsup : (MapWindowEventName event).isSome = true ∨ (MapWebEventName event).isSome = true)
    (handlers : List Nat) : ∀ (w : Webview), Registered w →
    (∀ d ∈ (findCallbacks event w.event_callbacks_).getD [], d.once = false) →
    Registered
      (handlers.foldl (fun v cb => (v.RegisterEvent event cb false (v.next_tsfn + 1)).2) w) ∧
    (∀ d ∈ (findCallbacks event (handlers.foldl
        (fun v cb => (v.RegisterEvent event cb false (v.next_tsfn + 1)).2)
        w).event_callbacks_).getD [], d.once = false) ∧
    ((findCallbacks event (handlers.foldl
        (fun v cb => (v.RegisterEvent event cb false (v.next_tsfn + 1)).2)
        w).event_callbacks_).getD []).map (·.callback_ref)
      = ((findCallbacks event w.event_callbacks_).getD []).map (·.callback_ref) ++ handlers ∧
    (handlers.foldl (fun v cb => (v.RegisterEvent event cb false (v.next_tsfn + 1)).2)
        w).nativeSubscriptions event = w.nativeSubscriptions event + handlers.length ∧
    (handlers.foldl (fun v cb => (v.RegisterEvent event cb false (v.next_tsfn + 1)).2)
        w).queue = w.queue ∧
    (handlers.foldl (fun v cb => (v.RegisterEvent event cb false (v.next_tsfn + 1)).2)
        w).invoked = w.invoked := by
  induction handlers with
  | nil => intro w hreg hp; exact ⟨hreg, hp, by simp, by simp, rfl, rfl⟩
  | cons cb rest ih =>
    intro w hreg hp
    obtain ⟨_, b2, _, _, b5, b6⟩ :=
      RegisterEvent_supported w event cb false (w.next_tsfn + 1) hsup
    have hlist : (findCallbacks event
        (w.RegisterEvent event cb false (w.next_tsfn + 1)).2.event_callbacks_).getD []
        = (findCallbacks event w.event_callbacks_).getD [] ++
          [{ tsfn := w.next_tsfn, id := w.next_tsfn + 1, once := false, callback_ref := cb }] := by
      rw [b2, findCallbacks_storeCallbacks_same]
      simp
    have hp2 : ∀ d ∈ (findCallbacks event
        (w.RegisterEvent event cb false (w.next_tsfn + 1)).2.event_callbacks_).getD [],
        d.once = false := by
      rw [hlist]
      intro d hd
      rcases List.mem_append.mp hd with hd | hd
      · exact hp d hd
      · rw [List.mem_singleton.mp hd]
    obtain ⟨i1, i2, i3, i4, i5, i6⟩ := ih (w.RegisterEvent event cb false (w.next_tsfn + 1)).2
      (registered_RegisterEvent w event cb false (w.next_tsfn + 1) hreg) hp2
    simp only [List.foldl_cons]
    refine ⟨i1, i2, ?_, ?_, by rw [i5, b5], by rw [i6, b6]⟩
    · rw [i3, hlist]
      simp
    · rw [i4, nativeSubscriptions_RegisterEvent w event cb (w.next_tsfn + 1) hsup,
        List.length_cons]
      omega

end Webview

/-! ### A `once` registration made by a handler -/

namespace Webview

end Webview

/-! # The claims -/

/-- C1 (defect in the code).  One invocation of an exposed function whose host callback
returns a promise that later fulfils with a BigInt leaves the execution handle without any
completion, neither resolve nor reject: the continuation `on_resolve` converts the value
outside of any `try`.  The same value returned directly is rejected exactly once, and a
dispatch that cannot be scheduled is rejected exactly once with the fixed reason. -/
theorem C1_fulfilled_bigint_never_completes :
    Expose.handler true (fun _ => .returns (.promiseFulfils (.bigint 1))) [] = [] ∧
    Expose.handler true (fun _ => .returns (.bigint 1)) []
      = [.reject (.json (.str "Do not know how to serialize a BigInt"))] ∧
    Expose.handler false (fun _ => .returns (.bigint 1)) []
      = [.reject (.literal "Failed to dispatch RPC to JavaScript")] :=
  ⟨rfl, rfl, rfl⟩

/-- C2 (defect in the code).  With three handlers registered for `close` that return `true`,
`false`, `true` in this order, `EvaluatePolicy` returns allow (`true`): the three calls are
still in the queue of the host thread when the shared verdict is read, and no handler has
run.  Only when the host thread runs them does the shared verdict become deny. -/
theorem C2_true_false_true_returns_allow :
    (threeCloseHandlers.EvaluatePolicy "close").1 = true ∧
    (threeCloseHandlers.EvaluatePolicy "close").2.invoked = [] ∧
    (threeCloseHandlers.EvaluatePolicy "close").2.queue.map (·.callback) = [0, 1, 2] ∧
    ((threeCloseHandlers.EvaluatePolicy "close").2.runPending secondVetoes).cells = [false] := by
  decide

/-- C3 (defect in the code).  `EvaluatePolicy` never waits for a handler: on every instance
and event it returns allow without any host callback having run.  With one handler registered
for `navigate` that answers `"block"`, the verdict returned is allow, the call of the handler
is still queued at the return, and the handler runs and vetoes only afterwards. -/
theorem C3_verdict_returned_before_handlers_run :
    (∀ (w : Webview) (event : String),
      (w.EvaluatePolicy event).1 = true ∧ (w.EvaluatePolicy event).2.invoked = w.invoked) ∧
    (oneNavigateHandler.EvaluatePolicy "navigate").1 = true ∧
    (oneNavigateHandler.EvaluatePolicy "navigate").2.queue
      = [{ tsfn := 0, callback := 0, kind := .policy 0 }] ∧
    ((oneNavigateHandler.EvaluatePolicy "navigate").2.runPending alwaysBlocks).invoked = [0] ∧
    ((oneNavigateHandler.EvaluatePolicy "navigate").2.runPending alwaysBlocks).cells = [false] :=
  ⟨fun w event => ⟨EvaluatePolicy_returns_true w event, EvaluatePolicy_invoked w event⟩,
    by decide, by decide, by decide, by decide⟩

/-- C4.  A handler registered with `once` is dispatched, and hence invoked, at most once over
any sequence of emissions (`EmitEvent`, `EvaluatePolicy`, turns of the host loop) that follows
its registration.  The registration is stored at the end of the list of its event.  On every
instance, the first `EmitEvent` or `EvaluatePolicy` of an event releases the thread-safe
function of each `once` entry of the event and leaves in the registry exactly the persistent
entries, in their original order; a second emission queues calls of persistent entries only. -/
theorem C4_once_handler_fires_at_most_once (js : Nat → CallResult) (w : Webview)
    (event : String) (cb nativeId : Nat) (trace : List Emission)
    (hfresh : Fresh w) (hreg : (w.RegisterEvent event cb true nativeId).1 = true) :
    ((w.RegisterEvent event cb true nativeId).2.run js trace).dispatches w.next_tsfn ≤ 1 ∧
    ((w.RegisterEvent event cb true nativeId).2.run js trace).invoked.count w.next_tsfn ≤ 1 ∧
    findCallbacks event (w.RegisterEvent event cb true nativeId).2.event_callbacks_
      = some ((findCallbacks event w.event_callbacks_).getD [] ++
          [{ tsfn := w.next_tsfn, id := 0, once := true, callback_ref := cb }]) ∧
    (∀ (v : Webview) (e : String) (vec : List CallbackData),
      findCallbacks e v.event_callbacks_ = some vec →
        findCallbacks e (v.EmitEvent e).event_callbacks_
          = some (vec.filter fun d => !d.once) ∧
        findCallbacks e (v.EvaluatePolicy e).2.event_callbacks_
          = some (vec.filter fun d => !d.once) ∧
        (∀ d ∈ vec, d.once = true →
          d.tsfn ∈ (v.EmitEvent e).released ∧ d.tsfn ∈ (v.EvaluatePolicy e).2.released) ∧
        (∀ c ∈ ((v.EmitEvent e).EmitEvent e).queue,
          c ∈ (v.EmitEvent e).queue ∨ ∃ d ∈ vec, d.once = false ∧ c.tsfn = d.tsfn)) := by
  have htr := onceTracked_run js w.next_tsfn trace _ (onceTracked_register w event cb nativeId
    hfresh hreg)
  have hsup : (MapWindowEventName event).isSome = true ∨ (MapWebEventName event).isSome = true := by
    unfold RegisterEvent at hreg
    simp only at hreg
    cases h1 : MapWindowEventName event with
    | some we => simp
    | none =>
      cases h2 : MapWebEventName event with
      | some ev => simp
      | none => simp [h1, h2] at hreg
  refine ⟨?_, ?_, ?_, ?_⟩
  · have := htr.2
    omega
  · have := htr.2
    unfold dispatches at this
    omega
  · rw [(RegisterEvent_supported w event cb true nativeId hsup).2.1,
      findCallbacks_storeCallbacks_same]
    rfl
  · intro v e vec hf
    have hE := emission_core .emit v e vec hf
    have hP := emission_core (.policy v.cells.length) { v with cells := v.cells ++ [true] } e vec hf
    have eE := EmitEvent_eq v e vec hf
    have eP := EvaluatePolicy_eq v e vec hf
    refine ⟨?_, ?_, ?_, ?_⟩
    · rw [eE, hE.1, findCallbacks_storeCallbacks_same]
    · rw [eP, hP.1, findCallbacks_storeCallbacks_same]
    · intro d hd hon
      have hm : d.tsfn ∈ (vec.filter (·.once)).map (·.tsfn) :=
        List.mem_map.mpr ⟨d, List.mem_filter.mpr ⟨hd, hon⟩, rfl⟩
      constructor
      · rw [eE, hE.2.2.1]
        exact List.mem_append_right _ hm
      · rw [eP, hP.2.2.1]
        exact List.mem_append_right _ hm
    · intro c hc
      have hf2 : findCallbacks e (v.EmitEvent e).event_callbacks_
          = some (vec.filter fun d => !d.once) := by
        rw [eE, hE.1, findCallbacks_storeCallbacks_same]
      obtain ⟨_, _, _, added, ha1, ha2⟩ := emission_core .emit (v.EmitEvent e) e _ hf2
      have eE2 := EmitEvent_eq (v.EmitEvent e) e _ hf2
      rw [eE2, ha1] at hc
      rcases List.mem_append.mp hc with hc | hc
      · exact Or.inl hc
      · right
        have := ha2.subset hc
        obtain ⟨d, hd, hdc⟩ := List.mem_map.mp this
        obtain ⟨hd1, hd2⟩ := List.mem_filter.mp hd
        exact ⟨d, hd1, by simpa using hd2, by rw [← hdc]⟩

/-- C4, witness: on a new instance a `once` handler for `resize` is dispatched at most once
over two emissions of `resize`, a verdict request and two turns of the host loop. -/
theorem C4_once_handler_fires_at_most_once_witness :
    Fresh ({} : Webview) ∧
    (({} : Webview).RegisterEvent "resize" 7 true 0).1 = true ∧
    ((({} : Webview).RegisterEvent "resize" 7 true 0).2.run secondVetoes
        [.emit "resize", .hostLoop, .emit "resize", .policy "resize", .hostLoop]).dispatches 0
      ≤ 1 :=
  have hfresh : Fresh ({} : Webview) := by
    unfold Fresh registrations
    simp
  ⟨hfresh, by decide,
    (C4_once_handler_fires_at_most_once secondVetoes {} "resize" 7 0
      [.emit "resize", .hostLoop, .emit "resize", .policy "resize", .hostLoop]
      hfresh (by decide)).1⟩

/-- C5 (defect in the code).  A function returned directly by the host callback is rejected
with a string reason, but a function or a symbol that is the fulfilment value of the returned
promise leaves the execution handle pending for ever: no resolve and no reject. -/
theorem C5_unserialisable_fulfilment_left_pending :
    Expose.handler true (fun _ => .returns (.function 7)) []
      = [.reject (.json (.str "Failed to stringify RPC value"))] ∧
    Expose.handler true (fun _ => .returns (.promiseFulfils (.function 7))) [] = [] ∧
    Expose.handler true (fun _ => .returns (.promiseFulfils (.symbol "tag"))) [] = [] :=
  ⟨rfl, rfl, rfl⟩

/-- C6 (defect in the code).  The plain object with the properties `message: "saved"` and
`id: 7` is representable in JSON, yet `SerializeForRPC` turns it into the document of the
string `"saved"` alone, and what comes back from that document is the string, which is not
structurally equal to the object. -/
theorem C6_message_object_collapses_to_string :
    JsonRepresentable (.object [("message", .string "saved"), ("id", .number 7)]) = true ∧
    SerializeForRPC (.object [("message", .string "saved"), ("id", .number 7)])
      = .ok (.string "saved") ∧
    ParseJson (glz.write_json (.string "saved")) = .string "saved" ∧
    structEq (ParseJson (glz.write_json (.string "saved")))
      (.object [("message", .string "saved"), ("id", .number 7)]) = false :=
  ⟨rfl, rfl, rfl, rfl⟩

/-- C7.  For arguments that are all representable in JSON, `CollectJsonArgs` returns a list of
documents of the same length and order, each of which, written back as JSON text and parsed,
is structurally equal to its argument; if some argument has no JSON text, it throws and
returns no list. -/
theorem C7_CollectJsonArgs_round_trip (info : List JsValue) (startIndex : Nat) :
    ((∀ v ∈ info.drop startIndex, JsonRepresentable v = true) →
      ∃ docs, CollectJsonArgs info startIndex = .ok docs ∧
        List.Forall₂ (fun doc v => structEq (ParseJson (glz.write_json doc)) v = true)
          docs (info.drop startIndex)) ∧
    ((∃ v ∈ info.drop startIndex, ∀ t, JSON_stringify v ≠ .ok (some t)) →
      ∃ e, CollectJsonArgs info startIndex = .error e) := by
  constructor
  · intro h
    unfold CollectJsonArgs
    split
    · rename_i hle
      rw [List.drop_eq_nil_of_le hle]
      exact ⟨[], rfl, List.Forall₂.nil⟩
    · obtain ⟨docs, h1, h2⟩ := CollectJsonArgs_loop_ok (info.drop startIndex) [] h
      exact ⟨docs, by simpa using h1, h2⟩
  · intro h
    unfold CollectJsonArgs
    split
    · rename_i hle
      rw [List.drop_eq_nil_of_le hle] at h
      simp at h
    · exact CollectJsonArgs_loop_throws _ _ h

/-- C7, witness: the arguments of `evaluate(code, 5, obj)` with a nested object, and
`evaluate(code, f)` with a function. -/
theorem C7_CollectJsonArgs_round_trip_witness :
    (∃ docs, CollectJsonArgs
        [.string "code", .number 5,
         .object [("b", .array [.null, .string "x"]), ("a", .boolean true)]] 1 = .ok docs ∧
      List.Forall₂ (fun doc v => structEq (ParseJson (glz.write_json doc)) v = true) docs
        [.number 5, .object [("b", .array [.null, .string "x"]), ("a", .boolean true)]]) ∧
    (∃ e, CollectJsonArgs [.string "code", .function 3] 1 = .error e) :=
  ⟨(C7_CollectJsonArgs_round_trip
      [.string "code", .number 5,
       .object [("b", .array [.null, .string "x"]), ("a", .boolean true)]] 1).1
      (by
        intro v hv
        simp only [List.drop_succ_cons, List.drop_zero, List.mem_cons, List.mem_singleton,
          List.not_mem_nil, or_false] at hv
        rcases hv with rfl | rfl <;> rfl),
    (C7_CollectJsonArgs_round_trip [.string "code", .function 3] 1).2
      ⟨.function 3, by simp, by intro t; simp [JSON_stringify]⟩⟩

/-- C8.  `off(event, cb)` runs `RemoveCallbackByFunction`, which removes from the list of the
event every registration whose callback is identical to `cb` and keeps the others in their
order, releases the thread-safe function of each removed entry, asks the native layer to
remove exactly the non-zero ids of the removed entries (in the partition of the event), and
leaves the lists of all other events as they are.  After registering `cb` twice and calling
`off` once, neither registration is left. -/
theorem C8_off_removes_every_identical_registration (w : Webview) (event : String) (cb : Nat)
    (vec : List CallbackData) (hf : findCallbacks event w.event_callbacks_ = some vec)
    (hsup : (MapWindowEventName event).isSome = true ∨ (MapWebEventName event).isSome = true) :
    w.Off [.string event, .function cb] = .ok (w.RemoveCallbackByFunction event cb) ∧
    findCallbacks event (w.RemoveCallbackByFunction event cb).event_callbacks_
      = some (vec.filter fun d => decide (d.callback_ref ≠ cb)) ∧
    (w.RemoveCallbackByFunction event cb).released
      = w.released ++ (vec.filter fun d => decide (d.callback_ref = cb)).map (·.tsfn) ∧
    ((∃ we, MapWindowEventName event = some we ∧
        (w.RemoveCallbackByFunction event cb).native = w.native ++
          (((vec.filter fun d => decide (d.callback_ref = cb)).filter
            fun d => decide (d.id ≠ 0)).map (·.id)).map (NativeCall.window_remove we)) ∨
     (∃ ev, MapWindowEventName event = none ∧ MapWebEventName event = some ev ∧
        (w.RemoveCallbackByFunction event cb).native = w.native ++
          (((vec.filter fun d => decide (d.callback_ref = cb)).filter
            fun d => decide (d.id ≠ 0)).map (·.id)).map (NativeCall.webview_remove ev))) ∧
    (∀ e2, e2 ≠ event →
      findCallbacks e2 (w.RemoveCallbackByFunction event cb).event_callbacks_
        = findCallbacks e2 w.event_callbacks_) ∧
    (∀ (once1 once2 : Bool) (id1 id2 : Nat),
      findCallbacks event
        (((w.RegisterEvent event cb once1 id1).2.RegisterEvent event cb once2 id2).2
          |>.RemoveCallbackByFunction event cb).event_callbacks_
        = some (vec.filter fun d => decide (d.callback_ref ≠ cb))) := by
  obtain ⟨s1, s2, s3⟩ := RemoveCallbackByFunction_spec w event cb vec hf
  refine ⟨rfl, ?_, s2, ?_, ?_, ?_⟩
  · rw [s1, findCallbacks_storeCallbacks_same]
  · rw [s3]
    cases h1 : MapWindowEventName event with
    | some we => exact Or.inl ⟨we, rfl, rfl⟩
    | none =>
      cases h2 : MapWebEventName event with
      | some ev => exact Or.inr ⟨ev, rfl, rfl, rfl⟩
      | none => simp [h1, h2] at hsup
  · intro e2 hne
    rw [s1, findCallbacks_storeCallbacks_other _ _ _ _ hne]
  · intro once1 once2 id1 id2
    obtain ⟨_, r1, _⟩ := RegisterEvent_supported w event cb once1 id1 hsup
    obtain ⟨_, r2, _⟩ := RegisterEvent_supported (w.RegisterEvent event cb once1 id1).2 event cb
      once2 id2 hsup
    have f1 : findCallbacks event (w.RegisterEvent event cb once1 id1).2.event_callbacks_
        = some (vec ++
            [{ tsfn := w.next_tsfn, id := (if once1 then 0 else id1), once := once1,
               callback_ref := cb }]) := by
      rw [r1, findCallbacks_storeCallbacks_same, hf]
      rfl
    have f2 := r2
    rw [f1] at f2
    have f3 : findCallbacks event
        ((w.RegisterEvent event cb once1 id1).2.RegisterEvent event cb once2 id2).2.event_callbacks_
        = some (vec ++
            [{ tsfn := w.next_tsfn, id := (if once1 then 0 else id1), once := once1,
               callback_ref := cb }] ++
          [{ tsfn := (w.RegisterEvent event cb once1 id1).2.next_tsfn,
             id := (if once2 then 0 else id2), once := once2, callback_ref := cb }]) := by
      rw [f2, findCallbacks_storeCallbacks_same]
      rfl
    obtain ⟨t1, _, _⟩ := RemoveCallbackByFunction_spec _ event cb _ f3
    rw [t1, findCallbacks_storeCallbacks_same]
    simp [List.filter_append, List.filter_cons]

/-- C8, witness: the function 5 registered with `on` (native id 31) and with `once` for
`resize`, next to the function 6; one `off` leaves the registration of 6 alone. -/
theorem C8_off_removes_every_identical_registration_witness :
    findCallbacks "resize"
        (((({} : Webview).RegisterEvent "resize" 5 false 31).2.RegisterEvent "resize" 6 false 32).2
          |>.RegisterEvent "resize" 5 true 0).2.event_callbacks_
      = some [{ tsfn := 0, id := 31, once := false, callback_ref := 5 },
              { tsfn := 1, id := 32, once := false, callback_ref := 6 },
              { tsfn := 2, id := 0, once := true, callback_ref := 5 }] ∧
    findCallbacks "resize"
        ((((({} : Webview).RegisterEvent "resize" 5 false 31).2.RegisterEvent "resize" 6 false 32).2
          |>.RegisterEvent "resize" 5 true 0).2.RemoveCallbackByFunction "resize" 5).event_callbacks_
      = some [{ tsfn := 1, id := 32, once := false, callback_ref := 6 }] :=
  ⟨by decide,
    (C8_off_removes_every_identical_registration
      (((({} : Webview).RegisterEvent "resize" 5 false 31).2.RegisterEvent "resize" 6 false 32).2
        |>.RegisterEvent "resize" 5 true 0).2 "resize" 5
      [{ tsfn := 0, id := 31, once := false, callback_ref := 5 },
       { tsfn := 1, id := 32, once := false, callback_ref := 6 },
       { tsfn := 2, id := 0, once := true, callback_ref := 5 }]
      (by decide) (by decide)).2.1⟩

/-- C9.  The handler chosen for a URL is the first entry of `scheme_handlers_`, in the order
of registration (`handleScheme` appends at the end), whose name followed by a colon starts
the URL; the test with `://` never adds a match.  For a name without colon that test holds
exactly when the URL has a colon and its text before the first colon is the name.  A request
for `myscheme://path` selects the first handler registered as `myscheme`, and a request for
`othermeme://x` never selects a handler of that name. -/
theorem C9_scheme_handler_is_first_name_colon_match (urlStr : String) (hs : List SchemeHandler)
    (name : String) (hn : ':' ∉ name.data) :
    (∀ (w : Webview) (handler : Nat),
      (w.HandleScheme [.string name, .function handler]).map (·.scheme_handlers_)
        = .ok (w.scheme_handlers_ ++ [{ name := name, tsfn := some w.next_tsfn }])) ∧
    findSchemeHandler urlStr hs
      = hs.find? (fun h => decide ((h.name ++ ":").data <+: urlStr.data)) ∧
    (∀ h : SchemeHandler,
      (h.name ++ "://").data <+: urlStr.data → (h.name ++ ":").data <+: urlStr.data) ∧
    ((name ++ ":").data <+: urlStr.data ↔
      (':' ∈ urlStr.data ∧ urlStr.data.takeWhile (fun c => decide (c ≠ ':')) = name.data)) ∧
    findSchemeHandler "myscheme://path" hs = hs.find? (fun h => decide (h.name = "myscheme")) ∧
    (∀ h, findSchemeHandler "othermeme://x" hs = some h → h.name ≠ "myscheme") := by
  refine ⟨fun w handler => rfl, findSchemeHandler_eq_find urlStr hs,
    fun h hq => colon_prefix_of_slashes _ _ hq, ?_, ?_, ?_⟩
  · simp only [String.data_append]
    exact prefix_colon_iff name.data urlStr.data hn
  · exact findSchemeHandler_single_colon "myscheme" "//path" hs (by decide) (by decide)
  · intro h hfind
    have := findSchemeHandler_single_colon "othermeme" "//x" hs (by decide) (by decide)
    have e : ("othermeme" ++ ":" ++ "//x" : String) = "othermeme://x" := by decide
    rw [e, hfind] at this
    have hh := List.find?_some this.symm
    simp only [decide_eq_true_eq] at hh
    rw [hh]
    decide

/-- C9, witness: with handlers `app` and `myscheme` (twice), the name `app` (no colon) and the
URL `app://index.html`: `app:` starts the URL exactly because the text before its first colon
is `app`, and `myscheme://path` selects the first of the two `myscheme` handlers. -/
theorem C9_scheme_handler_is_first_name_colon_match_witness :
    ':' ∉ ("app" : String).data ∧
    ((("app" : String) ++ ":").data <+: ("app://index.html" : String).data ↔
      (':' ∈ ("app://index.html" : String).data ∧
        ("app://index.html" : String).data.takeWhile (fun c => decide (c ≠ ':'))
          = ("app" : String).data)) ∧
    findSchemeHandler "myscheme://path"
        [{ name := "app", tsfn := some 0 }, { name := "myscheme", tsfn := some 1 },
         { name := "myscheme", tsfn := some 2 }]
      = some { name := "myscheme", tsfn := some 1 } :=
  have h := C9_scheme_handler_is_first_name_colon_match "app://index.html"
    [{ name := "app", tsfn := some 0 }, { name := "myscheme", tsfn := some 1 },
     { name := "myscheme", tsfn := some 2 }] "app" (by decide)
  ⟨by decide, h.2.2.2.1, h.2.2.2.2.1.trans (by decide)⟩

/-- C10 (defect in the code).  When the thread-safe function of the matching handler refuses
the call, the trampoline does nothing at all with the executor of the request: it is neither
resolved, nor rejected, nor freed, because the status of `NonBlockingCall` is not looked at.
The same request with an accepted call is resolved once and freed, and a request for an
instance that is gone is rejected once and freed. -/
theorem C10_refused_dispatch_leaves_executor_pending :
    HandleScheme.trampoline (some oneSchemeHandler) pathRequest (fun _ => false) pageHandler
      = [] ∧
    HandleScheme.trampoline (some oneSchemeHandler) pathRequest (fun _ => true) pageHandler
      = [.resolve { data := .text "<p>hi</p>", mime := "text/html", status := none,
                    headers := [] }, .free] ∧
    HandleScheme.trampoline none pathRequest (fun _ => false) pageHandler
      = [.reject .FAILED, .free] := by
  decide

/-- C11.  When no entry of `scheme_handlers_` passes the test of the lookup loop on the URL of
the request, the trampoline rejects the request with `NOT_FOUND` and frees the executor on the
calling thread: it reaches no thread-safe function (no call is queued for the host thread), and
what happens to the executor does not depend on the host function of any handler nor on the
status a call would have had. -/
theorem C11_unmatched_url_is_rejected_not_found (self : Webview) (request : SchemeRequest)
    (hnone : ∀ h ∈ self.scheme_handlers_,
      ¬ (std_find (h.name ++ "://").data (request.url.getD "").data = some 0
        ∨ std_find (h.name ++ ":").data (request.url.getD "").data = some 0)) :
    HandleScheme.dispatchTarget (some self) request = ([.reject .NOT_FOUND, .free], none) ∧
    ∀ (status_ok : Nat → Bool) (js : Nat → JsValue → CallResult),
      HandleScheme.trampoline (some self) request status_ok js = [.reject .NOT_FOUND, .free] := by
  have hd : HandleScheme.dispatchTarget (some self) request
      = ([.reject .NOT_FOUND, .free], none) := by
    unfold HandleScheme.dispatchTarget
    simp only [findSchemeHandler_none _ _ hnone]
  refine ⟨hd, fun status_ok js => ?_⟩
  rw [trampoline_eq_dispatchTarget, hd]

/-- C11, witness: the instance whose only handler is `myscheme`, asked for `other://page`. -/
theorem C11_unmatched_url_is_rejected_not_found_witness :
    (∀ h ∈ oneSchemeHandler.scheme_handlers_,
      ¬ (std_find (h.name ++ "://").data ("other://page" : String).data = some 0
        ∨ std_find (h.name ++ ":").data ("other://page" : String).data = some 0)) ∧
    HandleScheme.dispatchTarget (some oneSchemeHandler)
        { url := some "other://page", method := some "GET", content := none, headers := [] }
      = ([.reject .NOT_FOUND, .free], none) ∧
    HandleScheme.trampoline (some oneSchemeHandler)
        { url := some "other://page", method := some "GET", content := none, headers := [] }
        (fun _ => true) pageHandler
      = [.reject .NOT_FOUND, .free] :=
  have h := C11_unmatched_url_is_rejected_not_found oneSchemeHandler
    { url := some "other://page", method := some "GET", content := none, headers := [] }
    (by decide)
  ⟨by decide, h.1, h.2 (fun _ => true) pageHandler⟩

/-- C12.  `resolveResponse` resolves the request exactly when the result of the handler is an
object whose `data` is a string or a buffer, and the response then carries that string or
those bytes; on every other result (not an object, no `data`, `data` of another kind) it
rejects the request with `FAILED` and resolves nothing.  In both cases the executor is
completed once and then freed.  The result of a handler that returns without a promise, and the
value a returned promise fulfils with, are both handed to `resolveResponse`. -/
theorem C12_response_without_usable_body_is_rejected_failed (result : JsValue) :
    ((result.IsObject = true ∧
        ((∃ s, result.getProp "data" = some (.string s) ∧
            ∃ resp, resp.data = .text s ∧
              HandleScheme.resolveResponse result = [.resolve resp, .free]) ∨
         (∃ b, result.getProp "data" = some (.buffer b) ∧
            ∃ resp, resp.data = .bytes b ∧
              HandleScheme.resolveResponse result = [.resolve resp, .free]))) ∨
     ((result.IsObject = false ∨
        (result.getProp "data").all (fun d => !d.IsString && !d.IsBuffer) = true) ∧
      HandleScheme.resolveResponse result = [.reject .FAILED, .free])) ∧
    (∀ (url method : String) (content : List Nat) (headers : List (String × String)),
      (result.IsPromise = true ∨
        HandleScheme.callJs (fun _ => .returns result) url method content headers
          = HandleScheme.resolveResponse result) ∧
      HandleScheme.callJs (fun _ => .returns (.promiseFulfils result)) url method content headers
        = HandleScheme.resolveResponse result) := by
  constructor
  · unfold HandleScheme.resolveResponse
    cases hobj : result.IsObject with
    | false => right; simp
    | true =>
      cases hd : result.getProp "data" with
      | none => right; simp
      | some d =>
        cases d with
        | string s => left; simp
        | buffer b => left; simp
        | _ => right; simp [JsValue.IsString, JsValue.IsBuffer]
  · intro url method content headers
    constructor
    · cases hp : result.IsPromise with
      | true => left; rfl
      | false =>
        right
        unfold HandleScheme.callJs
        simp [hp]
    · unfold HandleScheme.callJs
      simp [JsValue.IsPromise]

/-- C13.  From a state of the task queues that is in order (`Sound`, which holds on every
state the events can produce), after any sequence of calls of the methods, runs of the drain
callbacks and returns of the host thread to its loop: the host functions dispatched by
`ProcessPostTask` so far, followed by those still in `post_queue_`, are the ones that were
dispatched and queued before followed by the ones posted since, in the order of the posts; the
thread-safe functions of these tasks are all different, so no task is dispatched twice.  One
run of `ProcessPostTask` removes the task at the front of `post_queue_` and dispatches it, and
does nothing on an empty queue; `k` runs after the posts `fs` have dispatched the first `k`
tasks of the queue, and the host thread runs the dispatched calls in the order of the
dispatches. -/
theorem C13_posted_tasks_are_dispatched_in_order (js : Nat → CallResult) (a : Application)
    (trace : List Application.Event) (hs : a.Sound) :
    (a.run js trace).dispatchedPosts ++ (a.run js trace).post_queue_.map (·.callback)
      = a.dispatchedPosts ++ a.post_queue_.map (·.callback) ++ Application.posted trace ∧
    ((a.run js trace).dispatchedPostTsfns ++ (a.run js trace).post_queue_.map (·.tsfn)).Nodup ∧
    a.ProcessPostTask.post_queue_ = a.post_queue_.tail ∧
    a.ProcessPostTask.queue = a.queue ++ a.post_queue_.head?.toList.map (fun task =>
      { tsfn := task.tsfn, callback := task.callback, lambda := .post }) ∧
    a.ProcessPostTask.dispatchedPosts
      = a.dispatchedPosts ++ a.post_queue_.head?.toList.map (·.callback) ∧
    ({ a with post_queue_ := [] } : Application).ProcessPostTask = { a with post_queue_ := [] } ∧
    (∀ (fs : List Nat) (k : Nat),
      (a.run js (fs.map .post ++ List.replicate k .drainPost)).dispatchedPosts
        = a.dispatchedPosts ++ (a.post_queue_.map (·.callback) ++ fs).take k) ∧
    (a.runPending js).invoked = a.invoked ++ a.queue := by
  obtain ⟨g1, g2, _, g4⟩ := Application.ProcessPostTask_head a hs
  refine ⟨Application.fifo_run js trace a hs,
    Application.dispatched_nodup _ (Application.sound_run js trace a hs), g1, g2, g4, rfl,
    fun fs k => ?_, (Application.taskLoop_fields js a).1⟩
  rw [Application.run_append]
  obtain ⟨p1, p2⟩ := Application.run_posts js fs a hs
  obtain ⟨d1, _⟩ := Application.run_drains js k _ (Application.sound_run js (fs.map .post) a hs)
  rw [d1, p1, p2]

/-- C13, witness: the host functions 10, 11 and 12 posted in this order on a new
application, three runs of the drain callback and one return to the host loop: they are
dispatched, and run, in the order 10, 11, 12. -/
theorem C13_posted_tasks_are_dispatched_in_order_witness :
    Application.Sound { app_ := some 1 } ∧
    ((({ app_ := some 1 } : Application).run (fun _ => .returns .undefined)
        [.post 10, .post 11, .post 12, .drainPost, .drainPost, .drainPost,
          .hostLoop]).dispatchedPosts ++
      (({ app_ := some 1 } : Application).run (fun _ => .returns .undefined)
        [.post 10, .post 11, .post 12, .drainPost, .drainPost, .drainPost,
          .hostLoop]).post_queue_.map (·.callback)) = [10, 11, 12] ∧
    (({ app_ := some 1 } : Application).run (fun _ => .returns .undefined)
        [.post 10, .post 11, .post 12, .drainPost, .drainPost, .drainPost,
          .hostLoop]).invoked.map (·.callback) = [10, 11, 12] :=
  have h := C13_posted_tasks_are_dispatched_in_order (fun _ => .returns .undefined)
    { app_ := some 1 }
    [.post 10, .post 11, .post 12, .drainPost, .drainPost, .drainPost, .hostLoop]
    (Application.sound_new 1)
  ⟨Application.sound_new 1, h.1.trans (by decide), by decide⟩

/-- C14.  From a state of the task queues that is in order (`Sound`): `dispatch` and
`poolSubmit` with the host function `f` queue a task and return the promise of a new deferred.
Whatever calls, drains and returns to the host loop follow, that deferred has been settled
once, resolved with what `f` returns or rejected with what `f` throws, as soon as no task and
no queued call holds it any more, and nothing has been done to it before; running the drain
callback once for every task of the queue and returning to the host loop brings this about.
`make` is `dispatch`.  The settlements made and the deferreds still awaited together number
those made and awaited before plus the calls of `dispatch` and `poolSubmit` since: `post` and
`poolEmplace` add neither a settlement nor a deferred to settle. -/
theorem C14_deferred_is_settled_exactly_once (js : Nat → CallResult) (a : Application) (f : Nat)
    (trace : List Application.Event) (hs : a.Sound) :
    (a.Dispatch [.function f] = .ok (a.next_deferred, a.step js (.dispatch f)) ∧
      (a.step js (.dispatch f)).settlements a.next_deferred = [] ∧
      ((a.step js (.dispatch f)).run js trace).settlements a.next_deferred
        = (if ((a.step js (.dispatch f)).run js trace).unsettled a.next_deferred = 0
            then [promisedSettlement (js f)] else []) ∧
      ((a.step js (.dispatch f)).run js
          (List.replicate (a.step js (.dispatch f)).dispatch_queue_.length .drainDispatch
            ++ [.hostLoop])).settlements a.next_deferred = [promisedSettlement (js f)]) ∧
    (a.PoolSubmit [.function f] = .ok (a.next_deferred, a.step js (.poolSubmit f)) ∧
      (a.step js (.poolSubmit f)).settlements a.next_deferred = [] ∧
      ((a.step js (.poolSubmit f)).run js trace).settlements a.next_deferred
        = (if ((a.step js (.poolSubmit f)).run js trace).unsettled a.next_deferred = 0
            then [promisedSettlement (js f)] else []) ∧
      ((a.step js (.poolSubmit f)).run js
          (List.replicate (a.step js (.poolSubmit f)).pool_queue_.length .drainPool
            ++ [.hostLoop])).settlements a.next_deferred = [promisedSettlement (js f)]) ∧
    a.Make [.function f] = a.Dispatch [.function f] ∧
    (∀ (value err : JsValue),
      promisedSettlement (.returns value) = .Resolve value ∧
      promisedSettlement (.throws err) = .Reject err) ∧
    (a.run js trace).settled.length + (a.run js trace).awaiting
      = a.settled.length + a.awaiting + Application.promised trace ∧
    Application.promised [.post f, .poolEmplace f, .drainPost, .drainPool, .drainDispatch,
      .hostLoop] = 0 ∧
    (a.step js (.post f)).settled = a.settled ∧
    (a.step js (.post f)).awaiting = a.awaiting ∧
    (a.step js (.poolEmplace f)).settled = a.settled ∧
    (a.step js (.poolEmplace f)).awaiting = a.awaiting := by
  obtain ⟨n1, n2, n3⟩ := Application.not_held_of_fresh a hs
  have hsd := Application.sound_step js a (.dispatch f) hs
  have hsp := Application.sound_step js a (.poolSubmit f) hs
  have htd : Application.Tracks js a.next_deferred f (a.step js (.dispatch f)) := by
    simp only [Application.step, Application.Dispatch_ok a f [] hs.1]
    exact Application.tracks_Dispatch js a f hs
  have htp : Application.Tracks js a.next_deferred f (a.step js (.poolSubmit f)) := by
    simp only [Application.step, Application.PoolSubmit_ok a f [] hs.1]
    exact Application.tracks_PoolSubmit js a f hs
  have hud : (a.step js (.dispatch f)).unsettled a.next_deferred = 1 := by
    simp only [Application.step, Application.Dispatch_ok a f [] hs.1]
    simp only [Application.unsettled, List.map_append, List.count_append, List.map_cons,
      List.map_nil, List.count_cons, List.count_nil, n1, n2, n3]
    simp
  have hup : (a.step js (.poolSubmit f)).unsettled a.next_deferred = 1 := by
    simp only [Application.step, Application.PoolSubmit_ok a f [] hs.1]
    simp only [Application.unsettled, List.map_append, List.count_append, List.map_cons,
      List.map_nil, List.count_cons, List.count_nil, n1, n2, n3]
    simp
  refine ⟨⟨?_, ?_, ?_, ?_⟩, ⟨?_, ?_, ?_, ?_⟩, rfl, fun value err => ⟨rfl, rfl⟩,
    Application.awaiting_run js trace a hs, rfl, ?_, ?_, ?_, ?_⟩
  · simp only [Application.step, Application.Dispatch_ok a f [] hs.1]
  · rw [Application.tracks_settlements js _ f _ htd, hud]
    simp
  · exact Application.tracks_settlements js _ f _
      (Application.tracks_run js _ f trace _ hsd htd)
  · obtain ⟨d1, d2⟩ := Application.run_drainDispatch js
      (a.step js (.dispatch f)).dispatch_queue_.length _ hsd
    apply Application.settled_after_drains js _ f _ _ hsd htd
    · rw [d1]
      simp
    · rw [d2]
      simp only [Application.step, Application.Dispatch_ok a f [] hs.1]
      exact n2
  · simp only [Application.step, Application.PoolSubmit_ok a f [] hs.1]
  · rw [Application.tracks_settlements js _ f _ htp, hup]
    simp
  · exact Application.tracks_settlements js _ f _
      (Application.tracks_run js _ f trace _ hsp htp)
  · obtain ⟨d1, d2⟩ := Application.run_drainPool js
      (a.step js (.poolSubmit f)).pool_queue_.length _ hsp
    apply Application.settled_after_drains js _ f _ _ hsp htp
    · rw [d2]
      simp only [Application.step, Application.PoolSubmit_ok a f [] hs.1]
      exact n1
    · rw [d1]
      simp
  · simp only [Application.step, Application.Post_ok a f [] hs.1]
  · simp only [Application.step, Application.Post_ok a f [] hs.1]
    rfl
  · simp only [Application.step, Application.PoolEmplace_ok a f [] hs.1]
  · simp only [Application.step, Application.PoolEmplace_ok a f [] hs.1]
    simp [Application.awaiting, List.filter_append]

/-- C14, witness: on a new application, `dispatch` with a host function that throws and
`poolSubmit` with one that returns 7; after one run of the drain callback and one return to the
host loop the first deferred has been rejected once with the error thrown and the second
resolved once with 7. -/
theorem C14_deferred_is_settled_exactly_once_witness :
    Application.Sound { app_ := some 1 } ∧
    ((({ app_ := some 1 } : Application).step
          (fun ref => if ref = 10 then .throws (.error "boom") else .returns (.number 7))
          (.dispatch 10)).run
        (fun ref => if ref = 10 then .throws (.error "boom") else .returns (.number 7))
        [.drainDispatch, .hostLoop]).settlements 0 = [.Reject (.error "boom")] ∧
    ((({ app_ := some 1 } : Application).step
          (fun ref => if ref = 10 then .throws (.error "boom") else .returns (.number 7))
          (.poolSubmit 11)).run
        (fun ref => if ref = 10 then .throws (.error "boom") else .returns (.number 7))
        [.drainPool, .hostLoop]).settlements 0 = [.Resolve (.number 7)] :=
  have h1 := C14_deferred_is_settled_exactly_once
    (fun ref => if ref = 10 then .throws (.error "boom") else .returns (.number 7))
    { app_ := some 1 } 10 [] (Application.sound_new 1)
  have h2 := C14_deferred_is_settled_exactly_once
    (fun ref => if ref = 10 then .throws (.error "boom") else .returns (.number 7))
    { app_ := some 1 } 11 [] (Application.sound_new 1)
  ⟨Application.sound_new 1, h1.1.2.2.2, h2.2.1.2.2.2⟩

/-- C15 (defect in the code).  The destructor removes the instance from the table of
`FromHandle`, empties `exposed_callbacks_` and `scheme_handlers_` and releases the thread-safe
function of each of their entries and the one of `onMessage`; these are all the releases it
performs.  The thread-safe functions of the event registrations are not among them: the
destructor does not mention `event_callbacks_`.  On an instance with one `resize` handler
(thread-safe function 0), one exposed function (1) and one scheme handler (2), destruction
releases 1 and 2 only, and a call on 0 is still accepted afterwards. -/
theorem C15_destructor_releases_no_event_invoker :
    (∀ (instances_ : List (Nat × Nat)) (w : Webview) (handle : Nat),
      FromHandle (({ w with webview_ := some handle }).destructor instances_).1 handle = none) ∧
    (∀ (instances_ : List (Nat × Nat)) (w : Webview),
      (w.destructor instances_).2.exposed_callbacks_ = [] ∧
      (w.destructor instances_).2.scheme_handlers_ = [] ∧
      (w.destructor instances_).2.released
        = w.released ++ w.exposed_callbacks_.map (·.tsfn)
            ++ w.scheme_handlers_.filterMap (·.tsfn) ++ w.message_tsfn_.toList) ∧
    ∃ w1 w2 w3 : Webview,
      ({ webview_ := some 1 } : Webview).On [.string "resize", .function 10] 31 = .ok w1 ∧
      w1.Expose [.string "f", .function 11] = .ok w2 ∧
      w2.HandleScheme [.string "app", .function 12] = .ok w3 ∧
      w3.registrations.map (·.tsfn) = [0] ∧
      w3.exposed_callbacks_.map (·.tsfn) = [1] ∧
      w3.scheme_handlers_.map (·.tsfn) = [some 2] ∧
      FromHandle (recordInstance [] 1 7) 1 = some 7 ∧
      FromHandle (w3.destructor (recordInstance [] 1 7)).1 1 = none ∧
      (w3.destructor (recordInstance [] 1 7)).2.exposed_callbacks_ = [] ∧
      (w3.destructor (recordInstance [] 1 7)).2.scheme_handlers_ = [] ∧
      (w3.destructor (recordInstance [] 1 7)).2.released = [1, 2] ∧
      ((w3.destructor (recordInstance [] 1 7)).2.BlockingCall
        { tsfn := 0, callback := 10, kind := .emit }).1 = true := by
  refine ⟨fun instances_ w handle => ?_, fun instances_ w => ?_, ?_⟩
  · rw [destructor_instances instances_ _ handle rfl]
    exact FromHandle_erased instances_ handle
  · have h := destructor_fields instances_ w
    exact ⟨h.1, h.2.1, h.2.2.1⟩
  · exact ⟨_, _, _, rfl, rfl, rfl, by decide, by decide, by decide, by decide, by decide,
      by decide, by decide, by decide, by decide⟩

/-- C16 (defect in the code).  `clearExposed(name)` keeps exactly the entries of
`exposed_callbacks_` whose name differs from `name`, in their order, and `clearExposed()`
empties the list; but neither calls `Release`: the log of releases is the same before and
after.  With `f`, `g`, `f` exposed (thread-safe functions 0, 1, 2), `clearExposed("f")` leaves
`g` and releases nothing, and the destructor then releases 1 only, so 0 and 2 are never
released. -/
theorem C16_clearExposed_releases_no_invoker :
    (∀ (w : Webview) (handle : Nat) (name : String),
      ({ w with webview_ := some handle }).ClearExposed [.string name]
        = .ok { w with
            webview_ := some handle
            native := w.native ++ [.clear_exposed (some name)]
            exposed_callbacks_ := w.exposed_callbacks_.filter fun cb => decide (cb.name ≠ name)
            released := w.released }) ∧
    (∀ (w : Webview) (handle : Nat),
      ({ w with webview_ := some handle }).ClearExposed []
        = .ok { w with
            webview_ := some handle
            native := w.native ++ [.clear_exposed none]
            exposed_callbacks_ := []
            released := w.released }) ∧
    ∃ w1 w2 w3 w4 w5 : Webview,
      ({ webview_ := some 1 } : Webview).Expose [.string "f", .function 10] = .ok w1 ∧
      w1.Expose [.string "g", .function 11] = .ok w2 ∧
      w2.Expose [.string "f", .function 12] = .ok w3 ∧
      w3.exposed_callbacks_
        = [{ name := "f", tsfn := 0 }, { name := "g", tsfn := 1 }, { name := "f", tsfn := 2 }] ∧
      w3.ClearExposed [.string "f"] = .ok w4 ∧
      w4.exposed_callbacks_ = [{ name := "g", tsfn := 1 }] ∧
      w4.released = [] ∧
      (w4.destructor []).2.released = [1] ∧
      w3.ClearExposed [] = .ok w5 ∧
      w5.exposed_callbacks_ = [] ∧
      w5.released = [] ∧
      (w5.destructor []).2.released = [] := by
  refine ⟨fun w handle name => ?_, fun w handle => rfl, ?_⟩
  · unfold ClearExposed
    simp
  · exact ⟨_, _, _, _, _, rfl, rfl, rfl, by decide, rfl, by decide, by decide, by decide, rfl,
      by decide, by decide, by decide⟩

/-- C17.  On an instance whose registry is in order (`Registered`, which holds on every
instance that registrations and emissions can produce), for a supported event name:
`RegisterEvent` succeeds and puts the new entry at the end of the list of the event;
`EmitEvent` and `EvaluatePolicy` queue one call for each entry of the list, in the order of
the list, behind the calls already queued; so after the registration the call for the new
handler comes after the calls for all handlers registered before it, and the host thread runs
the queued calls in that order. -/
theorem C17_handlers_are_dispatched_in_registration_order (w : Webview) (event : String)
    (cb : Nat) (once : Bool) (nativeId : Nat) (hreg : Registered w)
    (hsup : (MapWindowEventName event).isSome = true ∨ (MapWebEventName event).isSome = true) :
    (w.RegisterEvent event cb once nativeId).1 = true ∧
    findCallbacks event (w.RegisterEvent event cb once nativeId).2.event_callbacks_
      = some ((findCallbacks event w.event_callbacks_).getD [] ++
          [{ tsfn := w.next_tsfn, id := if once then 0 else nativeId, once := once,
             callback_ref := cb }]) ∧
    (w.EmitEvent event).queue = w.queue ++
      ((findCallbacks event w.event_callbacks_).getD []).map (fun d =>
        { tsfn := d.tsfn, callback := d.callback_ref, kind := .emit }) ∧
    (w.EvaluatePolicy event).2.queue = w.queue ++
      ((findCallbacks event w.event_callbacks_).getD []).map (fun d =>
        { tsfn := d.tsfn, callback := d.callback_ref, kind := .policy w.cells.length }) ∧
    ((w.RegisterEvent event cb once nativeId).2.EmitEvent event).queue = w.queue ++
      ((findCallbacks event w.event_callbacks_).getD [] ++
          [({ tsfn := w.next_tsfn, id := if once then 0 else nativeId, once := once,
              callback_ref := cb } : CallbackData)]).map (fun d =>
        { tsfn := d.tsfn, callback := d.callback_ref, kind := .emit }) ∧
    ((w.RegisterEvent event cb once nativeId).2.EvaluatePolicy event).2.queue = w.queue ++
      ((findCallbacks event w.event_callbacks_).getD [] ++
          [({ tsfn := w.next_tsfn, id := if once then 0 else nativeId, once := once,
              callback_ref := cb } : CallbackData)]).map (fun d =>
        { tsfn := d.tsfn, callback := d.callback_ref, kind := .policy w.cells.length }) ∧
    ∀ js : Nat → CallResult,
      (((w.RegisterEvent event cb once nativeId).2.EmitEvent event).runPending js).invoked
        = w.invoked ++ w.queue.map (·.tsfn) ++
          ((findCallbacks event w.event_callbacks_).getD []).map (·.tsfn) ++ [w.next_tsfn] := by
  obtain ⟨s1, s2, _, _, s5, s6⟩ := RegisterEvent_supported w event cb once nativeId hsup
  have hreg1 := registered_RegisterEvent w event cb once nativeId hreg
  have hfind : findCallbacks event (w.RegisterEvent event cb once nativeId).2.event_callbacks_
      = some ((findCallbacks event w.event_callbacks_).getD [] ++
          [{ tsfn := w.next_tsfn, id := if once then 0 else nativeId, once := once,
             callback_ref := cb }]) := by
    rw [s2, findCallbacks_storeCallbacks_same]
  have he := EmitEvent_queue_all _ hreg1 event
  have hp := EvaluatePolicy_queue_all _ hreg1 event
  rw [hfind, s5] at he
  rw [hfind, s5, RegisterEvent_cells] at hp
  refine ⟨s1, hfind, EmitEvent_queue_all w hreg event, EvaluatePolicy_queue_all w hreg event,
    he, hp, fun js => ?_⟩
  rw [(runPending_fields js _).1, he, EmitEvent_invoked, s6]
  simp [List.map_append, Function.comp_def]

/-- C17, witness: a fourth handler (host function 3) registered for `close` behind the three
of `threeCloseHandlers`; an emission queues the calls for the host functions 0, 1, 2, 3 in
this order. -/
theorem C17_handlers_are_dispatched_in_registration_order_witness :
    Registered threeCloseHandlers ∧
    ((MapWindowEventName "close").isSome = true ∨ (MapWebEventName "close").isSome = true) ∧
    ((threeCloseHandlers.RegisterEvent "close" 3 false 14).2.EmitEvent "close").queue
      = [{ tsfn := 0, callback := 0, kind := .emit }, { tsfn := 1, callback := 1, kind := .emit },
         { tsfn := 2, callback := 2, kind := .emit },
         { tsfn := 3, callback := 3, kind := .emit }] :=
  have h := C17_handlers_are_dispatched_in_registration_order threeCloseHandlers "close" 3 false
    14 registered_threeCloseHandlers (by decide)
  ⟨registered_threeCloseHandlers, by decide, h.2.2.2.2.1.trans (by decide)⟩

/-- C18.  On an instance whose registry is in order, `EvaluatePolicy` queues one call for
every entry of the list of the event, as many calls as the list is long, and the host thread
then runs every one of them whatever the host functions do: the calls run do not depend on
`js`, so a handler that vetoes or throws does not keep the later handlers from being
called. -/
theorem C18_EvaluatePolicy_dispatches_to_every_handler (js : Nat → CallResult) (w : Webview)
    (event : String) (hreg : Registered w) :
    (w.EvaluatePolicy event).2.queue = w.queue ++
      ((findCallbacks event w.event_callbacks_).getD []).map (fun d =>
        { tsfn := d.tsfn, callback := d.callback_ref, kind := .policy w.cells.length }) ∧
    (w.EvaluatePolicy event).2.queue.length
      = w.queue.length + ((findCallbacks event w.event_callbacks_).getD []).length ∧
    ((w.EvaluatePolicy event).2.runPending js).invoked
      = w.invoked ++ w.queue.map (·.tsfn) ++
          ((findCallbacks event w.event_callbacks_).getD []).map (·.tsfn) ∧
    ((w.EvaluatePolicy event).2.runPending js).queue = [] := by
  have hp := EvaluatePolicy_queue_all w hreg event
  refine ⟨hp, ?_, ?_, (runPending_fields js _).2.1⟩
  · rw [hp]
    simp
  · rw [(runPending_fields js _).1, hp, EvaluatePolicy_invoked]
    simp [List.map_append, Function.comp_def]

/-- C18, witness: three handlers for `close` of which the second vetoes; all three are
called. -/
theorem C18_EvaluatePolicy_dispatches_to_every_handler_witness :
    Registered threeCloseHandlers ∧
    (threeCloseHandlers.EvaluatePolicy "close").2.queue.length = 3 ∧
    ((threeCloseHandlers.EvaluatePolicy "close").2.runPending secondVetoes).invoked
      = [0, 1, 2] :=
  have h := C18_EvaluatePolicy_dispatches_to_every_handler secondVetoes threeCloseHandlers
    "close" registered_threeCloseHandlers
  ⟨registered_threeCloseHandlers, h.2.1.trans (by decide), h.2.2.1.trans (by decide)⟩

/-- C19.  `RegisterEvent` returns `true` exactly for the seven window names and the six web
names; `MapWindowEventName` accepts exactly the former and `MapWebEventName` exactly the
latter, and no name is in both lists.  For any other name `RegisterEvent` returns `false` with
the instance as it was (no registration, no thread-safe function, no native subscription), and
`on` and `once` throw `Unsupported event: ` followed by the name.  The comparison is exact: the
same word in another letter case is not accepted. -/
theorem C19_RegisterEvent_accepts_exactly_the_event_names (w : Webview) (event : String)
    (cb : Nat) (once : Bool) (nativeId : Nat) :
    (w.RegisterEvent event cb once nativeId).1
      = decide (event ∈ ["decorated", "maximize", "minimize", "closed", "resize", "focus",
          "close", "dom-ready", "navigated", "navigate", "favicon", "title", "load"]) ∧
    (MapWindowEventName event).isSome
      = decide (event ∈ ["decorated", "maximize", "minimize", "closed", "resize", "focus",
          "close"]) ∧
    (MapWebEventName event).isSome
      = decide (event ∈ ["dom-ready", "navigated", "navigate", "favicon", "title", "load"]) ∧
    (["decorated", "maximize", "minimize", "closed", "resize", "focus", "close"].filter
      (fun name => decide (name ∈ ["dom-ready", "navigated", "navigate", "favicon", "title",
        "load"]))) = [] ∧
    (event ∈ ["decorated", "maximize", "minimize", "closed", "resize", "focus",
          "close", "dom-ready", "navigated", "navigate", "favicon", "title", "load"] ∨
      (w.RegisterEvent event cb once nativeId = (false, w) ∧
       w.On [.string event, .function cb] nativeId
         = .error (.error ("Unsupported event: " ++ event)) ∧
       w.Once [.string event, .function cb] nativeId
         = .error (.error ("Unsupported event: " ++ event)))) ∧
    w.RegisterEvent "Resize" cb once nativeId = (false, w) ∧
    w.RegisterEvent "CLOSE" cb once nativeId = (false, w) ∧
    w.RegisterEvent "Dom-Ready" cb once nativeId = (false, w) ∧
    w.On [.string "Load", .function cb] nativeId = .error (.error "Unsupported event: Load") := by
  have hw : (MapWindowEventName event).isSome
      = decide (event ∈ ["decorated", "maximize", "minimize", "closed", "resize", "focus",
          "close"]) := by
    unfold MapWindowEventName
    split_ifs <;> simp_all
  have hb : (MapWebEventName event).isSome
      = decide (event ∈ ["dom-ready", "navigated", "navigate", "favicon", "title", "load"]) := by
    unfold MapWebEventName
    split_ifs <;> simp_all
  have hr : (w.RegisterEvent event cb once nativeId).1
      = ((MapWindowEventName event).isSome || (MapWebEventName event).isSome) := by
    unfold RegisterEvent
    simp only
    cases h1 : MapWindowEventName event with
    | some we => simp
    | none =>
      cases h2 : MapWebEventName event with
      | some ev => simp
      | none => simp
  refine ⟨?_, hw, hb, by decide, ?_,
    RegisterEvent_unsupported w _ cb once nativeId (by decide) (by decide),
    RegisterEvent_unsupported w _ cb once nativeId (by decide) (by decide),
    RegisterEvent_unsupported w _ cb once nativeId (by decide) (by decide),
    On_unsupported w _ cb nativeId (by decide) (by decide)⟩
  · rw [hr, hw, hb]
    simp only [List.mem_cons, List.mem_singleton, List.not_mem_nil, or_false, Bool.decide_or,
      Bool.or_assoc]
  · by_cases hm : event ∈ ["decorated", "maximize", "minimize", "closed", "resize", "focus",
          "close", "dom-ready", "navigated", "navigate", "favicon", "title", "load"]
    · exact Or.inl hm
    · right
      have h1 : (MapWindowEventName event).isSome = false := by
        rw [hw]
        simp only [decide_eq_false_iff_not]
        intro hc
        exact hm (by simp only [List.mem_cons, List.mem_singleton, List.not_mem_nil] at hc ⊢; tauto)
      have h2 : (MapWebEventName event).isSome = false := by
        rw [hb]
        simp only [decide_eq_false_iff_not]
        intro hc
        exact hm (by simp only [List.mem_cons, List.mem_singleton, List.not_mem_nil] at hc ⊢; tauto)
      have h1' : MapWindowEventName event = none := by
        cases h : MapWindowEventName event with
        | none => rfl
        | some we => simp [h] at h1
      have h2' : MapWebEventName event = none := by
        cases h : MapWebEventName event with
        | none => rfl
        | some ev => simp [h] at h2
      exact ⟨RegisterEvent_unsupported w event cb once nativeId h1' h2',
        On_unsupported w event cb nativeId h1' h2', Once_unsupported w event cb nativeId h1' h2'⟩

/-- C20.  The lambda of the exposed-function trampoline calls the host function with
`Expose.arguments` of the parsed parameter text: the elements of a parsed array, as many as the
array has and in its order; the parsed value itself, alone, when it is neither an array nor
`null` nor `undefined` (a number, a string, a boolean, an object); and no argument for `null`
and `undefined`.  The parameter text the trampoline writes is always the array of the
parameters of the call, so the host function of an invocation with `n` parameters receives
`n` arguments.  That the host function is called, and with these arguments, shows in what the
execution handle gets: the completion is the one that belongs to the result of the host
function at exactly `Expose.arguments (ParseJson params)`; a host function that throws the
number of its arguments has the handle rejected with the length of that list; and a host
function that tells `(5, "b")` from `("b", 5)` sees the parameters in the order of the call. -/
theorem C20_parsed_parameters_become_the_arguments (jsCallback : List JsValue → CallResult) :
    (∀ items : List JsonText,
      Expose.arguments (ParseJson (.arr items)) = items.map JSON_parse ∧
      (Expose.arguments (ParseJson (.arr items))).length = items.length) ∧
    (∀ items : List JsValue, Expose.arguments (.array items) = items) ∧
    (∀ v : JsValue,
      v.IsArray = true ∨ v.IsNull = true ∨ v.IsUndefined = true ∨ Expose.arguments v = [v]) ∧
    (∀ (n : Int) (s : String) (b : Bool) (members : List (String × JsonText)),
      Expose.arguments (ParseJson (.num n)) = [.number n] ∧
      Expose.arguments (ParseJson (.str s)) = [.string s] ∧
      Expose.arguments (ParseJson (.bool b)) = [.boolean b] ∧
      Expose.arguments (ParseJson (.obj members)) = [ParseJson (.obj members)]) ∧
    Expose.arguments (ParseJson .null) = [] ∧
    Expose.arguments .null = [] ∧
    Expose.arguments .undefined = [] ∧
    (∀ params : JsonText,
      Expose.callJs jsCallback params
        = Expose.callJs (fun _ => jsCallback (Expose.arguments (ParseJson params))) params) ∧
    (∀ params : List json_t,
      Expose.handler true jsCallback params
        = Expose.handler true
            (fun _ => jsCallback (params.map fun d => JSON_parse (glz.write_json d))) params) ∧
    (∀ params : JsonText,
      Expose.callJs jsCallback params =
        match jsCallback (Expose.arguments (ParseJson params)) with
        | .throws err => Expose.reject_with err
        | .returns result => Expose.callJs (fun _ => .returns result) params) ∧
    (∀ params : JsonText,
      Expose.callJs (fun args => .throws (.number args.length)) params
        = ([.reject (.json (.num (Expose.arguments (ParseJson params)).length))], none)) ∧
    (∀ items : List JsonText,
      Expose.callJs (fun args => .throws (.number args.length)) (.arr items)
        = ([.reject (.json (.num items.length))], none)) ∧
    (∀ params : List json_t,
      Expose.handler true (fun args => .throws (.number args.length)) params
        = [.reject (.json (.num params.length))]) ∧
    Expose.callJs (fun args => match args with
        | [v] => .throws v
        | _ => .returns .undefined) (.num 7) = ([.reject (.json (.num 7))], none) ∧
    Expose.callJs (fun args => .throws (.number args.length)) .null
      = ([.reject (.json (.num 0))], none) ∧
    Expose.handler true
        (fun args => match args with
          | [.number 5, .string "b"] => .throws (.string "in order")
          | _ => .returns .undefined) [.number 5, .string "b"]
      = [.reject (.json (.str "in order"))] ∧
    Expose.handler true
        (fun args => match args with
          | [.number 5, .string "b"] => .throws (.string "in order")
          | _ => .returns .undefined) [.string "b", .number 5]
      = [.resolve .null] := by
  refine ⟨fun items => ?_, fun items => rfl, fun v => ?_, fun n s b members => ?_, rfl, rfl, rfl,
    fun params => callJs_arguments jsCallback params, fun params => ?_, fun params => ?_,
    callJs_argument_count, fun items => ?_, handler_argument_count, rfl, rfl, rfl, rfl⟩
  · have h : Expose.arguments (ParseJson (.arr items)) = items.map JSON_parse := by
      simp [ParseJson, JSON_parse, Expose.arguments, JSON_parseArray_eq_map]
    exact ⟨h, by rw [h, List.length_map]⟩
  · cases v <;> simp [Expose.arguments, JsValue.IsArray, JsValue.IsNull, JsValue.IsUndefined]
  · simp [ParseJson, JSON_parse, Expose.arguments, JsValue.IsNull, JsValue.IsUndefined]
  · unfold Expose.handler
    simp only [if_true]
    rw [callJs_arguments]
    simp [ParseJson, glz.write_json, JSON_parse, Expose.arguments, JSON_parseArray_eq_map,
      write_jsonArray_eq_map, List.map_map, Function.comp_def]
  · simp only [Expose.callJs]
  · have h : Expose.arguments (ParseJson (.arr items)) = items.map JSON_parse := by
      simp [ParseJson, JSON_parse, Expose.arguments, JSON_parseArray_eq_map]
    rw [callJs_argument_count, h, List.length_map]

/-- C21, counterexample.  A function is neither `null` nor `undefined` and has no `message`,
and `JSON.stringify` has no text for it: `StringifyForRPC` computes no reason but throws, and a
host callback that throws the function has its execution handle rejected with the text of
`Failed to stringify RPC value`, which is not what `JSON.stringify` makes of the function. -/
theorem C21_counterexample_function_has_no_json_text :
    (JsValue.function 7).IsUndefined = false ∧ (JsValue.function 7).IsNull = false ∧
    (JsValue.function 7).getProp "message" = none ∧
    JSON_stringify (.function 7) = .ok none ∧
    StringifyForRPC (.function 7) = .error (.error "Failed to stringify RPC value") ∧
    (¬ ∃ text, StringifyForRPC (.function 7) = .ok text) ∧
    Expose.reject_with (.function 7)
      = ([.reject (.json (.str "Failed to stringify RPC value"))], none) ∧
    (Expose.callJs (fun _ => .throws (.function 7)) (.arr [])).1
      = [.reject (.json (.str "Failed to stringify RPC value"))] := by
  refine ⟨rfl, rfl, rfl, rfl, rfl, ?_, rfl, rfl⟩
  rintro ⟨text, h⟩
  cases h

/-- C21 (amended).  The reason computed by `StringifyForRPC` is the text `null` for `null`
and `undefined`; the text of the string `message` for an object with such a property; and for
every other value what `JSON.stringify` makes of it when that is a text, while the function
throws `Failed to stringify RPC value` when `JSON.stringify` gives `undefined`, and throws what
`JSON.stringify` throws.  Whenever `StringifyForRPC` returns a text, the execution handle is
rejected with exactly that text, once, both when the host callback throws the value and when
the promise it returned is rejected with the value.  When `StringifyForRPC` throws, a callback
that throws the value has its handle rejected with the reason computed in the same way from
the error thrown. -/
theorem C21_rejection_reason_of_StringifyForRPC (value : JsValue) :
    (((value.IsUndefined = true ∨ value.IsNull = true) ∧ StringifyForRPC value = .ok .null) ∨
     (value.IsUndefined = false ∧ value.IsNull = false ∧ value.IsObject = true ∧
        ∃ m, value.getProp "message" = some (.string m) ∧
          JSON_stringify (.string m) = .ok (some (.str m)) ∧
          StringifyForRPC value = .ok (.str m)) ∨
     (value.IsUndefined = false ∧ value.IsNull = false ∧
        (value.IsObject = false ∨
          (value.getProp "message").all (fun m => !m.IsString) = true) ∧
        ((∃ text, JSON_stringify value = .ok (some text) ∧ StringifyForRPC value = .ok text) ∨
         (JSON_stringify value = .ok none ∧
            StringifyForRPC value = .error (.error "Failed to stringify RPC value")) ∨
         (∃ e, JSON_stringify value = .error e ∧ StringifyForRPC value = .error e)))) ∧
    ((∃ text, StringifyForRPC value = .ok text ∧
        Expose.reject_with value = ([.reject (.json text)], none) ∧
        Expose.on_reject value = ([.reject (.json text)], none) ∧
        ∀ params : JsonText,
          (Expose.callJs (fun _ => .throws value) params).1 = [.reject (.json text)] ∧
          (Expose.callJs (fun _ => .returns (.promiseRejects value)) params).1
            = [.reject (.json text)]) ∨
     (∃ err, StringifyForRPC value = .error err ∧
        Expose.reject_with value =
          match StringifyForRPC err with
          | .ok text => ([.reject (.json text)], none)
          | .error e => ([], some e))) := by
  constructor
  · cases h1 : value.IsUndefined with
    | true => exact Or.inl ⟨Or.inl rfl, StringifyForRPC_null value (Or.inl h1)⟩
    | false =>
      cases h2 : value.IsNull with
      | true => exact Or.inl ⟨Or.inr rfl, StringifyForRPC_null value (Or.inr h2)⟩
      | false =>
        right
        by_cases hm : value.IsObject = true ∧ ∃ m, value.getProp "message" = some (.string m)
        · obtain ⟨h3, m, h4⟩ := hm
          exact Or.inl ⟨rfl, rfl, h3, m, h4, rfl, StringifyForRPC_message value m h1 h2 h3 h4⟩
        · right
          have h3 : value.IsObject = false ∨
              (value.getProp "message").all (fun m => !m.IsString) = true := by
            cases ho : value.IsObject with
            | false => exact Or.inl rfl
            | true =>
              right
              cases hg : value.getProp "message" with
              | none => rfl
              | some msg =>
                cases msg with
                | string m => exact absurd ⟨ho, m, hg⟩ hm
                | _ => rfl
          refine ⟨rfl, rfl, h3, ?_⟩
          have h := StringifyForRPC_otherwise value h1 h2 h3
          cases hs : JSON_stringify value with
          | error e =>
            rw [hs] at h
            exact Or.inr (Or.inr ⟨e, rfl, h⟩)
          | ok r =>
            cases r with
            | none =>
              rw [hs] at h
              exact Or.inr (Or.inl ⟨rfl, h⟩)
            | some text =>
              rw [hs] at h
              exact Or.inl ⟨text, rfl, h⟩
  · cases hs : StringifyForRPC value with
    | ok text =>
      obtain ⟨a, b, c⟩ := reject_with_of_ok value text hs
      exact Or.inl ⟨text, rfl, a, b, c⟩
    | error err =>
      right
      refine ⟨err, rfl, ?_⟩
      simp only [Expose.reject_with, hs]

/-- C22, counterexample.  `execute` and `evaluate` with one argument, `undefined`, throw the
error of `CollectJsonArgs` and make no native call; with nine arguments of which one is a
function they throw that error too, not a range error. -/
theorem C22_counterexample_argument_without_json_text :
    (Webview.Execute (some 1) [.string "run()", .undefined]).calls.length = 0 ∧
    (Webview.Evaluate (some 1) [.string "run()", .undefined]).calls.length = 0 ∧
    (∃ e, (Webview.Execute (some 1) [.string "run()", .undefined]).thrown
      = some (.rethrown e)) ∧
    (∃ e, (Webview.Evaluate (some 1) [.string "run()", .undefined]).thrown
      = some (.rethrown e)) ∧
    (∃ e, (Webview.Execute (some 1)
        [.string "run()", .function 3, .number 2, .number 3, .number 4, .number 5, .number 6,
          .number 7, .number 8, .number 9]).thrown = some (.rethrown e)) := by
  exact ⟨rfl, rfl, ⟨_, rfl⟩, ⟨_, rfl⟩, ⟨_, rfl⟩⟩

/-- C22 (amended).  For an instance with its native handle, a code string and any further
arguments, one of three things happens, the same for `execute` and `evaluate`.  Every argument
has a JSON text and there are at most eight: no exception, and exactly one native call, which
carries the code and the documents of all the arguments in their order (`execute` without
arguments makes the plain call with the code).  Every argument has a JSON text and there are
more than eight: a `RangeError` and no native call.  Some argument has no JSON text: the error
of `CollectJsonArgs` is thrown and no native call is made, whatever the number of
arguments. -/
theorem C22_scripts_take_at_most_eight_serialisable_arguments (handle : Nat) (code : String)
    (rest : List JsValue) :
    (∃ docs, serialisedArguments rest = some docs ∧ docs.length = rest.length ∧
      rest.length ≤ 8 ∧
      (Webview.Execute (some handle) (.string code :: rest)).thrown.isNone = true ∧
      (Webview.Execute (some handle) (.string code :: rest)).calls.length = 1 ∧
      (∀ call ∈ (Webview.Execute (some handle) (.string code :: rest)).calls,
        (rest = [] ∧ call = .saucer_webview_execute code) ∨ call = .execute code docs) ∧
      (Webview.Evaluate (some handle) (.string code :: rest)).thrown.isNone = true ∧
      (Webview.Evaluate (some handle) (.string code :: rest)).calls.length = 1 ∧
      (∀ call ∈ (Webview.Evaluate (some handle) (.string code :: rest)).calls,
        call = .evaluate code docs)) ∨
    (∃ docs, serialisedArguments rest = some docs ∧ 8 < rest.length ∧
      (Webview.Execute (some handle) (.string code :: rest)).calls.length = 0 ∧
      (Webview.Execute (some handle) (.string code :: rest)).thrown
        = some (.RangeError "Too many arguments for execute") ∧
      (Webview.Evaluate (some handle) (.string code :: rest)).calls.length = 0 ∧
      (Webview.Evaluate (some handle) (.string code :: rest)).thrown
        = some (.RangeError "Too many arguments for evaluate")) ∨
    (serialisedArguments rest = none ∧
      (Webview.Execute (some handle) (.string code :: rest)).calls.length = 0 ∧
      (∃ e, (Webview.Execute (some handle) (.string code :: rest)).thrown
        = some (.rethrown e)) ∧
      (Webview.Evaluate (some handle) (.string code :: rest)).calls.length = 0 ∧
      (∃ e, (Webview.Evaluate (some handle) (.string code :: rest)).thrown
        = some (.rethrown e))) := by
  obtain ⟨l1, l2⟩ := CollectJsonArgs_loop_serialised rest []
  have hc := CollectJsonArgs_after_code code rest
  cases hs : serialisedArguments rest with
  | none =>
    obtain ⟨e, he⟩ := l2 hs
    right; right
    have hne : rest ≠ [] := by
      intro h
      rw [h] at hs
      simp [serialisedArguments] at hs
    have hlen : rest.length + 1 > 1 := by
      cases rest with
      | nil => exact absurd rfl hne
      | cons v tail => simp
    refine ⟨rfl, ?_, ⟨e, ?_⟩, ?_, ⟨e, ?_⟩⟩ <;>
      simp [Webview.Execute, Webview.Evaluate, hc, he, hlen]
  | some docs =>
    obtain ⟨hok, hlen⟩ := l1 docs hs
    simp only [List.nil_append] at hok
    by_cases h8 : rest.length ≤ 8
    · left
      refine ⟨docs, rfl, hlen, h8, ?_⟩
      cases rest with
      | nil =>
        simp only [serialisedArguments, Option.some.injEq] at hs
        subst hs
        simp [Webview.Execute, Webview.Evaluate, CollectJsonArgs]
      | cons v tail =>
        have h1 : 1 ≤ docs.length ∧ docs.length ≤ 8 := by
          rw [hlen]
          simp only [List.length_cons] at h8 ⊢
          omega
        simp [Webview.Execute, Webview.Evaluate, hc, hok, h1]
    · right; left
      have h9 : ¬ (1 ≤ docs.length ∧ docs.length ≤ 8) := by
        rw [hlen]
        omega
      have h9b : ¬ docs.length ≤ 8 := by
        rw [hlen]
        exact h8
      have hl : rest.length + 1 > 1 := by omega
      refine ⟨docs, rfl, by omega, ?_, ?_, ?_, ?_⟩ <;>
        simp [Webview.Execute, Webview.Evaluate, hc, hok, h9, h9b, hl]

/-- C23.  `format_runtime` cuts the template at its placeholders `{}`, read from left to
right, and puts the pieces together again with the serialised arguments in the gaps, the i-th
argument in the i-th gap: a gap for which no argument is left gets `{}` back, arguments for
which no gap is left are dropped, and every piece is copied as it is.  The pieces with `{}`
between them are the template and no piece contains `{}`, so the gaps are exactly the
occurrences of `{}`.  Without arguments the output is the template.  What is inserted is not
looked at again: with the template `{}` and a first argument whose text is `{}` the output is
`{}` whatever the second argument is.  `execute` and `evaluate` hand on this text. -/
theorem C23_format_runtime_fills_placeholders_in_order (render : JsonText → List Char)
    (code : List Char) (params : List json_t) :
    saucer_handle.format_runtime render code params
      = fillPlaceholders (placeholderPieces code)
          (params.map fun a => render (glz.write_json a)) ∧
    fillPlaceholders (placeholderPieces code) [] = code ∧
    (∀ p ∈ placeholderPieces code, ¬ ['{', '}'] <:+: p) ∧
    placeholderPieces code ≠ [] ∧
    saucer_handle.format_runtime render code [] = code ∧
    saucer_handle.format_runtime render code params
      = saucer_handle.format_runtime render code
          (params.take ((placeholderPieces code).length - 1)) ∧
    saucer_handle.execute render code params
      = saucer_handle.format_runtime render code params ∧
    saucer_handle.evaluate.formatted render code params
      = saucer_handle.format_runtime render code params ∧
    (∀ text : List Char,
      saucer_handle.format_runtime.scan "{}".data ["{}".data, text] = "{}".data) ∧
    saucer_handle.format_runtime.scan "f({}, {})".data ["{}".data, "2".data]
      = "f({}, 2)".data ∧
    saucer_handle.format_runtime.scan "{}-{}-{}".data ["a".data] = "a-{}-{}".data ∧
    saucer_handle.format_runtime.scan "\x7b\x7b\x7d\x7d\x7b".data ["1".data, "2".data]
      = "\x7b1\x7d\x7b".data := by
  have h1 : saucer_handle.format_runtime render code params
      = fillPlaceholders (placeholderPieces code)
          (params.map fun a => render (glz.write_json a)) := by
    unfold saucer_handle.format_runtime
    rw [scan_eq_fill]
    rfl
  refine ⟨h1, fill_nil_texts code, placeholderPieces_free code, placeholderPieces_ne_nil code,
    scan_nil_texts code, ?_, rfl, rfl, fun text => ?_, by decide, by decide, by decide⟩
  · unfold saucer_handle.format_runtime
    rw [scan_eq_fill, scan_eq_fill, fill_take, List.map_take]
  · simp [saucer_handle.format_runtime.scan]

/-- C24 (defect in the code).  `ThreadSafeCallback::CallNonBlocking` and
`Webview::MessageCallback` free their payload exactly once on every path: the lambda frees it
when the call was scheduled, whether the host function returns or throws, and the caller frees
it when the call was refused.  The function registered by `Webview::Expose` frees its payload
in the lambda only: when the call is refused it rejects the executor and the payload is never
freed. -/
theorem C24_refused_rpc_dispatch_leaks_the_payload :
    (∀ (status_ok : Bool) (result : CallResult),
      AllocatedAndReleasedOnce (ThreadSafeCallback.CallNonBlocking status_ok result) = true) ∧
    (∀ (w : Webview) (tsfn : Nat) (status_ok : Bool) (result : CallResult),
      AllocatedAndReleasedOnce
        (Webview.MessageCallback (some { w with message_tsfn_ := some tsfn }) status_ok
          result).2 = true ∧
      (Webview.MessageCallback (some { w with message_tsfn_ := some tsfn }) status_ok
          result).1 = status_ok) ∧
    (∀ (status_ok : Bool) (result : CallResult),
      Webview.MessageCallback none status_ok result = (false, [])) ∧
    Expose.payload true = [.new, .read, .delete] ∧
    AllocatedAndReleasedOnce (Expose.payload true) = true ∧
    Expose.payload false = [.new] ∧
    (Expose.payload false).count .delete = 0 ∧
    AllocatedAndReleasedOnce (Expose.payload false) = false ∧
    Expose.handler false (fun _ => .returns .undefined) []
      = [.reject (.literal "Failed to dispatch RPC to JavaScript")] := by
  refine ⟨fun status_ok result => ?_, fun w tsfn status_ok result => ?_,
    fun status_ok result => rfl, rfl, rfl, rfl, rfl, rfl, rfl⟩
  · cases status_ok <;> cases result <;> rfl
  · cases status_ok <;> cases result <;> exact ⟨rfl, rfl⟩

/-- C25.  A forwarder call (`EmitEvent`, or `EvaluatePolicy` for `close` and `navigate`) on an
instance whose bookkeeping is in order queues one call for every entry stored under the event
name, in the order of the entries, whichever subscription made the call; and every
registration, with `on` or with `once`, makes one native subscription of its own for the
event.
So on a new instance on which the host functions `handlers` have been registered for a
supported event with `on`: there is one entry and one native subscription for each of them,
and when every subscription calls the forwarder once for a native event and the host thread
runs the queue, every entry has been invoked as many times as there are handlers. -/
theorem C25_one_native_event_invokes_each_handler_once_for_every_handler
    (js : Nat → CallResult) (w : Webview) (event : String) (handlers : List Nat)
    (hreg : Registered w)
    (hsup : (MapWindowEventName event).isSome = true ∨ (MapWebEventName event).isSome = true) :
    (w.forwarder event).queue.map (fun c => (c.tsfn, c.callback))
      = w.queue.map (fun c => (c.tsfn, c.callback)) ++
        ((findCallbacks event w.event_callbacks_).getD []).map
          (fun d => (d.tsfn, d.callback_ref)) ∧
    (∀ cb once nativeId, (w.RegisterEvent event cb once nativeId).2.native = w.native ++
      match MapWindowEventName event, MapWebEventName event with
      | some we, _ => [if once then .window_once we else .window_on we nativeId]
      | none, some ev => [if once then .webview_once ev else .webview_on ev nativeId]
      | none, none => []) ∧
    (∀ cb nativeId, (w.RegisterEvent event cb false nativeId).2.nativeSubscriptions event
      = w.nativeSubscriptions event + 1) ∧
    ((findCallbacks event (onEach event handlers).event_callbacks_).getD []).map (·.callback_ref)
      = handlers ∧
    (onEach event handlers).nativeSubscriptions event = handlers.length ∧
    (∀ d ∈ (findCallbacks event (onEach event handlers).event_callbacks_).getD [],
      (((onEach event handlers).nativeEvent event).runPending js).invoked.count d.tsfn
        = handlers.length) := by
  have hsub0 : ({} : Webview).nativeSubscriptions event = 0 := by
    unfold nativeSubscriptions
    split
    · rfl
    · split <;> rfl
  obtain ⟨r1, r2, r3, r4, r5, r6⟩ := registerEach_spec event hsup handlers {} registered_new
    (by simp [findCallbacks])
  refine ⟨?_, fun cb once nativeId => RegisterEvent_native w event cb once nativeId,
    fun cb nativeId => nativeSubscriptions_RegisterEvent w event cb nativeId hsup, ?_, ?_, ?_⟩
  · unfold forwarder
    split
    · rw [EvaluatePolicy_queue_all w hreg event]
      simp [Function.comp_def]
    · rw [EmitEvent_queue_all w hreg event]
      simp [Function.comp_def]
  · unfold onEach
    rw [r3]
    simp [findCallbacks]
  · unfold onEach
    rw [r4, hsub0]
    omega
  · unfold onEach nativeEvent
    intro d hd
    obtain ⟨_, _, i3, i4⟩ := forwarder_iterate _ event r1 r2
      ((handlers.foldl
        (fun (v : Webview) (cb : Nat) => (v.RegisterEvent event cb false (v.next_tsfn + 1)).2)
        {}).nativeSubscriptions event)
    rw [(runPending_fields js _).1, i4, r6, List.count_append, i3 d.tsfn, r5, r4, hsub0]
    have hone : (((findCallbacks event (handlers.foldl
        (fun (v : Webview) (cb : Nat) => (v.RegisterEvent event cb false (v.next_tsfn + 1)).2)
        {}).event_callbacks_).getD []).map (·.tsfn)).count d.tsfn = 1 := by
      cases hf : findCallbacks event (handlers.foldl
          (fun (v : Webview) (cb : Nat) => (v.RegisterEvent event cb false (v.next_tsfn + 1)).2)
          {}).event_callbacks_ with
      | none => rw [hf] at hd; simp at hd
      | some vec =>
        rw [hf] at hd
        simp only [Option.getD_some] at hd ⊢
        exact List.count_eq_one_of_mem (registered_snapshot _ r1 event vec hf).2
          (List.mem_map_of_mem _ hd)
    rw [hone]
    simp

/-- C25, witness: three handlers registered with `on` for `resize`; one native event makes
each of the three subscriptions call the forwarder, and the host thread then runs nine
calls, three for each handler. -/
theorem C25_one_native_event_invokes_each_handler_once_for_every_handler_witness :
    Registered ({} : Webview) ∧
    (onEach "resize" [10, 11, 12]).nativeSubscriptions "resize" = 3 ∧
    (((onEach "resize" [10, 11, 12]).nativeEvent "resize").runPending
      fun _ => .returns .undefined).invoked = [0, 1, 2, 0, 1, 2, 0, 1, 2] ∧
    (∀ d ∈ (findCallbacks "resize" (onEach "resize" [10, 11, 12]).event_callbacks_).getD [],
      (((onEach "resize" [10, 11, 12]).nativeEvent "resize").runPending
        fun _ => .returns .undefined).invoked.count d.tsfn = 3) :=
  ⟨registered_new, by decide, by decide,
    (C25_one_native_event_invokes_each_handler_once_for_every_handler
      (fun _ => .returns .undefined) {} "resize" [10, 11, 12] registered_new
      (by decide)).2.2.2.2.2⟩

/-- C26 (defect in the code).  The lambda that `OnWebFavicon` gives to `EmitEvent` frees the
icon, and `EmitEvent` runs it once for every handler.  With no instance for the handle or no
handler for `favicon` the icon is freed once, and so it is with one handler that returns.
With two handlers the second run looks at the icon after the first has freed it and frees it
again; with a handler that throws the icon is not freed at all. -/
theorem C26_icon_is_freed_once_for_every_handler :
    (∀ js, Webview.OnWebFavicon js none = [.delete]) ∧
    (∀ js, Webview.OnWebFavicon js (some {}) = [.delete]) ∧
    Webview.OnWebFavicon (fun _ => .returns .undefined)
      (some (({} : Webview).RegisterEvent "favicon" 10 false 41).2) = [.read, .delete] ∧
    Webview.OnWebFavicon (fun _ => .returns .undefined)
      (some (((({} : Webview).RegisterEvent "favicon" 10 false 41).2).RegisterEvent
        "favicon" 11 false 42).2) = [.read, .delete, .read, .delete] ∧
    ReleasedOnce (Webview.OnWebFavicon (fun _ => .returns .undefined)
      (some (((({} : Webview).RegisterEvent "favicon" 10 false 41).2).RegisterEvent
        "favicon" 11 false 42).2)) = false ∧
    (Webview.OnWebFavicon (fun _ => .returns .undefined)
      (some (((({} : Webview).RegisterEvent "favicon" 10 false 41).2).RegisterEvent
        "favicon" 11 false 42).2)).count .delete = 2 ∧
    Webview.OnWebFavicon (fun _ => .throws (.error "boom"))
      (some (({} : Webview).RegisterEvent "favicon" 10 false 41).2) = [.read] := by
  refine ⟨fun js => rfl, fun js => rfl, by decide, by decide, by decide, by decide, by decide⟩

/-- C28 (defect in the code).  The array that `saucer_desktop_pick_files` and
`saucer_desktop_pick_folders` return has one element for each path and no element after the
last: no null pointer ends it.  The scan of `PickFiles` and `PickFolders` looks for a null
element, so for every result of the picker it goes on to read the element behind the last one,
which is outside the array (for an empty selection that is the first read).  Had a null
element followed the paths, the scan would return exactly the paths, in order. -/
theorem C28_scan_reads_behind_the_array (handle : Nat) (paths : List String) :
    Desktop.PickFiles (some handle) (some paths) = .outOfBounds paths.length ∧
    Desktop.PickFolders (some handle) (some paths) = .outOfBounds paths.length ∧
    (saucer_desktop_pick_files (some paths)).map List.length = some paths.length ∧
    (∀ after : List (Option String),
      Desktop.scan 0 (paths.map some ++ none :: after) = .ok paths) ∧
    Desktop.PickFiles (some handle) none = .null ∧
    Desktop.PickFiles (some 1) (some ["/tmp/a.txt", "/tmp/b.txt"]) = .outOfBounds 2 ∧
    Desktop.PickFolders (some 1) (some []) = .outOfBounds 0 := by
  have h := Desktop.scan_unterminated paths 0
  refine ⟨?_, ?_, by simp [saucer_desktop_pick_files],
    fun after => Desktop.scan_terminated paths after 0, rfl, by decide, by decide⟩
  · simp [Desktop.PickFiles, saucer_desktop_pick_files, h]
  · simp [Desktop.PickFolders, saucer_desktop_pick_folders, h]

/-- C29 (defect in the code).  `Notification::Show` puts the title and the body between
double quotes as they are.  A title with a double quote ends the quotation, and what follows
it is read as further commands; a title with `$(` or a backquote is expanded by the shell; a
title that ends in a backslash takes the meaning from the closing quote.  Only a title and a
body without these characters are read as the two arguments of `notify-send`. -/
theorem C29_title_can_leave_the_quotation :
    Notification.Show "x\" ; touch /tmp/pwned ; \"" "b"
      = "notify-send \"x\" ; touch /tmp/pwned ; \"\" \"b\" 2>/dev/null &" ∧
    (sh.reading (Notification.Show "x\" ; touch /tmp/pwned ; \"" "b")).commands
      = [["notify-send".data, "x".data], ["touch".data, "/tmp/pwned".data],
         ["".data, "b".data, "2>/dev/null".data]] ∧
    (sh.reading (Notification.Show "$(id)" "b")).expansions = 1 ∧
    (sh.reading (Notification.Show "`id`" "b")).expansions = 2 ∧
    (sh.reading (Notification.Show "a\\" "b")).unclosed = true ∧
    sh.reading (Notification.Show "x\" ; touch /tmp/pwned ; \"" "b")
      ≠ Notification.promisedReading "x\" ; touch /tmp/pwned ; \"" "b" ∧
    sh.reading (Notification.Show "$(id)" "b") ≠ Notification.promisedReading "$(id)" "b" ∧
    sh.reading (Notification.Show "Build done" "3 warnings")
      = Notification.promisedReading "Build done" "3 warnings" := by
  decide

/-- C30.  For every string of bytes: the output of `UrlEncode` is made of unreserved
characters and of `%` only; it is the concatenation, in order, of what the loop appends for
each byte, which is either the byte itself, when it is unreserved, or `%` followed by the two
uppercase hexadecimal digits that spell it; a space gives `%20`; and percent-decoding the
output gives back the input.  `LoadHtml` puts the output behind the fixed head of the data
URI. -/
theorem C30_UrlEncode_is_lossless (s : List Nat) (hs : ∀ c ∈ s, c < 256) :
    percentDecode (UrlEncode s) = some s ∧
    (∀ b ∈ UrlEncode s, unreserved b = true ∨ b = '%'.toNat) ∧
    UrlEncode s = (s.map UrlEncode.step).flatten ∧
    (∀ c ∈ s,
      (UrlEncode.step c = [c] ∧ unreserved c = true) ∨
      (UrlEncode.step c
          = ['%'.toNat, UrlEncode.hex.getD (c / 16) 0, UrlEncode.hex.getD (c % 16) 0] ∧
        unreserved c = false ∧
        upperHexValue (UrlEncode.hex.getD (c / 16) 0) = some (c / 16) ∧
        upperHexValue (UrlEncode.hex.getD (c % 16) 0) = some (c % 16))) ∧
    UrlEncode.step ' '.toNat = "%20".data.map Char.toNat ∧
    LoadHtml.dataUri s = "data:text/html;charset=utf-8,".data.map Char.toNat ++ UrlEncode s := by
  refine ⟨percentDecode_UrlEncode s hs, UrlEncode_alphabet s hs, UrlEncode_eq_flatten s,
    fun c hc => ?_, by decide, rfl⟩
  rcases UrlEncode.step_cases c (hs c hc) with ⟨h1, h2, _⟩ | ⟨h1, h2, h3, h4, _⟩
  · exact Or.inl ⟨h1, h2⟩
  · exact Or.inr ⟨h1, h2, h3, h4⟩

/-- C30, witness: the bytes of `<p>a b</p>` followed by the bytes 37 (`%`), 0 and 255. -/
theorem C30_UrlEncode_is_lossless_witness :
    (∀ c ∈ [60, 112, 62, 97, 32, 98, 60, 47, 112, 62, 37, 0, 255], c < 256) ∧
    UrlEncode [60, 112, 62, 97, 32, 98, 60, 47, 112, 62, 37, 0, 255]
      = "%3Cp%3Ea%20b%3C%2Fp%3E%25%00%FF".data.map Char.toNat ∧
    percentDecode (UrlEncode [60, 112, 62, 97, 32, 98, 60, 47, 112, 62, 37, 0, 255])
      = some [60, 112, 62, 97, 32, 98, 60, 47, 112, 62, 37, 0, 255] :=
  ⟨by decide, by decide,
    (C30_UrlEncode_is_lossless [60, 112, 62, 97, 32, 98, 60, 47, 112, 62, 37, 0, 255]
      (by decide)).1⟩

end Saucer
